import Mathlib

/-!
Verification of the gdoc-crawler pipeline (crawler / uploader / patcher).

Strings are modelled as `List Char`; all verified inputs are ASCII, so one
`Char` stands for one byte of the Go string.  Go regular expressions used by
the code are simple literal-plus-character-class patterns and are modelled by
explicit scanning functions.  External effects (HTTP fetches, Drive uploads,
Docs batch updates, the random jitter source) are supplied as oracles, i.e.
explicit function parameters.
-/

namespace GdocPipeline

abbrev Str := List Char

/-- Char is a lowercase letter or digit, byte-range formulation of the
Go character class `[a-z0-9]` used by the crawler's slug regexes. -/
def isLowerAlnum (c : Char) : Bool :=
  (97 ≤ c.toNat && c.toNat ≤ 122) || (48 ≤ c.toNat && c.toNat ≤ 57)

/-- Character admissible inside a captured id: the Go character class `[^/?#]`. -/
def validIdChar (c : Char) : Bool :=
  !(c == '/' || c == '?' || c == '#')

/-- Boolean list-prefix test (Go's regexp anchored-literal matching and
strings.HasPrefix are expressed with it). -/
def isPref : Str → Str → Bool
  | [], _ => true
  | _ :: _, [] => false
  | a :: as, b :: bs => a == b && isPref as bs

/-- Go strings.Contains. -/
def containsSub (pat : Str) (s : Str) : Bool :=
  match s with
  | [] => isPref pat []
  | _ :: rest => isPref pat s || containsSub pat rest

/-- First (leftmost) submatch of a Go regex of shape `lit([^/?#]+)`:
scan start positions left to right; at a position the literal must match and
must be followed by at least one `[^/?#]` character, the capture being the
maximal run of such characters. -/
def findCap (lit : Str) (s : Str) : Option Str :=
  match s with
  | [] => none
  | c :: rest =>
    if isPref lit (c :: rest) then
      let cap := ((c :: rest).drop lit.length).takeWhile validIdChar
      if cap = [] then findCap lit rest else some cap
    else findCap lit rest

def docLit : Str := "docs.google.com/document/d/".data
def sheetLit : Str := "docs.google.com/spreadsheets/d/".data

/-- Submatch of the crawler regex `docs\.google\.com/document/d/([^/?#]+)`. -/
def docSub (s : Str) : Option Str := findCap docLit s

/-- Submatch of the crawler regex `docs\.google\.com/spreadsheets/d/([^/?#]+)`. -/
def sheetSub (s : Str) : Option Str := findCap sheetLit s

def gdocPre : Str := "docs.google.com/".data
def docWord : Str := "document".data
def sheetWord : Str := "spreadsheets".data
def dSeg : Str := "/d/".data

/-- Attempt of the regex alternation `word/d/([^/?#]+)` at the position just
after the `docs.google.com/` literal. -/
def gdocWordAt (word t : Str) : Option (Str × Str) :=
  if isPref word t then
    if isPref dSeg (t.drop word.length) then
      if ((t.drop word.length).drop dSeg.length).takeWhile validIdChar = [] then none
      else some (word, ((t.drop word.length).drop dSeg.length).takeWhile validIdChar)
    else none
  else none

/-- Attempt of the combined regex `docs\.google\.com/(document|spreadsheets)/d/([^/?#]+)`
at one start position, returning (kind word, id); the alternation prefers
`document` (the two words cannot both match). -/
def gdocAt (s : Str) : Option (Str × Str) :=
  if isPref gdocPre s then
    match gdocWordAt docWord (s.drop gdocPre.length) with
    | some r => some r
    | none => gdocWordAt sheetWord (s.drop gdocPre.length)
  else none

/-- Leftmost match of the combined pattern (part_007 `googleDocsRe`). -/
def gdocSub (s : Str) : Option (Str × Str) :=
  match s with
  | [] => none
  | c :: rest =>
    match gdocAt (c :: rest) with
    | some r => some r
    | none => gdocSub rest

/-- Anchored prefix test of `redirectRe  = ^https?://(www\.)?google\.com/url`. -/
def redirectMatch (s : Str) : Bool :=
  isPref ("http://google.com/url").data s ||
  isPref ("https://google.com/url").data s ||
  isPref ("http://www.google.com/url").data s ||
  isPref ("https://www.google.com/url").data s

/-! ## Percent-coding (net/url QueryEscape / QueryUnescape, ASCII fragment) -/

def hexDigitsLow : Str := "0123456789abcdef".data
def hexDigitsUp : Str := "0123456789ABCDEF".data

def hexLow (n : Nat) : Char := hexDigitsLow.getD n '0'
def hexUp (n : Nat) : Char := hexDigitsUp.getD n '0'

/-- Value of a hex digit, accepting both cases (Go `ishex`/`unhex`). -/
def hexVal (c : Char) : Option Nat :=
  if 48 ≤ c.toNat && c.toNat ≤ 57 then some (c.toNat - 48)
  else if 97 ≤ c.toNat && c.toNat ≤ 102 then some (c.toNat - 87)
  else if 65 ≤ c.toNat && c.toNat ≤ 70 then some (c.toNat - 55)
  else none

/-- Go url.QueryUnescape: `+` becomes space, `%XX` decodes, a malformed
escape is an error (`none`). -/
def queryUnescape : Str → Option Str
  | [] => some []
  | c :: rest =>
    if c = '%' then
      match rest with
      | h1 :: h2 :: rest2 =>
        match hexVal h1, hexVal h2 with
        | some a, some b => (queryUnescape rest2).map (fun t => Char.ofNat (16 * a + b) :: t)
        | _, _ => none
      | _ => none
    else if c = '+' then (queryUnescape rest).map (fun t => ' ' :: t)
    else (queryUnescape rest).map (fun t => c :: t)

/-- Unreserved characters of Go url.QueryEscape (kept verbatim). -/
def isUnreserved (c : Char) : Bool :=
  (65 ≤ c.toNat && c.toNat ≤ 90) || (97 ≤ c.toNat && c.toNat ≤ 122) ||
  (48 ≤ c.toNat && c.toNat ≤ 57) ||
  c == '-' || c == '_' || c == '.' || c == '~'

/-- Go url.QueryEscape on ASCII input (non-ASCII would be escaped per UTF-8
byte by Go; all inputs in this development are ASCII). -/
def queryEscape : Str → Str
  | [] => []
  | c :: rest =>
    if isUnreserved c then c :: queryEscape rest
    else if c == ' ' then '+' :: queryEscape rest
    else '%' :: hexUp (c.toNat / 16) :: hexUp (c.toNat % 16) :: queryEscape rest

/-! ## Query-string handling (net/url Parse / Values.Get) -/

/-- The list after the first occurrence of `c`, `none` when absent. -/
def dropThroughChar (c : Char) : Str → Option Str
  | [] => none
  | x :: rest => if x == c then some rest else dropThroughChar c rest

/-- Raw query component as url.Parse assigns it: the fragment is split off at
the first `#`, the query is everything after the first `?` of the rest. -/
def rawQueryOf (u : Str) : Str :=
  match dropThroughChar '?' (u.takeWhile (fun c => c != '#')) with
  | some q => q
  | none => []

/-- Go strings.Cut at the first occurrence of `c`: (before, after); when `c`
is absent the second component is empty, matching the zero value Go uses. -/
def cutAt (c : Char) : Str → Str × Str
  | [] => ([], [])
  | x :: rest =>
    if x == c then ([], rest)
    else
      let p := cutAt c rest
      (x :: p.1, p.2)

/-- Chunks of the raw query split at `&` (the strings.Cut loop of
url.ParseQuery); an empty input yields no chunk. -/
def splitAmp : Str → List Str
  | [] => []
  | x :: rest =>
    if x == '&' then [] :: splitAmp rest
    else
      match splitAmp rest with
      | [] => [[x]]
      | h :: t => (x :: h) :: t

/-- Key/value pairs of a raw query in scan order, per url.ParseQuery: empty
chunks are skipped, chunks containing `;` are skipped, both sides are
percent-decoded and a chunk whose side fails to decode is skipped. -/
def pairsOf (q : Str) : List (Str × Str) :=
  (splitAmp q).foldr
    (fun chunk acc =>
      if chunk = [] then acc
      else if chunk.contains ';' then acc
      else
        match queryUnescape (cutAt '=' chunk).1, queryUnescape (cutAt '=' chunk).2 with
        | some k, some v => (k, v) :: acc
        | _, _ => acc)
    []

/-- url.Values.Get: first value recorded for the key, empty when absent. -/
def queryGet (name : Str) (u : Str) : Str :=
  match (pairsOf (rawQueryOf u)).find? (fun p => p.1 == name) with
  | some p => p.2
  | none => []

def qName : Str := ['q']

/-! ## Canonicalisation (steps/patcher.go canonicalLink, part_007
canonicalizeURL, steps/crawler.go canonicalKey, part_004 canonicalLink) -/

/-- Loop body of patcher.go `canonicalLink` with the remaining iteration
budget explicit: while the redirector regex matches, read the `q` parameter;
an empty `q` stops, a failed unescape leaves the Go zero value "" in `u`
(the next iteration then stops since "" does not match the regex). -/
def canonicalLinkLoop : Nat → Str → Str
  | 0, u => u
  | n + 1, u =>
    if redirectMatch u then
      let q := queryGet qName u
      if q = [] then u
      else canonicalLinkLoop n ((queryUnescape q).getD [])
    else u

/-- steps/patcher.go `canonicalLink`: unwrap the Google redirector, at most
3 levels.  (Go's url.Parse is modelled as total; its rare failure cases on
ASCII input are outside the verified scope.) -/
def canonicalLink (raw : Str) : Str := canonicalLinkLoop 3 raw

/-- Unwrap loop of part_007 `canonicalizeURL`: identical to the patcher
variant except that a failed unescape breaks out keeping the current URL. -/
def unwrapLoop : Nat → Str → Str
  | 0, u => u
  | n + 1, u =>
    if redirectMatch u then
      let q := queryGet qName u
      if q = [] then u
      else
        match queryUnescape q with
        | none => u
        | some v => unwrapLoop n v
    else u

def docKeyPre : Str := "doc:".data
def sheetKeyPre : Str := "sheet:".data

/-- part_007 `canonicalizeURL`: unwrap redirects (max 3 levels), then match
the combined doc/sheet regex and build the canonical key, returning
(canonicalKey, cleanURL); an unmatched URL yields the empty key. -/
def canonicalizeURL (rawURL : Str) : Str × Str :=
  let cleanURL := unwrapLoop 3 rawURL
  match gdocSub cleanURL with
  | none => ([], cleanURL)
  | some kid =>
    if kid.1 = docWord then (docKeyPre ++ kid.2, cleanURL)
    else if kid.1 = sheetWord then (sheetKeyPre ++ kid.2, cleanURL)
    else ([], cleanURL)

/-- part_007 `extractID`: the id part of a canonical key. -/
def extractID (canonicalKey : Str) : Str :=
  let p := cutAt ':' canonicalKey
  if containsSub [':'] canonicalKey then p.2 else []

/-- steps/crawler.go `canonicalKey`: canonicalLink then the two regexes in
order, document first. -/
def canonicalKey (link : Str) : Str :=
  match docSub (canonicalLink link) with
  | some id => docKeyPre ++ id
  | none =>
    match sheetSub (canonicalLink link) with
    | some id => sheetKeyPre ++ id
    | none => []

/-- patcher.go `stripQuery`: cut at the first `?` or `#`. -/
def stripQuery (u : Str) : Str :=
  u.takeWhile (fun c => c != '?' && c != '#')

/-- Unwrap loop of part_004 `canonicalLink`: the loop condition is a
substring test for `://www.google.com/url?`; a failed unescape leaves "" in
`u` exactly like the patcher variant. -/
def tidyLoop : Nat → Str → Str
  | 0, u => u
  | n + 1, u =>
    if containsSub ("://www.google.com/url?").data u then
      let q := queryGet qName u
      if q = [] then u
      else tidyLoop n ((queryUnescape q).getD [])
    else u

def tidyPre : Str := "https://docs.google.com/".data

/-- Anchored match of part_004
`tidyRE = ^(https://docs\.google\.com/(?:document|spreadsheets)/d/[^/]+)`,
returning the first group (the URL truncated to its `kind/d/id` root). -/
def tidyRootAt (u : Str) : Option Str :=
  if isPref tidyPre u then
    let t := u.drop tidyPre.length
    let kres : Option Str :=
      if isPref docWord t then some docWord
      else if isPref sheetWord t then some sheetWord
      else none
    match kres with
    | none => none
    | some w =>
      let t2 := t.drop w.length
      if isPref dSeg t2 then
        let cap := (t2.drop dSeg.length).takeWhile (fun c => c != '/')
        if cap = [] then none else some (tidyPre ++ w ++ dSeg ++ cap)
      else none
  else none

/-- part_004 `canonicalLink`: unwrap the redirector (max 3 levels), strip
`?query`/`#fragment`, then keep only the part through `.../d/<id>` when the
URL has that shape. -/
def canonicalLinkTidy (raw : Str) : Str :=
  let u := tidyLoop 3 raw
  let u := u.takeWhile (fun c => c != '?' && c != '#')
  match tidyRootAt u with
  | some r => r
  | none => u

/-! ## SHA-1 (crypto/sha1, used only for the slug fallback) and makeSlug -/

def w32 (n : Nat) : Nat := n % 4294967296

def rotl (k x : Nat) : Nat := w32 (x * 2 ^ k) + x / 2 ^ (32 - k)

/-- Pad a byte message per SHA-1: append 0x80, zeros to 56 mod 64, then the
bit length as 8 big-endian bytes. -/
def sha1Pad (msg : List Nat) : List Nat :=
  let ml := msg.length * 8
  let zeros := (120 - (msg.length + 1) % 64) % 64
  msg ++ [128] ++ List.replicate zeros 0 ++
    [ml / 2 ^ 56 % 256, ml / 2 ^ 48 % 256, ml / 2 ^ 40 % 256, ml / 2 ^ 32 % 256,
     ml / 2 ^ 24 % 256, ml / 2 ^ 16 % 256, ml / 2 ^ 8 % 256, ml % 256]

def toChunks (l : List Nat) : List (List Nat) :=
  match l with
  | [] => []
  | x :: tail => (x :: tail).take 64 :: toChunks ((x :: tail).drop 64)
  termination_by l.length
  decreasing_by simp [List.length_drop, List.length_cons]; omega

def toWords : List Nat → List Nat
  | b0 :: b1 :: b2 :: b3 :: rest =>
    (b0 * 16777216 + b1 * 65536 + b2 * 256 + b3) :: toWords rest
  | _ => []

/-- Extension rounds producing words 16..79, kept in reverse order (the head
is the newest word). -/
def extendRounds : Nat → List Nat → List Nat
  | 0, r => r
  | n + 1, r =>
    let x := Nat.xor (Nat.xor (r.getD 2 0) (r.getD 7 0)) (Nat.xor (r.getD 13 0) (r.getD 15 0))
    extendRounds n (rotl 1 x :: r)

def sha1F (i b c d : Nat) : Nat :=
  if i < 20 then Nat.lor (Nat.land b c) (Nat.land (Nat.xor b 4294967295) d)
  else if i < 40 then Nat.xor (Nat.xor b c) d
  else if i < 60 then Nat.lor (Nat.lor (Nat.land b c) (Nat.land b d)) (Nat.land c d)
  else Nat.xor (Nat.xor b c) d

def sha1K (i : Nat) : Nat :=
  if i < 20 then 1518500249
  else if i < 40 then 1859775393
  else if i < 60 then 2400959708
  else 3395469782

def sha1Rounds : List Nat → Nat → Nat × Nat × Nat × Nat × Nat → Nat × Nat × Nat × Nat × Nat
  | [], _, st => st
  | w :: ws, i, (a, b, c, d, e) =>
    let temp := w32 (rotl 5 a + sha1F i b c d + e + sha1K i + w)
    sha1Rounds ws (i + 1) (temp, a, rotl 30 b, c, d)

def be4 (x : Nat) : List Nat :=
  [x / 16777216 % 256, x / 65536 % 256, x / 256 % 256, x % 256]

/-- SHA-1 digest (20 bytes) of a byte message. -/
def sha1Bytes (msg : List Nat) : List Nat :=
  let h := (toChunks (sha1Pad msg)).foldl
    (fun (h : Nat × Nat × Nat × Nat × Nat) chunk =>
      let ws := (extendRounds 64 (toWords chunk).reverse).reverse
      let r := sha1Rounds ws 0 h
      (w32 (h.1 + r.1), w32 (h.2.1 + r.2.1), w32 (h.2.2.1 + r.2.2.1),
       w32 (h.2.2.2.1 + r.2.2.2.1), w32 (h.2.2.2.2 + r.2.2.2.2)))
    (1732584193, 4023233417, 2562383102, 271733878, 3285377520)
  be4 h.1 ++ be4 h.2.1 ++ be4 h.2.2.1 ++ be4 h.2.2.2.1 ++ be4 h.2.2.2.2

/-- Lowercase hex rendering of bytes (fmt %x of a byte slice). -/
def hexStr (bs : List Nat) : Str :=
  bs.foldr (fun b acc => hexLow (b / 16) :: hexLow (b % 16) :: acc) []

/-- Hex of the first 6 digest bytes of the id (`%x` of `sha1.Sum(id)[:6]`).
Bytes of the id are its characters (ASCII scope). -/
def sha1Hex6 (id : Str) : Str :=
  hexStr ((sha1Bytes (id.map Char.toNat)).take 6)

/-- Go's ASCII lowering as applied by strings.ToLower; non-ASCII letters are
irrelevant because the following step replaces every non-`[a-z0-9]` rune. -/
def asciiLower (c : Char) : Char :=
  if 65 ≤ c.toNat && c.toNat ≤ 90 then Char.ofNat (c.toNat + 32) else c

/-- Replace each maximal run of characters satisfying `p` with the single
character `r` (Go ReplaceAllString of a `(...)+` class with a one-char
replacement). -/
def collapseRuns (p : Char → Bool) (r : Char) : Str → Str
  | [] => []
  | [c] => if p c then [r] else [c]
  | c :: d :: rest =>
    if p c then
      if p d then collapseRuns p r (d :: rest)
      else r :: collapseRuns p r (d :: rest)
    else c :: collapseRuns p r (d :: rest)

/-- strings.Trim of the hyphen cutset. -/
def trimHyphens (s : Str) : Str :=
  ((s.dropWhile (fun c => c == '-')).reverse.dropWhile (fun c => c == '-')).reverse

/-- Go slice `s[:n]`: defined only when `n ≤ len(s)` (out of range panics). -/
def goSliceTo (s : Str) (n : Nat) : Option Str :=
  if n ≤ s.length then some (s.take n) else none

/-- crawler makeSlug: lower, collapse non-alphanumeric runs to `-`, collapse
hyphen runs (`-{2,}`; collapsing all runs is the same function), trim
hyphens, truncate to 60 bytes, fall back to a hash of the id when empty, and
append `-` plus the first 6 bytes of the id — `none` models the panic of the
unchecked `id[:6]`. -/
def makeSlug (title id : Str) : Option Str :=
  let s0 := title.map asciiLower
  let s1 := collapseRuns (fun c => !(isLowerAlnum c)) '-' s0
  let s2 := collapseRuns (fun c => c == '-') '-' s1
  let s3 := trimHyphens s2
  let s4 := if s3.length > 60 then s3.take 60 else s3
  let s5 := if s4 = [] then sha1Hex6 id else s4
  match goSliceTo id 6 with
  | none => none
  | some id6 => some (s5 ++ '-' :: id6)

/-! ## Discovery crawler (steps/crawler.go, Crawler.Run work-queue loop)

The HTTP layer is an oracle `env : Str → Option Page` giving, per task URL,
the fetched export (`none` = fetch failure); a `Page` carries the extracted
title and the raw href attribute values found by the HTML walk, in document
order.  Standard-library URL reference resolution (`url.Parse` /
`ResolveReference` inside `Crawler.resolve`) is the oracle `rs`; the sheet
preview-title fetch (whose error is ignored by the code) is the total oracle
`sheetTitle`. -/

structure Config where
  maxDepth : Nat
deriving DecidableEq, Repr

structure Task where
  link : Str
  depth : Nat
  parent : Str
deriving DecidableEq, Repr

structure Page where
  title : Str
  hrefs : List Str
deriving DecidableEq, Repr

def joinPath (a b : Str) : Str := a ++ '/' :: b

/-- crawler.go `extractIDFromURL`: first doc-regex submatch, else sheet. -/
def extractIDFromURL (u : Str) : Str :=
  match docSub u with
  | some id => id
  | none =>
    match sheetSub u with
    | some id => id
    | none => []

/-- Association-list lookup standing for a Go map read (`m[k]` with comma-ok). -/
def lookupA (m : List (Str × Str)) (k : Str) : Option Str :=
  match m with
  | [] => none
  | p :: rest => if p.1 = k then some p.2 else lookupA rest k

/-- The href filter of `Crawler.extractLinks`: resolve against the task link
(the resolver itself returns a canonicalLink-ed URL) and canonicalLink the
result again, keeping it when non-empty and matched by either id regex. -/
def filteredHref (rs : Str → Str → Str) (base h : Str) : Option Str :=
  if canonicalLink (rs base h) ≠ [] ∧
      ((docSub (canonicalLink (rs base h))).isSome ∨
        (sheetSub (canonicalLink (rs base h))).isSome) then
    some (canonicalLink (rs base h))
  else none

/-- Links that `Crawler.extractLinks` would emit for a page fetched at
`link` (used by the termination measure). -/
def nestedLinks (rs : Str → Str → Str) (link : Str) (hrefs : List Str) : List Str :=
  hrefs.filterMap (filteredHref rs link)

/-- crawler.go `Crawler.extractLinks` on the fetched page of task `t`:
each filtered href becomes a task at `t.Depth + 1` whose parent joins
`makeSlug("", extractIDFromURL(href))`; `none` models the `id[:6]` panic
inside that slug computation. -/
def extractLinksM (rs : Str → Str → Str) (t : Task) : List Str → Option (List Task)
  | [] => some []
  | h :: rest =>
    match filteredHref rs t.link h with
    | none => extractLinksM rs t rest
    | some href =>
      match makeSlug [] (extractIDFromURL href) with
      | none => none
      | some slug =>
        match extractLinksM rs t rest with
        | none => none
        | some ts => some ({ link := href, depth := t.depth + 1,
                             parent := joinPath t.parent slug } :: ts)

inductive Event where
  | fetchedDoc (key : Str) (depth : Nat)
  | fetchedSheet (key : Str) (depth : Nat)
  | dup (key : Str) (depth : Nat)
  | dropDepth (link : Str) (depth : Nat)
  | dropScope (link : Str) (depth : Nat)
  | fetchFail (link : Str) (depth : Nat)
  | enq (link : Str) (depth : Nat)
deriving DecidableEq, Repr

structure CrawlState where
  queue : List Task
  seen : List (Str × Str)
  events : List Event
  panicked : Bool
deriving DecidableEq, Repr

def initState (startURL outDir : Str) : CrawlState :=
  { queue := [{ link := startURL, depth := 0, parent := outDir }],
    seen := [], events := [], panicked := false }

/-- One iteration of the `Crawler.Run` work-queue loop (crawler.go 87-108
plus processTask / processDocument / processSheet / scrapeDoc / scrapeSheet):
pop a task; discard beyond maxDepth; discard out-of-scope keys; an
already-seen key only writes redirect metadata; otherwise fetch, persist,
record the key in `seen`, and for documents enqueue the extracted links.
`none` means the loop has halted (empty queue, or a Go panic occurred). -/
def crawlStep (cfg : Config) (env : Str → Option Page) (rs : Str → Str → Str)
    (sheetTitle : Str → Str) (st : CrawlState) : Option CrawlState :=
  if st.panicked then none else
  match st.queue with
  | [] => none
  | t :: rest =>
    some <|
    if t.depth > cfg.maxDepth then
      { st with queue := rest, events := st.events ++ [.dropDepth t.link t.depth] }
    else
      if canonicalKey t.link = [] then
        { st with queue := rest, events := st.events ++ [.dropScope t.link t.depth] }
      else
        match lookupA st.seen (canonicalKey t.link) with
        | some _dir =>
          { st with
            queue := rest
            events := st.events ++ [.dup (canonicalKey t.link) t.depth] }
        | none =>
          if isPref docKeyPre (canonicalKey t.link) then
            match docSub t.link with
            | none => { st with queue := rest, panicked := true }
            | some id =>
              match env t.link with
              | none =>
                { st with queue := rest, events := st.events ++ [.fetchFail t.link t.depth] }
              | some page =>
                match makeSlug page.title id with
                | none => { st with queue := rest, panicked := true }
                | some slug =>
                  match extractLinksM rs t page.hrefs with
                  | none =>
                    { st with
                      queue := rest
                      panicked := true
                      events := st.events ++ [.fetchedDoc (canonicalKey t.link) t.depth] }
                  | some nested =>
                    { st with
                      queue := rest ++ nested
                      seen := st.seen ++ [(canonicalKey t.link, joinPath t.parent slug)]
                      events := st.events ++ .fetchedDoc (canonicalKey t.link) t.depth ::
                        nested.map (fun n => .enq n.link n.depth) }
          else
            match sheetSub t.link with
            | none => { st with queue := rest, panicked := true }
            | some id =>
              match makeSlug (sheetTitle id) id with
              | none => { st with queue := rest, panicked := true }
              | some slug =>
                match env t.link with
                | none =>
                  { st with queue := rest, events := st.events ++ [.fetchFail t.link t.depth] }
                | some _page =>
                  { st with
                    queue := rest
                    seen := st.seen ++ [(canonicalKey t.link, joinPath t.parent slug)]
                    events := st.events ++ [.fetchedSheet (canonicalKey t.link) t.depth] }

/-- Run the loop for at most `fuel` iterations. -/
def crawlRun (cfg : Config) (env : Str → Option Page) (rs : Str → Str → Str)
    (sheetTitle : Str → Str) : Nat → CrawlState → CrawlState
  | 0, st => st
  | n + 1, st =>
    match crawlStep cfg env rs sheetTitle st with
    | none => st
    | some st2 => crawlRun cfg env rs sheetTitle n st2

/-- Links a fetched document at `link` would enqueue (empty for sheets,
out-of-scope links and failed fetches); depth-independent. -/
def nestedLinksOf (env : Str → Option Page) (rs : Str → Str → Str) (link : Str) : List Str :=
  if isPref docKeyPre (canonicalKey link) then
    match env link with
    | some page => nestedLinks rs link page.hrefs
    | none => []
  else []

/-- Potential of a pending link under a remaining depth budget: 1 for its own
dequeue plus the potentials of everything it can enqueue. -/
def pot (env : Str → Option Page) (rs : Str → Str → Str) : Nat → Str → Nat
  | 0, _ => 1
  | b + 1, link => 1 + ((nestedLinksOf env rs link).map (pot env rs b)).sum

def taskBudget (cfg : Config) (t : Task) : Nat := cfg.maxDepth + 1 - t.depth

/-- Termination measure of the work-queue loop. -/
def crawlMeasure (cfg : Config) (env : Str → Option Page) (rs : Str → Str → Str)
    (st : CrawlState) : Nat :=
  (st.queue.map (fun t => pot env rs (taskBudget cfg t) t.link)).sum

/-! ## Republisher (part_008 Uploader.Run)

Records are presented with their metadata already decoded (the fatal
metadata-load failure of Uploader.Run is environmental and outside the
modelled scope); the Drive publish protocol is the oracle
`publish : Str → Metadata → Option Str` taking the content path and the
record, yielding the new destination id or `none` on upload failure. -/

def docTypeS : Str := "doc".data
def sheetTypeS : Str := "sheet".data

/-- steps/types Metadata, restricted to the fields the modelled steps read. -/
structure Metadata where
  title : Str
  id : Str
  type : Str
  isRedirect : Bool
deriving DecidableEq, Repr

structure URecord where
  dir : Str
  meta : Metadata
deriving DecidableEq, Repr

structure UploadStats where
  totalUploaded : Nat
  failed : Nat
  skipped : Nat
deriving DecidableEq, Repr

/-- Go map assignment `m[k] = v` on the association-list model. -/
def assocSet (m : List (Str × Str)) (k v : Str) : List (Str × Str) :=
  if (lookupA m k).isSome then m.map (fun p => if p.1 = k then (k, v) else p)
  else m ++ [(k, v)]

/-- part_008 `getContentFileName` (empty for unsupported types). -/
def contentFileName (t : Str) : Str :=
  if t = docTypeS then "content.html".data
  else if t = sheetTypeS then "content.csv".data
  else []

/-- Identity key `fmt.Sprintf("%s:%s", metadata.Type, metadata.ID)`. -/
def goTypeKey (t id : Str) : Str := t ++ ':' :: id

structure UploadResult where
  idMap : List (Str × Str)
  stats : UploadStats
  written : Option (List (Str × Str))
deriving DecidableEq, Repr

/-- Body of the per-directory loop of part_008 Uploader.Run together with
processDirectory: skip redirects; an unsupported content type or a failed
upload counts as failed; a successful upload inserts `type:id → newID`. -/
def uploadOne (publish : Str → Metadata → Option Str)
    (acc : List (Str × Str) × UploadStats) (r : URecord) :
    List (Str × Str) × UploadStats :=
  let m := acc.1
  let st := acc.2
  if r.meta.isRedirect then (m, { st with skipped := st.skipped + 1 })
  else
    let cf := contentFileName r.meta.type
    if cf = [] then (m, { st with failed := st.failed + 1 })
    else
      match publish (joinPath r.dir cf) r.meta with
      | none => (m, { st with failed := st.failed + 1 })
      | some newID =>
        (assocSet m (goTypeKey r.meta.type r.meta.id) newID,
         { st with totalUploaded := st.totalUploaded + 1 })

/-- part_008 Uploader.Run followed by writeIDMap: an empty mapping writes no
id_map.json at all (`written = none`) and Run still succeeds. -/
def uploaderRun (publish : Str → Metadata → Option Str)
    (records : List URecord) : UploadResult :=
  let acc := records.foldl (uploadOne publish) ([], ⟨0, 0, 0⟩)
  { idMap := acc.1, stats := acc.2,
    written := if acc.1 = [] then none else some acc.1 }

/-! ## Reference patcher (steps/patcher.go, part_004)

The Docs service is presented through oracles: `fetchDoc` for Documents.Get
(`none` = fetch error) and, per submitted batch, `batchCalls i` giving the
error of the i-th BatchUpdate attempt (`none` = success); `jitter i` is the
value drawn from `rand.Int63n(delay/2)` before retry `i+1`. -/

abbrev IdMap := List (Str × Str)

/-- Go map read `m[k]` without comma-ok: the zero value "" when absent. -/
def lookupGo (m : IdMap) (k : Str) : Str := (lookupA m k).getD []

def linkPre : Str := "https://docs.google.com/".data

/-- Match of the patcher regex
`https://docs\.google\.com/(document|spreadsheets)/d/([^/?#]+)` at one start
position, yielding (kind, id). -/
def linkAt (s : Str) : Option (Str × Str) :=
  if isPref linkPre s then
    let t := s.drop linkPre.length
    if isPref docWord t then
      let u := t.drop docWord.length
      if isPref dSeg u then
        let cap := (u.drop dSeg.length).takeWhile validIdChar
        if cap = [] then none else some (docWord, cap)
      else none
    else if isPref sheetWord t then
      let u := t.drop sheetWord.length
      if isPref dSeg u then
        let cap := (u.drop dSeg.length).takeWhile validIdChar
        if cap = [] then none else some (sheetWord, cap)
      else none
    else none
  else none

/-- Length of the full match `m[0]` corresponding to `linkAt`. -/
def linkMatchLen (kid : Str × Str) : Nat :=
  linkPre.length + kid.1.length + dSeg.length + kid.2.length

/-- All leftmost, non-overlapping submatches (regexp FindAllSubmatch). -/
def linkMatches (s : Str) : List (Str × Str) :=
  match s with
  | [] => []
  | x :: rest =>
    match linkAt (x :: rest) with
    | some kid => kid :: linkMatches ((x :: rest).drop (linkMatchLen kid))
    | none => linkMatches rest
  termination_by s.length
  decreasing_by
    · have hp : 0 < linkPre.length := by decide
      simp [List.length_drop, List.length_cons, linkMatchLen]
      omega
    · simp

/-- The full match string `m[0]` of a (kind, id) submatch. -/
def gURL (kind id : Str) : Str := linkPre ++ kind ++ dSeg ++ id

/-- The internal key format of `buildURLMap` (document → doc:, spreadsheets
→ sheet:, anything else gives the Go zero value ""). -/
def goKey (kind id : Str) : Str :=
  if kind = docWord then docKeyPre ++ id
  else if kind = sheetWord then sheetKeyPre ++ id
  else []

/-- The replacement URL `https://docs.google.com/<kind>/d/<newID>/edit`. -/
def editURL (kind newID : Str) : Str :=
  linkPre ++ kind ++ dSeg ++ newID ++ "/edit".data

/-- patcher.go / part_004 `buildURLMap`: for each link matched in the crawled
HTML whose key is present in the id map, record
`stripQuery(match) → editURL`. -/
def buildURLMap (html : Str) (idMap : IdMap) : List (Str × Str) :=
  (linkMatches html).foldl
    (fun urlMap kid =>
      match lookupA idMap (goKey kid.1 kid.2) with
      | none => urlMap
      | some newID => assocSet urlMap (stripQuery (gURL kid.1 kid.2)) (editURL kid.1 newID))
    []

/-! Structural document representation of the Docs API (docs/v1), restricted
to the fields the patcher walks. -/

structure GLink where
  url : Str
deriving DecidableEq, Repr

structure GTextStyle where
  link : Option GLink
deriving DecidableEq, Repr

structure GTextRun where
  textStyle : Option GTextStyle
deriving DecidableEq, Repr

structure GParagraphElement where
  startIndex : Int
  endIndex : Int
  textRun : Option GTextRun
deriving DecidableEq, Repr

structure GParagraph where
  elements : List GParagraphElement
deriving DecidableEq, Repr

structure GStructuralElement where
  paragraph : Option GParagraph
deriving DecidableEq, Repr

structure GDocument where
  content : List GStructuralElement
deriving DecidableEq, Repr

/-- An UpdateTextStyle request: range of the paragraph element plus the new
link URL, fields "link". -/
structure GRequest where
  startIndex : Int
  endIndex : Int
  url : Str
deriving DecidableEq, Repr

/-- The URL of the reference carried by a paragraph element, if all of
textRun, textStyle and link are present. -/
def linkURLOf (e : GParagraphElement) : Option Str :=
  match e.textRun with
  | none => none
  | some tr =>
    match tr.textStyle with
    | none => none
    | some ts =>
      match ts.link with
      | none => none
      | some lk => some lk.url

/-- patcher.go `buildPatchRequests` (double loop with append accumulator):
one request per text run whose canonicalLink-ed reference is a key of the
urlMap. -/
def buildPatchRequests (doc : GDocument) (urlMap : List (Str × Str)) : List GRequest :=
  doc.content.foldl
    (fun reqs se =>
      match se.paragraph with
      | none => reqs
      | some para =>
        para.elements.foldl
          (fun reqs2 el =>
            match linkURLOf el with
            | none => reqs2
            | some u =>
              match lookupA urlMap (canonicalLink u) with
              | none => reqs2
              | some nu => reqs2 ++ [{ startIndex := el.startIndex, endIndex := el.endIndex, url := nu }])
          reqs)
    []

/-- part_004 `buildPatchRequests`: identical walk, but the reference is
canonicalised with the part_004 canonicalLink (query-strip and root
truncation). -/
def buildPatchRequestsT (doc : GDocument) (urlMap : List (Str × Str)) : List GRequest :=
  doc.content.foldl
    (fun reqs se =>
      match se.paragraph with
      | none => reqs
      | some para =>
        para.elements.foldl
          (fun reqs2 el =>
            match linkURLOf el with
            | none => reqs2
            | some u =>
              match lookupA urlMap (canonicalLinkTidy u) with
              | none => reqs2
              | some nu => reqs2 ++ [{ startIndex := el.startIndex, endIndex := el.endIndex, url := nu }])
          reqs)
    []

/-! ## Retry policy (patcher.go executeWithRetry) -/

/-- Errors surfaced by the Docs API: a googleapi.Error with its code, or an
error of any other kind. -/
inductive ApiErr where
  | google (code : Int)
  | other
deriving DecidableEq, Repr

/-- The retry condition of executeWithRetry: a googleapi.Error with code 503. -/
def retryable : ApiErr → Bool
  | .google 503 => true
  | _ => false

inductive RetryErr where
  | nonRetryable (e : ApiErr)
  | exhausted (attempts : Nat)
deriving DecidableEq, Repr

structure RetryResult where
  outcome : Except RetryErr Unit
  attempts : Nat
  sleeps : List Nat
deriving Repr

/-- Backoff delay before retry `i+1`, in nanoseconds:
`base * 2^i` with `base = time.Second`. -/
def backoffDelay (i : Nat) : Nat := 1000000000 * 2 ^ i

/-- The attempt loop of executeWithRetry, from attempt index `i`: success
returns immediately; a non-503 error returns immediately; a 503 sleeps
`delay + jitter` (jitter drawn from `[0, delay/2)`) and retries. -/
def retryLoop (calls : Nat → Option ApiErr) (jitter : Nat → Nat) (maxA : Nat)
    (i : Nat) (sleeps : List Nat) : RetryResult :=
  if i < maxA then
    match calls i with
    | none => { outcome := .ok (), attempts := i + 1, sleeps := sleeps }
    | some e =>
      if retryable e then
        retryLoop calls jitter maxA (i + 1) (sleeps ++ [backoffDelay i + jitter i])
      else { outcome := .error (.nonRetryable e), attempts := i + 1, sleeps := sleeps }
  else { outcome := .error (.exhausted maxA), attempts := maxA, sleeps := sleeps }
  termination_by maxA - i

/-- patcher.go `executeWithRetry` with the per-attempt results and jitter
draws as oracles. -/
def executeWithRetry (maxA : Nat) (calls : Nat → Option ApiErr) (jitter : Nat → Nat) :
    RetryResult :=
  retryLoop calls jitter maxA 0 []

structure PatcherConfig where
  rateLimitDelayMs : Nat
  maxRetryAttempts : Nat
deriving DecidableEq, Repr

/-- patcher.go DefaultPatcherConfig: 1100ms rate-limit delay, 6 attempts. -/
def defaultPatcherConfig : PatcherConfig :=
  { rateLimitDelayMs := 1100, maxRetryAttempts := 6 }

/-- Calls issued against the Docs service. -/
inductive PCall where
  | docGet (id : Str)
  | batchUpdate (id : Str) (reqs : List GRequest)
deriving DecidableEq, Repr

inductive POutcome where
  | skippedNotDoc
  | skippedUnmapped
  | processedNoLinks
  | patched (links : Nat)
  | errorFetch
  | errorBatch (e : RetryErr)
deriving DecidableEq, Repr

structure PDocResult where
  outcome : POutcome
  calls : List PCall
deriving Repr

/-- patcher.go `processDocument` (with `patchDocumentLinks` inlined): skip
non-docs and unmapped docs; derive the urlMap from the crawled HTML; fetch
the uploaded document and submit all built requests as one batch through
executeWithRetry (each attempt re-submits the same single batch). -/
def processDocument (idMap : IdMap) (meta : Metadata) (html : Str)
    (fetchDoc : Str → Option GDocument) (batchCalls : Nat → Option ApiErr)
    (jitter : Nat → Nat) (maxA : Nat) : PDocResult :=
  if meta.type ≠ docTypeS then { outcome := .skippedNotDoc, calls := [] }
  else
    let newDocID := lookupGo idMap (docKeyPre ++ meta.id)
    if newDocID = [] then { outcome := .skippedUnmapped, calls := [] }
    else
      let urlMap := buildURLMap html idMap
      if urlMap = [] then { outcome := .processedNoLinks, calls := [] }
      else
        match fetchDoc newDocID with
        | none => { outcome := .errorFetch, calls := [.docGet newDocID] }
        | some doc =>
          let reqs := buildPatchRequests doc urlMap
          if reqs = [] then { outcome := .patched 0, calls := [.docGet newDocID] }
          else
            let r := executeWithRetry maxA batchCalls jitter
            match r.outcome with
            | .ok _ =>
              { outcome := .patched reqs.length,
                calls := .docGet newDocID :: List.replicate r.attempts (.batchUpdate newDocID reqs) }
            | .error e =>
              { outcome := .errorBatch e,
                calls := .docGet newDocID :: List.replicate r.attempts (.batchUpdate newDocID reqs) }

inductive PatchLinksOut where
  | fetchErr
  | done (links : Nat)
  | batchErr (e : RetryErr)
deriving DecidableEq, Repr

structure PatchLinksResult where
  out : PatchLinksOut
  calls : List PCall
deriving Repr

/-- part_004 `patchDocumentLinks`: fetch the destination document, build the
requests with the tidy canonicaliser, and submit them — when any were built —
as a single batched update per document through executeWithRetry. -/
def patchDocumentLinksT (docID : Str) (urlMap : List (Str × Str))
    (fetchDoc : Str → Option GDocument) (batchCalls : Nat → Option ApiErr)
    (jitter : Nat → Nat) (maxA : Nat) : PatchLinksResult :=
  match fetchDoc docID with
  | none => { out := .fetchErr, calls := [.docGet docID] }
  | some doc =>
    let reqs := buildPatchRequestsT doc urlMap
    if reqs = [] then { out := .done 0, calls := [.docGet docID] }
    else
      let r := executeWithRetry maxA batchCalls jitter
      match r.outcome with
      | .ok _ =>
        { out := .done reqs.length,
          calls := .docGet docID :: List.replicate r.attempts (.batchUpdate docID reqs) }
      | .error e =>
        { out := .batchErr e,
          calls := .docGet docID :: List.replicate r.attempts (.batchUpdate docID reqs) }

/-- One crawled record as the patcher walk sees it, with its per-document
service oracles. -/
structure PEntry where
  meta : Metadata
  html : Str
  fetchDoc : Str → Option GDocument
  batchCalls : Nat → Option ApiErr
  jitter : Nat → Nat

structure PatchStats where
  docsProcessed : Nat
  linksPatched : Nat
  docsSkipped : Nat
  failures : Nat
deriving DecidableEq, Repr

/-- Whether processDocument ends in a per-document error for this entry. -/
def entryFailed (idMap : IdMap) (maxA : Nat) (e : PEntry) : Bool :=
  match (processDocument idMap e.meta e.html e.fetchDoc e.batchCalls e.jitter maxA).outcome with
  | .errorFetch => true
  | .errorBatch _ => true
  | _ => false

/-- patcher.go `processAllDocs`: every walk entry is processed; an error is
logged and counted as a failure, the walk continues. -/
def processAllDocs (idMap : IdMap) (maxA : Nat) (entries : List PEntry)
    (stats : PatchStats) : PatchStats :=
  entries.foldl
    (fun st e =>
      match (processDocument idMap e.meta e.html e.fetchDoc e.batchCalls e.jitter maxA).outcome with
      | .skippedNotDoc => { st with docsSkipped := st.docsSkipped + 1 }
      | .skippedUnmapped => { st with docsSkipped := st.docsSkipped + 1 }
      | .processedNoLinks => { st with docsProcessed := st.docsProcessed + 1 }
      | .patched n =>
        { st with
          docsProcessed := st.docsProcessed + 1
          linksPatched := st.linksPatched + n }
      | .errorFetch => { st with failures := st.failures + 1 }
      | .errorBatch _ => { st with failures := st.failures + 1 })
    stats

structure PatchRunResult where
  ok : Bool
  stats : PatchStats
deriving DecidableEq, Repr

/-- patcher.go `Patcher.Run`: a missing/undecodable id_map.json is logged and
the step succeeds as a no-op; otherwise all documents are processed and the
run succeeds with aggregate statistics (per-document errors are counted, not
propagated). -/
def patcherRun (maxA : Nat) (idMapFile : Option IdMap) (entries : List PEntry) :
    PatchRunResult :=
  match idMapFile with
  | none => { ok := true, stats := ⟨0, 0, 0, 0⟩ }
  | some idMap => { ok := true, stats := processAllDocs idMap maxA entries ⟨0, 0, 0, 0⟩ }

/-! ## Specification families and projections used by the theorems -/

/-- In-scope document URL with a surface suffix (view-mode segment, query,
fragment). -/
def docURL (id sfx : Str) : Str :=
  "https://".data ++ docLit ++ id ++ sfx

/-- In-scope sheet URL with a surface suffix. -/
def sheetURL (id sfx : Str) : Str :=
  "https://".data ++ sheetLit ++ id ++ sfx

/-- Redirector-wrapped URL `https://www.google.com/url?q=<escaped target>`. -/
def wrapURL (target : Str) : Str :=
  "https://www.google.com/url?q=".data ++ queryEscape target

def docSurface (w : Bool) (id sfx : Str) : Str :=
  if w then wrapURL (docURL id sfx) else docURL id sfx

def sheetSurface (w : Bool) (id sfx : Str) : Str :=
  if w then wrapURL (sheetURL id sfx) else sheetURL id sfx

/-- Well-formed provider id: non-empty, ASCII, no `/?#` (so the regex capture
is exact) and no `%`/`+` (so it survives the redirector's double unescape). -/
def goodIdB (id : Str) : Bool :=
  !id.isEmpty &&
  id.all (fun c => validIdChar c && decide (c.toNat < 128) && c != '%' && c != '+')

/-- Well-formed surface suffix: empty or starting with `/`, `?` or `#`, ASCII,
no `%`/`+`. -/
def goodSfxB (sfx : Str) : Bool :=
  (match sfx with
   | [] => true
   | c :: _ => !validIdChar c) &&
  sfx.all (fun c => decide (c.toNat < 128) && c != '%' && c != '+')

/-- One unwrap iteration of part_007 canonicalizeURL viewed as a partial
step: `none` when the loop would stop at this URL. -/
def unwrapStep (u : Str) : Option Str :=
  if redirectMatch u then
    let q := queryGet qName u
    if q = [] then none
    else
      match queryUnescape q with
      | none => none
      | some v => some v
  else none

def applyUnwrap : Nat → Str → Str
  | 0, u => u
  | n + 1, u =>
    match unwrapStep u with
    | none => u
    | some v => applyUnwrap n v

/-- Keys of the successful fetch-and-persist events, in order. -/
def fetchedKeys (events : List Event) : List Str :=
  events.filterMap (fun e =>
    match e with
    | .fetchedDoc k _ => some k
    | .fetchedSheet k _ => some k
    | _ => none)

/-- Keys of the duplicate (redirect-alias) events, in order. -/
def dupKeys (events : List Event) : List Str :=
  events.filterMap (fun e =>
    match e with
    | .dup k _ => some k
    | _ => none)

/-- Keys the loop has encountered in scope and in depth. -/
def encounteredKeys (events : List Event) : List Str :=
  fetchedKeys events ++ dupKeys events

/-- Every duplicate event is preceded by a fetch of the same key. -/
def DupOK (events : List Event) : Prop :=
  ∀ pre k d post, events = pre ++ Event.dup k d :: post → k ∈ fetchedKeys pre

/-- A link the crawler can process without hitting the `id[:6]` panics or the
unchecked `FindStringSubmatch[1]` of scrapeDoc/scrapeSheet: whenever its
canonical key classifies it as doc (resp. sheet), the raw link matches the
corresponding regex and the captured id has at least 6 bytes. -/
def goodLink (u : Str) : Bool :=
  (match docSub u with
   | some id => decide (6 ≤ id.length)
   | none => !(isPref docKeyPre (canonicalKey u))) &&
  (match sheetSub u with
   | some id => decide (6 ≤ id.length)
   | none => !(isPref sheetKeyPre (canonicalKey u)))

/-- A reference graph whose start link and extractable links are all good. -/
def GoodCrawl (env : Str → Option Page) (rs : Str → Str → Str) (startURL : Str) : Prop :=
  goodLink startURL = true ∧
  ∀ l page, env l = some page → ∀ h ∈ page.hrefs, ∀ u,
    filteredHref rs l h = some u → goodLink u = true

/-- Inductive invariant of the work-queue loop on a good graph: no panic,
only good links pending, the seen map mirrors the fetch events exactly, no
key fetched twice, and every duplicate event aliases an earlier fetch. -/
def CrawlInv (st : CrawlState) : Prop :=
  st.panicked = false ∧
  (∀ t ∈ st.queue, goodLink t.link = true) ∧
  fetchedKeys st.events = st.seen.map Prod.fst ∧
  (fetchedKeys st.events).Nodup ∧
  DupOK st.events

/-- Paragraph elements of a document in walk order. -/
def flatElems (doc : GDocument) : List GParagraphElement :=
  (doc.content.filterMap (fun se => se.paragraph)).flatMap (fun p => p.elements)

/-- The request part_004 buildPatchRequests emits for one element, if any. -/
def reqOfElem (urlMap : List (Str × Str)) (e : GParagraphElement) : Option GRequest :=
  match linkURLOf e with
  | none => none
  | some u =>
    match lookupA urlMap (canonicalLinkTidy u) with
    | none => none
    | some nu => some { startIndex := e.startIndex, endIndex := e.endIndex, url := nu }

/-- The request patcher.go buildPatchRequests emits for one element, if any. -/
def reqOfElemP (urlMap : List (Str × Str)) (e : GParagraphElement) : Option GRequest :=
  match linkURLOf e with
  | none => none
  | some u =>
    match lookupA urlMap (canonicalLink u) with
    | none => none
    | some nu => some { startIndex := e.startIndex, endIndex := e.endIndex, url := nu }

/-- A one-paragraph fixture document whose single text run carries an
in-scope reference with a view-mode suffix and a tracking parameter. -/
def patchFixtureDoc : GDocument :=
  ⟨[⟨some ⟨[⟨1, 10,
    some ⟨some ⟨some ⟨"https://docs.google.com/document/d/OLD123/edit?usp=sharing".data⟩⟩⟩⟩]⟩⟩]⟩

/-- The matching old-URL → new-URL table for the fixture document. -/
def patchFixtureMap : List (Str × Str) :=
  [("https://docs.google.com/document/d/OLD123".data,
    "https://docs.google.com/document/d/NEW456/edit".data)]

/-- Depth discipline of a crawl event: tasks are fetched, aliased, scope- or
fetch-dropped only at depth ≤ maxDepth, while a discovered reference may be
queued (enq) at depth up to maxDepth + 1. -/
def eventDepthOK (cfg : Config) : Event → Bool
  | .fetchedDoc _ d => decide (d ≤ cfg.maxDepth)
  | .fetchedSheet _ d => decide (d ≤ cfg.maxDepth)
  | .dup _ d => decide (d ≤ cfg.maxDepth)
  | .dropScope _ d => decide (d ≤ cfg.maxDepth)
  | .fetchFail _ d => decide (d ≤ cfg.maxDepth)
  | .enq _ d => decide (d ≤ cfg.maxDepth + 1)
  | .dropDepth _ _ => true

/-- Two-document fixture graph: A links to B and B links back to A. -/
def crawlDocA : Str := "https://docs.google.com/document/d/aaaaaa/edit".data
def crawlDocB : Str := "https://docs.google.com/document/d/bbbbbb/edit".data

def crawlFixtureEnv : Str → Option Page :=
  fun l =>
    if l = crawlDocA then some { title := "A".data, hrefs := [crawlDocB] }
    else if l = crawlDocB then some { title := "B".data, hrefs := [crawlDocA] }
    else some { title := "X".data, hrefs := [] }

/-- No two adjacent characters both satisfying `p`. -/
def noAdjacentP (p : Char → Bool) : Str → Bool
  | [] => true
  | [_] => true
  | a :: b :: rest => !(p a && p b) && noAdjacentP p (b :: rest)

/-- No two adjacent hyphens (every hyphen is a single hyphen). -/
def noDoubleHyphen (s : Str) : Bool := noAdjacentP (fun c => c == '-') s

/-- The slugified title before the length truncation and hash fallback. -/
def slugCore (title : Str) : Str :=
  trimHyphens (collapseRuns (fun c => c == '-') '-'
    (collapseRuns (fun c => !(isLowerAlnum c)) '-' (title.map asciiLower)))

/-! ## Generic helper lemmas -/

theorem isPref_append_of_le (lit : Str) : ∀ pre tail : Str, lit.length ≤ pre.length →
    isPref lit (pre ++ tail) = isPref lit pre := by
  induction lit with
  | nil => intro pre tail _; rfl
  | cons a l2 ih =>
    intro pre tail h
    cases pre with
    | nil => simp at h
    | cons b p2 =>
      simp only [List.cons_append, isPref, List.append_eq]
      rw [ih p2 tail (by simpa using h)]

theorem isPref_append_self (l r : Str) : isPref l (l ++ r) = true := by
  induction l with
  | nil => rfl
  | cons a l2 ih => simp [isPref, ih]

theorem findCap_skip_front (a : Char) (lit2 : Str) : ∀ pre s : Str,
    (∀ c ∈ pre, (a == c) = false) →
    findCap (a :: lit2) (pre ++ s) = findCap (a :: lit2) s := by
  intro pre
  induction pre with
  | nil => intro s _; rfl
  | cons b p2 ih =>
    intro s h
    have hb : (a == b) = false := h b (by simp)
    simp only [List.cons_append, findCap, isPref, hb, Bool.false_and, if_neg Bool.false_ne_true]
    exact ih s (fun c hc => h c (by simp [hc]))

theorem takeWhile_all {p : Char → Bool} : ∀ {l : Str}, (∀ c ∈ l, p c = true) →
    l.takeWhile p = l := by
  intro l
  induction l with
  | nil => intro _; rfl
  | cons a l2 ih =>
    intro h
    simp only [List.takeWhile, h a (by simp)]
    rw [ih (fun c hc => h c (by simp [hc]))]

theorem takeWhile_append_all (p : Char → Bool) (l r : Str) (h : ∀ c ∈ l, p c = true) :
    (l ++ r).takeWhile p = l ++ r.takeWhile p := by
  induction l with
  | nil => rfl
  | cons a l2 ih =>
    simp only [List.cons_append, List.takeWhile, h a (by simp), List.append_eq]
    rw [ih (fun c hc => h c (by simp [hc]))]

theorem takeWhile_head_false {p : Char → Bool} {s : Str}
    (h : s = [] ∨ ∃ c r, s = c :: r ∧ p c = false) : s.takeWhile p = [] := by
  rcases h with rfl | ⟨c, r, rfl, hc⟩
  · rfl
  · simp [List.takeWhile, hc]

theorem findCap_lit_append (lit id sfx : Str) (hlit : lit ≠ []) (hid : id ≠ [])
    (hidv : ∀ c ∈ id, validIdChar c = true)
    (hsfx : sfx = [] ∨ ∃ c r, sfx = c :: r ∧ validIdChar c = false) :
    findCap lit (lit ++ (id ++ sfx)) = some id := by
  cases lit with
  | nil => exact absurd rfl hlit
  | cons a l2 =>
    cases id with
    | nil => exact absurd rfl hid
    | cons i0 i2 =>
      have h1 : isPref (a :: l2) (a :: (l2 ++ (i0 :: (i2 ++ sfx)))) = true := by
        have := isPref_append_self (a :: l2) ((i0 :: i2) ++ sfx)
        simpa using this
      have hcap : List.drop (a :: l2).length (a :: (l2 ++ (i0 :: (i2 ++ sfx)))) =
          i0 :: (i2 ++ sfx) := by
        have h4 := List.drop_left (a :: l2) ((i0 :: i2) ++ sfx)
        simp only [List.cons_append] at h4
        simp [h4]
      have h2 : List.takeWhile validIdChar (i0 :: (i2 ++ sfx)) = i0 :: i2 := by
        have h3 := takeWhile_append_all validIdChar (i0 :: i2) sfx hidv
        rw [takeWhile_head_false hsfx, List.append_nil] at h3
        simp only [List.cons_append] at h3
        exact h3
      rw [findCap.eq_def]
      simp only [List.cons_append]
      rw [if_pos h1, hcap, h2]
      simp

theorem goodId_parts {id : Str} (h : goodIdB id = true) :
    id ≠ [] ∧ ∀ c ∈ id, validIdChar c = true ∧ c.toNat < 128 ∧ c ≠ '%' ∧ c ≠ '+' := by
  simp only [goodIdB, Bool.and_eq_true, List.all_eq_true] at h
  refine ⟨by simpa using h.1, fun c hc => ?_⟩
  have h2 := h.2 c hc
  simp only [Bool.and_eq_true, decide_eq_true_eq, bne_iff_ne] at h2
  exact ⟨h2.1.1.1, h2.1.1.2, h2.1.2, h2.2⟩

theorem goodSfx_parts {sfx : Str} (h : goodSfxB sfx = true) :
    (sfx = [] ∨ ∃ c r, sfx = c :: r ∧ validIdChar c = false) ∧
      ∀ c ∈ sfx, c.toNat < 128 ∧ c ≠ '%' ∧ c ≠ '+' := by
  simp only [goodSfxB, Bool.and_eq_true, List.all_eq_true] at h
  constructor
  · cases sfx with
    | nil => exact Or.inl rfl
    | cons c r =>
      refine Or.inr ⟨c, r, rfl, ?_⟩
      have h1 := h.1
      simp only [Bool.not_eq_true'] at h1
      exact h1
  · intro c hc
    have h2 := h.2 c hc
    simp only [Bool.and_eq_true, decide_eq_true_eq, bne_iff_ne] at h2
    exact ⟨h2.1.1, h2.1.2, h2.2⟩

theorem docSub_docURL (id sfx : Str) (hid : goodIdB id = true) (hsfx : goodSfxB sfx = true) :
    docSub (docURL id sfx) = some id := by
  obtain ⟨hne, hall⟩ := goodId_parts hid
  obtain ⟨hhead, _⟩ := goodSfx_parts hsfx
  have hshape : docURL id sfx = "https://".data ++ (docLit ++ (id ++ sfx)) := by
    simp [docURL, List.append_assoc]
  rw [docSub, hshape]
  have hd : docLit = 'd' :: "ocs.google.com/document/d/".data := by decide
  rw [hd, findCap_skip_front 'd' _ _ _ (by decide), ← hd]
  exact findCap_lit_append docLit id sfx (by decide) hne (fun c hc => (hall c hc).1) hhead

theorem sheetSub_sheetURL (id sfx : Str) (hid : goodIdB id = true) (hsfx : goodSfxB sfx = true) :
    sheetSub (sheetURL id sfx) = some id := by
  obtain ⟨hne, hall⟩ := goodId_parts hid
  obtain ⟨hhead, _⟩ := goodSfx_parts hsfx
  have hshape : sheetURL id sfx = "https://".data ++ (sheetLit ++ (id ++ sfx)) := by
    simp [sheetURL, List.append_assoc]
  rw [sheetSub, hshape]
  have hd : sheetLit = 'd' :: "ocs.google.com/spreadsheets/d/".data := by decide
  rw [hd, findCap_skip_front 'd' _ _ _ (by decide), ← hd]
  exact findCap_lit_append sheetLit id sfx (by decide) hne (fun c hc => (hall c hc).1) hhead

theorem gdocSub_cons (c : Char) (rest : Str) :
    gdocSub (c :: rest) =
      match gdocAt (c :: rest) with
      | some r => some r
      | none => gdocSub rest := rfl

theorem gdocSub_skip_front (pre s : Str) (h : ∀ c ∈ pre, (('d' : Char) == c) = false) :
    gdocSub (pre ++ s) = gdocSub s := by
  induction pre with
  | nil => rfl
  | cons b p2 ih =>
    have hb : (('d' : Char) == b) = false := h b (by simp)
    have hat : gdocAt (b :: (p2 ++ s)) = none := by
      have hpref : isPref gdocPre (b :: (p2 ++ s)) = false := by
        have hg : gdocPre = 'd' :: "ocs.google.com/".data := by decide
        rw [hg]
        simp [isPref, hb]
      simp [gdocAt, hpref]
    rw [show (b :: p2) ++ s = b :: (p2 ++ s) from rfl, gdocSub_cons, hat]
    exact ih (fun c hc => h c (by simp [hc]))

theorem gdocSub_of_at {s : Str} {r : Str × Str} (hne : s ≠ []) (h : gdocAt s = some r) :
    gdocSub s = some r := by
  cases s with
  | nil => exact absurd rfl hne
  | cons c rest => simp [gdocSub, h]

theorem drop_lit_append (lit tail : Str) : (lit ++ tail).drop lit.length = tail :=
  List.drop_left _ _

theorem gdocWordAt_hit (word id sfx : Str) (hid : goodIdB id = true)
    (hsfx : goodSfxB sfx = true) :
    gdocWordAt word (word ++ (dSeg ++ (id ++ sfx))) = some (word, id) := by
  obtain ⟨hne, hall⟩ := goodId_parts hid
  obtain ⟨hhead, _⟩ := goodSfx_parts hsfx
  have h2 : (id ++ sfx).takeWhile validIdChar = id := by
    rw [takeWhile_append_all validIdChar id sfx (fun c hc => (hall c hc).1),
      takeWhile_head_false hhead, List.append_nil]
  rw [gdocWordAt]
  rw [if_pos (isPref_append_self _ _), drop_lit_append]
  rw [if_pos (isPref_append_self _ _), drop_lit_append]
  rw [h2]
  simp [hne]

theorem gdocAt_doc_hit (id sfx : Str) (hid : goodIdB id = true) (hsfx : goodSfxB sfx = true) :
    gdocAt (gdocPre ++ (docWord ++ (dSeg ++ (id ++ sfx)))) = some (docWord, id) := by
  rw [gdocAt, if_pos (isPref_append_self _ _), drop_lit_append]
  rw [gdocWordAt_hit docWord id sfx hid hsfx]

theorem gdocAt_sheet_hit (id sfx : Str) (hid : goodIdB id = true) (hsfx : goodSfxB sfx = true) :
    gdocAt (gdocPre ++ (sheetWord ++ (dSeg ++ (id ++ sfx)))) = some (sheetWord, id) := by
  have hnd : gdocWordAt docWord (sheetWord ++ (dSeg ++ (id ++ sfx))) = none := by
    have hp : isPref docWord (sheetWord ++ (dSeg ++ (id ++ sfx))) = false := by
      rw [isPref_append_of_le docWord sheetWord _ (by decide)]
      decide
    simp [gdocWordAt, hp]
  rw [gdocAt, if_pos (isPref_append_self _ _), drop_lit_append, hnd]
  rw [gdocWordAt_hit sheetWord id sfx hid hsfx]

theorem gdocSub_docURL (id sfx : Str) (hid : goodIdB id = true) (hsfx : goodSfxB sfx = true) :
    gdocSub (docURL id sfx) = some (docWord, id) := by
  have hlit : docLit = gdocPre ++ (docWord ++ dSeg) := by decide
  have hshape : docURL id sfx =
      "https://".data ++ (gdocPre ++ (docWord ++ (dSeg ++ (id ++ sfx)))) := by
    simp [docURL, hlit, List.append_assoc]
  rw [hshape, gdocSub_skip_front _ _ (by decide)]
  refine gdocSub_of_at ?_ (gdocAt_doc_hit id sfx hid hsfx)
  have hg : gdocPre = 'd' :: "ocs.google.com/".data := by decide
  rw [hg]
  simp

theorem gdocSub_sheetURL (id sfx : Str) (hid : goodIdB id = true) (hsfx : goodSfxB sfx = true) :
    gdocSub (sheetURL id sfx) = some (sheetWord, id) := by
  have hlit : sheetLit = gdocPre ++ (sheetWord ++ dSeg) := by decide
  have hshape : sheetURL id sfx =
      "https://".data ++ (gdocPre ++ (sheetWord ++ (dSeg ++ (id ++ sfx)))) := by
    simp [sheetURL, hlit, List.append_assoc]
  rw [hshape, gdocSub_skip_front _ _ (by decide)]
  refine gdocSub_of_at ?_ (gdocAt_sheet_hit id sfx hid hsfx)
  have hg : gdocPre = 'd' :: "ocs.google.com/".data := by decide
  rw [hg]
  simp

theorem redirectMatch_long_prefix (pre tail : Str) (h26 : 26 ≤ pre.length)
    (h : redirectMatch pre = false) : redirectMatch (pre ++ tail) = false := by
  unfold redirectMatch at h ⊢
  rw [isPref_append_of_le _ _ _ (le_trans (by decide) h26),
    isPref_append_of_le _ _ _ (le_trans (by decide) h26),
    isPref_append_of_le _ _ _ (le_trans (by decide) h26),
    isPref_append_of_le _ _ _ (le_trans (by decide) h26)]
  exact h

theorem redirectMatch_docURL (id sfx : Str) : redirectMatch (docURL id sfx) = false := by
  have hshape : docURL id sfx =
      ("https://".data ++ docLit) ++ (id ++ sfx) := by
    simp [docURL, List.append_assoc]
  rw [hshape]
  exact redirectMatch_long_prefix _ _ (by decide) (by decide)

theorem redirectMatch_sheetURL (id sfx : Str) : redirectMatch (sheetURL id sfx) = false := by
  have hshape : sheetURL id sfx =
      ("https://".data ++ sheetLit) ++ (id ++ sfx) := by
    simp [sheetURL, List.append_assoc]
  rw [hshape]
  exact redirectMatch_long_prefix _ _ (by decide) (by decide)

theorem redirectMatch_wrapURL (t : Str) : redirectMatch (wrapURL t) = true := by
  unfold redirectMatch wrapURL
  have h4 : isPref ("https://www.google.com/url").data
      ("https://www.google.com/url?q=".data ++ queryEscape t) = true := by
    rw [isPref_append_of_le _ _ _ (by decide)]
    decide
  rw [h4]
  simp

theorem contains_false {x : Char} : ∀ {l : Str}, (∀ c ∈ l, c ≠ x) → l.contains x = false := by
  intro l
  induction l with
  | nil => intro _; rfl
  | cons a l2 ih =>
    intro h
    simp only [List.contains, List.elem_cons]
    rw [show (x == a) = false by
      cases hax : x == a
      · rfl
      · exact absurd (by simpa using (beq_iff_eq.mp hax).symm) (h a (by simp))]
    exact ih (fun c hc => h c (by simp [hc]))

/-! ## Percent-coding lemmas -/

theorem hexVal_hexUp {n : Nat} (h : n < 16) : hexVal (hexUp n) = some n := by
  interval_cases n <;> decide

theorem hexUp_not_special (n : Nat) :
    hexUp n ≠ '#' ∧ hexUp n ≠ '&' ∧ hexUp n ≠ ';' ∧ hexUp n ≠ '=' := by
  by_cases h : n < 16
  · interval_cases n <;> decide
  · have hd : hexUp n = '0' := by
      unfold hexUp
      exact List.getD_eq_default _ _ (by simp [hexDigitsUp]; omega)
    rw [hd]
    decide

theorem unreserved_not_special {c : Char} (h : isUnreserved c = true) :
    c ≠ '#' ∧ c ≠ '&' ∧ c ≠ ';' ∧ c ≠ '=' := by
  refine ⟨?_, ?_, ?_, ?_⟩ <;> (intro hc; subst hc; exact absurd h (by decide))

theorem queryEscape_no_special :
    ∀ t : Str, ∀ c ∈ queryEscape t, c ≠ '#' ∧ c ≠ '&' ∧ c ≠ ';' := by
  intro t
  induction t with
  | nil => intro c hc; simp [queryEscape] at hc
  | cons a rest ih =>
    intro c hc
    rw [queryEscape] at hc
    by_cases hu : isUnreserved a = true
    · rw [if_pos hu] at hc
      rcases List.mem_cons.mp hc with rfl | hc2
      · have h := unreserved_not_special hu
        exact ⟨h.1, h.2.1, h.2.2.1⟩
      · exact ih c hc2
    · rw [if_neg hu] at hc
      by_cases hs : (a == ' ') = true
      · rw [if_pos hs] at hc
        rcases List.mem_cons.mp hc with rfl | hc2
        · decide
        · exact ih c hc2
      · rw [if_neg hs] at hc
        rcases List.mem_cons.mp hc with rfl | hc2
        · decide
        · rcases List.mem_cons.mp hc2 with rfl | hc3
          · have h := hexUp_not_special (a.toNat / 16)
            exact ⟨h.1, h.2.1, h.2.2.1⟩
          · rcases List.mem_cons.mp hc3 with rfl | hc4
            · have h := hexUp_not_special (a.toNat % 16)
              exact ⟨h.1, h.2.1, h.2.2.1⟩
            · exact ih c hc4

theorem queryUnescape_cons_other (c : Char) (l : Str) (h1 : c ≠ '%') (h2 : c ≠ '+') :
    queryUnescape (c :: l) = (queryUnescape l).map (fun t => c :: t) := by
  rw [queryUnescape.eq_def]
  simp [h1, h2]

theorem queryUnescape_id : ∀ t : Str, (∀ c ∈ t, c ≠ '%' ∧ c ≠ '+') →
    queryUnescape t = some t := by
  intro t
  induction t with
  | nil => intro _; rfl
  | cons a rest ih =>
    intro h
    have ha := h a (by simp)
    rw [queryUnescape_cons_other a rest ha.1 ha.2, ih (fun c hc => h c (by simp [hc]))]
    rfl

theorem queryUnescape_queryEscape : ∀ t : Str, (∀ c ∈ t, c.toNat < 128) →
    queryUnescape (queryEscape t) = some t := by
  intro t
  induction t with
  | nil => intro _; rfl
  | cons a rest ih =>
    intro h
    have ha : a.toNat < 128 := h a (by simp)
    have hrest := ih (fun c hc => h c (by simp [hc]))
    rw [queryEscape]
    by_cases hu : isUnreserved a = true
    · rw [if_pos hu]
      have hpct : a ≠ '%' := by intro hc; subst hc; exact absurd hu (by decide)
      have hplus : a ≠ '+' := by intro hc; subst hc; exact absurd hu (by decide)
      rw [queryUnescape_cons_other a _ hpct hplus, hrest]
      rfl
    · rw [if_neg hu]
      by_cases hs : (a == ' ') = true
      · rw [if_pos hs]
        have ha2 : a = ' ' := beq_iff_eq.mp hs
        have hplus : queryUnescape ('+' :: queryEscape rest) =
            (queryUnescape (queryEscape rest)).map (fun t => ' ' :: t) := by
          rw [queryUnescape.eq_def]
          simp
        rw [hplus, hrest, ha2]
        rfl
      · rw [if_neg hs]
        have hpct : queryUnescape ('%' :: hexUp (a.toNat / 16) :: hexUp (a.toNat % 16) ::
            queryEscape rest) =
            match hexVal (hexUp (a.toNat / 16)), hexVal (hexUp (a.toNat % 16)) with
            | some x, some y =>
              (queryUnescape (queryEscape rest)).map (fun t => Char.ofNat (16 * x + y) :: t)
            | _, _ => none := by
          rw [queryUnescape.eq_def]
          simp
        rw [hpct, hexVal_hexUp (by omega : a.toNat / 16 < 16),
          hexVal_hexUp (by omega : a.toNat % 16 < 16), hrest]
        have hval : 16 * (a.toNat / 16) + a.toNat % 16 = a.toNat := by omega
        simp [hval, Char.ofNat_toNat]

/-! ## Query-string lemmas -/

theorem dropThroughChar_skip (x : Char) : ∀ pre s : Str, (∀ c ∈ pre, c ≠ x) →
    dropThroughChar x (pre ++ s) = dropThroughChar x s := by
  intro pre
  induction pre with
  | nil => intro s _; rfl
  | cons b p2 ih =>
    intro s h
    have hb : (b == x) = false := by simpa using h b (by simp)
    rw [show (b :: p2) ++ s = b :: (p2 ++ s) from rfl, dropThroughChar, if_neg (by simp [hb])]
    exact ih s (fun c hc => h c (by simp [hc]))

theorem splitAmp_single : ∀ l : Str, l ≠ [] → (∀ c ∈ l, c ≠ '&') → splitAmp l = [l] := by
  intro l
  induction l with
  | nil => intro h _; exact absurd rfl h
  | cons a l2 ih =>
    intro _ h
    have ha : ¬(a == '&') = true := by simpa using h a (by simp)
    rw [splitAmp, if_neg ha]
    cases hl2 : l2 with
    | nil => rfl
    | cons b l3 =>
      rw [← hl2, ih (by simp [hl2]) (fun c hc => h c (by simp [hc]))]

theorem queryGet_wrap (t : Str) (hA : ∀ c ∈ t, c.toNat < 128) :
    queryGet qName (wrapURL t) = t := by
  have hesc := queryEscape_no_special t
  have hw : wrapURL t = "https://www.google.com/url".data ++
      ('?' :: 'q' :: '=' :: queryEscape t) := by
    rw [wrapURL]
    rfl
  have hraw : rawQueryOf (wrapURL t) = 'q' :: '=' :: queryEscape t := by
    rw [rawQueryOf, hw]
    have hnofrag : ("https://www.google.com/url".data ++
        ('?' :: 'q' :: '=' :: queryEscape t)).takeWhile (fun c => c != '#') =
        "https://www.google.com/url".data ++ ('?' :: 'q' :: '=' :: queryEscape t) := by
      apply takeWhile_all
      have hpre : ∀ x ∈ ("https://www.google.com/url".data : Str), (x != '#') = true := by
        decide
      intro c hc
      rcases List.mem_append.mp hc with hc1 | hc2
      · exact hpre c hc1
      · rcases List.mem_cons.mp hc2 with rfl | hc3
        · decide
        · rcases List.mem_cons.mp hc3 with rfl | hc4
          · decide
          · rcases List.mem_cons.mp hc4 with rfl | hc5
            · decide
            · simpa using (hesc c hc5).1
    rw [hnofrag, dropThroughChar_skip '?' _ _ (by decide), dropThroughChar,
      if_pos (by decide)]
  have hsingle : splitAmp ('q' :: '=' :: queryEscape t) = ['q' :: '=' :: queryEscape t] := by
    apply splitAmp_single _ (by simp)
    intro c hc
    rcases List.mem_cons.mp hc with rfl | hc2
    · decide
    · rcases List.mem_cons.mp hc2 with rfl | hc3
      · decide
      · exact (hesc c hc3).2.1
  have hnosemi : ('q' :: '=' :: queryEscape t).contains ';' = false := by
    apply contains_false
    intro c hc
    rcases List.mem_cons.mp hc with rfl | hc2
    · decide
    · rcases List.mem_cons.mp hc2 with rfl | hc3
      · decide
      · exact (hesc c hc3).2.2
  have hcut : cutAt '=' ('q' :: '=' :: queryEscape t) = (['q'], queryEscape t) := by
    simp [cutAt]
  have hescape : queryUnescape (queryEscape t) = some t := queryUnescape_queryEscape t hA
  rw [queryGet, hraw, pairsOf, hsingle]
  simp only [List.foldr_cons, List.foldr_nil]
  rw [if_neg (by simp), if_neg (by rw [hnosemi]; simp), hcut]
  simp only
  rw [show queryUnescape ['q'] = some ['q'] from by decide, hescape]
  simp [qName]

/-! ## Canonicalisation lemmas -/

theorem canonicalLinkLoop_succ (n : Nat) (u : Str) :
    canonicalLinkLoop (n + 1) u =
      if redirectMatch u then
        if queryGet qName u = [] then u
        else canonicalLinkLoop n ((queryUnescape (queryGet qName u)).getD [])
      else u := rfl

theorem unwrapLoop_succ (n : Nat) (u : Str) :
    unwrapLoop (n + 1) u =
      if redirectMatch u then
        if queryGet qName u = [] then u
        else
          match queryUnescape (queryGet qName u) with
          | none => u
          | some v => unwrapLoop n v
      else u := rfl

theorem canonicalLink_no_redirect (u : Str) (h : redirectMatch u = false) :
    canonicalLink u = u := by
  show canonicalLinkLoop (2 + 1) u = u
  rw [canonicalLinkLoop_succ, if_neg (by simp [h])]

theorem unwrapLoop3_no_redirect (u : Str) (h : redirectMatch u = false) :
    unwrapLoop 3 u = u := by
  show unwrapLoop (2 + 1) u = u
  rw [unwrapLoop_succ, if_neg (by simp [h])]

theorem canonicalLink_wrap (t : Str) (ht : t ≠ []) (hA : ∀ c ∈ t, c.toNat < 128)
    (hP : ∀ c ∈ t, c ≠ '%' ∧ c ≠ '+') (hR : redirectMatch t = false) :
    canonicalLink (wrapURL t) = t := by
  show canonicalLinkLoop (2 + 1) (wrapURL t) = t
  rw [canonicalLinkLoop_succ, if_pos (redirectMatch_wrapURL t), queryGet_wrap t hA,
    if_neg ht, queryUnescape_id t hP]
  show canonicalLinkLoop (1 + 1) t = t
  rw [canonicalLinkLoop_succ, if_neg (by simp [hR])]

theorem unwrapLoop3_wrap (t : Str) (ht : t ≠ []) (hA : ∀ c ∈ t, c.toNat < 128)
    (hP : ∀ c ∈ t, c ≠ '%' ∧ c ≠ '+') (hR : redirectMatch t = false) :
    unwrapLoop 3 (wrapURL t) = t := by
  show unwrapLoop (2 + 1) (wrapURL t) = t
  rw [unwrapLoop_succ, if_pos (redirectMatch_wrapURL t), queryGet_wrap t hA,
    if_neg ht, queryUnescape_id t hP]
  show unwrapLoop (1 + 1) t = t
  rw [unwrapLoop_succ, if_neg (by simp [hR])]

theorem docURL_ne_nil (id sfx : Str) : docURL id sfx ≠ [] := by
  simp [docURL]

theorem sheetURL_ne_nil (id sfx : Str) : sheetURL id sfx ≠ [] := by
  simp [sheetURL]

theorem docURL_chars (id sfx : Str) (hid : goodIdB id = true) (hsfx : goodSfxB sfx = true) :
    ∀ c ∈ docURL id sfx, (c.toNat < 128 ∧ c ≠ '%' ∧ c ≠ '+') := by
  obtain ⟨-, hall⟩ := goodId_parts hid
  obtain ⟨-, hall2⟩ := goodSfx_parts hsfx
  have hpre : ∀ c ∈ ("https://".data ++ docLit : Str), c.toNat < 128 ∧ c ≠ '%' ∧ c ≠ '+' := by
    decide
  intro c hc
  rw [docURL] at hc
  rcases List.mem_append.mp hc with hc1 | hc2
  · rcases List.mem_append.mp hc1 with hc3 | hc4
    · rcases List.mem_append.mp hc3 with hc5 | hc6
      · exact hpre c (List.mem_append.mpr (Or.inl hc5))
      · exact hpre c (List.mem_append.mpr (Or.inr hc6))
    · exact (hall c hc4).2
  · exact hall2 c hc2

theorem sheetURL_chars (id sfx : Str) (hid : goodIdB id = true) (hsfx : goodSfxB sfx = true) :
    ∀ c ∈ sheetURL id sfx, (c.toNat < 128 ∧ c ≠ '%' ∧ c ≠ '+') := by
  obtain ⟨-, hall⟩ := goodId_parts hid
  obtain ⟨-, hall2⟩ := goodSfx_parts hsfx
  have hpre : ∀ c ∈ ("https://".data ++ sheetLit : Str), c.toNat < 128 ∧ c ≠ '%' ∧ c ≠ '+' := by
    decide
  intro c hc
  rw [sheetURL] at hc
  rcases List.mem_append.mp hc with hc1 | hc2
  · rcases List.mem_append.mp hc1 with hc3 | hc4
    · rcases List.mem_append.mp hc3 with hc5 | hc6
      · exact hpre c (List.mem_append.mpr (Or.inl hc5))
      · exact hpre c (List.mem_append.mpr (Or.inr hc6))
    · exact (hall c hc4).2
  · exact hall2 c hc2

theorem canonicalLink_docSurface (w : Bool) (id sfx : Str) (hid : goodIdB id = true)
    (hsfx : goodSfxB sfx = true) : canonicalLink (docSurface w id sfx) = docURL id sfx := by
  cases w with
  | false => exact canonicalLink_no_redirect _ (redirectMatch_docURL id sfx)
  | true =>
    have hch := docURL_chars id sfx hid hsfx
    exact canonicalLink_wrap _ (docURL_ne_nil id sfx) (fun c hc => (hch c hc).1)
      (fun c hc => (hch c hc).2) (redirectMatch_docURL id sfx)

theorem canonicalLink_sheetSurface (w : Bool) (id sfx : Str) (hid : goodIdB id = true)
    (hsfx : goodSfxB sfx = true) : canonicalLink (sheetSurface w id sfx) = sheetURL id sfx := by
  cases w with
  | false => exact canonicalLink_no_redirect _ (redirectMatch_sheetURL id sfx)
  | true =>
    have hch := sheetURL_chars id sfx hid hsfx
    exact canonicalLink_wrap _ (sheetURL_ne_nil id sfx) (fun c hc => (hch c hc).1)
      (fun c hc => (hch c hc).2) (redirectMatch_sheetURL id sfx)

theorem unwrapLoop3_docSurface (w : Bool) (id sfx : Str) (hid : goodIdB id = true)
    (hsfx : goodSfxB sfx = true) : unwrapLoop 3 (docSurface w id sfx) = docURL id sfx := by
  cases w with
  | false => exact unwrapLoop3_no_redirect _ (redirectMatch_docURL id sfx)
  | true =>
    have hch := docURL_chars id sfx hid hsfx
    exact unwrapLoop3_wrap _ (docURL_ne_nil id sfx) (fun c hc => (hch c hc).1)
      (fun c hc => (hch c hc).2) (redirectMatch_docURL id sfx)

theorem unwrapLoop3_sheetSurface (w : Bool) (id sfx : Str) (hid : goodIdB id = true)
    (hsfx : goodSfxB sfx = true) : unwrapLoop 3 (sheetSurface w id sfx) = sheetURL id sfx := by
  cases w with
  | false => exact unwrapLoop3_no_redirect _ (redirectMatch_sheetURL id sfx)
  | true =>
    have hch := sheetURL_chars id sfx hid hsfx
    exact unwrapLoop3_wrap _ (sheetURL_ne_nil id sfx) (fun c hc => (hch c hc).1)
      (fun c hc => (hch c hc).2) (redirectMatch_sheetURL id sfx)

theorem canonicalKey_docSurface (w : Bool) (id sfx : Str) (hid : goodIdB id = true)
    (hsfx : goodSfxB sfx = true) : canonicalKey (docSurface w id sfx) = docKeyPre ++ id := by
  rw [canonicalKey, canonicalLink_docSurface w id sfx hid hsfx,
    docSub_docURL id sfx hid hsfx]

theorem canonicalKey_sheetSurface (w : Bool) (id sfx : Str) (hid : goodIdB id = true)
    (hsfx : goodSfxB sfx = true) (hds : docSub (sheetURL id sfx) = none) :
    canonicalKey (sheetSurface w id sfx) = sheetKeyPre ++ id := by
  rw [canonicalKey, canonicalLink_sheetSurface w id sfx hid hsfx, hds,
    sheetSub_sheetURL id sfx hid hsfx]

theorem canonicalizeURL_docSurface (w : Bool) (id sfx : Str) (hid : goodIdB id = true)
    (hsfx : goodSfxB sfx = true) :
    canonicalizeURL (docSurface w id sfx) = (docKeyPre ++ id, docURL id sfx) := by
  rw [canonicalizeURL, unwrapLoop3_docSurface w id sfx hid hsfx,
    gdocSub_docURL id sfx hid hsfx]
  simp

theorem canonicalizeURL_sheetSurface (w : Bool) (id sfx : Str) (hid : goodIdB id = true)
    (hsfx : goodSfxB sfx = true) :
    canonicalizeURL (sheetSurface w id sfx) = (sheetKeyPre ++ id, sheetURL id sfx) := by
  rw [canonicalizeURL, unwrapLoop3_sheetSurface w id sfx hid hsfx,
    gdocSub_sheetURL id sfx hid hsfx]
  have hw : ¬(sheetWord = docWord) := by decide
  simp [hw]

/-- C2: two in-scope URLs that differ only in redirector wrapping, tracking
query parameters, a trailing view-mode segment or a fragment — i.e. two
surface forms over the same id — canonicalise to the same identity key, both
under part_007 canonicalizeURL and under the crawler canonicalKey (for the
sheet/canonicalKey case, under the side condition that the surface suffix
does not itself embed a document link, which the doc-first regex order would
pick up). -/
theorem canonicalization_surface_invariant (id s1 s2 : Str) (w1 w2 : Bool)
    (hid : goodIdB id = true) (h1 : goodSfxB s1 = true) (h2 : goodSfxB s2 = true) :
    ((canonicalizeURL (docSurface w1 id s1)).1 = (canonicalizeURL (docSurface w2 id s2)).1) ∧
    (canonicalKey (docSurface w1 id s1) = canonicalKey (docSurface w2 id s2)) ∧
    ((canonicalizeURL (sheetSurface w1 id s1)).1 =
      (canonicalizeURL (sheetSurface w2 id s2)).1) ∧
    (docSub (sheetURL id s1) = none → docSub (sheetURL id s2) = none →
      canonicalKey (sheetSurface w1 id s1) = canonicalKey (sheetSurface w2 id s2)) := by
  refine ⟨?_, ?_, ?_, ?_⟩
  · rw [canonicalizeURL_docSurface w1 id s1 hid h1, canonicalizeURL_docSurface w2 id s2 hid h2]
  · rw [canonicalKey_docSurface w1 id s1 hid h1, canonicalKey_docSurface w2 id s2 hid h2]
  · rw [canonicalizeURL_sheetSurface w1 id s1 hid h1,
      canonicalizeURL_sheetSurface w2 id s2 hid h2]
  · intro hd1 hd2
    rw [canonicalKey_sheetSurface w1 id s1 hid h1 hd1,
      canonicalKey_sheetSurface w2 id s2 hid h2 hd2]

/-- Witness for C2 at concrete surface forms: the same document id behind a
view-mode suffix with tracking query, behind a fragment, and behind the
redirector, and the same for a sheet id. -/
theorem canonicalization_surface_invariant_witness :
    goodIdB "abc123XYZ".data = true ∧
    goodSfxB "/edit?usp=sharing".data = true ∧
    goodSfxB "#heading=h.abc".data = true ∧
    (canonicalizeURL (docSurface true "abc123XYZ".data "/edit?usp=sharing".data)).1 =
      (canonicalizeURL (docSurface false "abc123XYZ".data "#heading=h.abc".data)).1 ∧
    canonicalKey (docSurface true "abc123XYZ".data "/edit?usp=sharing".data) =
      canonicalKey (docSurface false "abc123XYZ".data "#heading=h.abc".data) ∧
    canonicalKey (sheetSurface true "abc123XYZ".data "/edit?usp=sharing".data) =
      canonicalKey (sheetSurface false "abc123XYZ".data "#heading=h.abc".data) := by
  have h := canonicalization_surface_invariant "abc123XYZ".data
    "/edit?usp=sharing".data "#heading=h.abc".data true false
    (by decide) (by decide) (by decide)
  exact ⟨by decide, by decide, by decide, h.1, h.2.1,
    h.2.2.2 (by decide) (by decide)⟩

/-! ## Lemmas about the unwrap bound of canonicalizeURL -/

theorem unwrapLoop_succ_step (k : Nat) (u : Str) :
    unwrapLoop (k + 1) u =
      match unwrapStep u with
      | none => u
      | some v => unwrapLoop k v := by
  rw [unwrapLoop_succ, unwrapStep]
  by_cases hr : redirectMatch u = true
  · rw [if_pos hr, if_pos hr]
    by_cases hq : queryGet qName u = []
    · rw [if_pos hq, if_pos hq]
    · rw [if_neg hq, if_neg hq]
      cases queryUnescape (queryGet qName u) <;> rfl
  · rw [if_neg hr, if_neg hr]

theorem unwrapLoop_bounded : ∀ k u, ∃ n, n ≤ k ∧ unwrapLoop k u = applyUnwrap n u ∧
    (n < k → unwrapStep (applyUnwrap n u) = none) := by
  intro k
  induction k with
  | zero => exact fun u => ⟨0, le_refl 0, rfl, fun h => absurd h (by omega)⟩
  | succ k ih =>
    intro u
    cases hs : unwrapStep u with
    | none =>
      refine ⟨0, by omega, ?_, fun _ => hs⟩
      rw [unwrapLoop_succ_step, hs]
      rfl
    | some v =>
      obtain ⟨n, hn, heq, hstop⟩ := ih v
      have happ : applyUnwrap (n + 1) u = applyUnwrap n v := by
        rw [applyUnwrap, hs]
      refine ⟨n + 1, by omega, ?_, ?_⟩
      · rw [unwrapLoop_succ_step, hs, happ]
        exact heq
      · intro hlt
        rw [happ]
        exact hstop (by omega)

theorem canonicalizeURL_snd (raw : Str) : (canonicalizeURL raw).2 = unwrapLoop 3 raw := by
  rw [canonicalizeURL]
  cases gdocSub (unwrapLoop 3 raw) with
  | none => rfl
  | some kid =>
    have hws : ¬(sheetWord = docWord) := by decide
    by_cases h1 : kid.1 = docWord
    · simp [h1]
    · by_cases h2 : kid.1 = sheetWord <;> simp [h1, h2, hws]

theorem canonicalizeURL_key_shape (raw : Str) :
    (canonicalizeURL raw).1 = [] ∨
    (∃ i, (canonicalizeURL raw).1 = docKeyPre ++ i) ∨
    (∃ i, (canonicalizeURL raw).1 = sheetKeyPre ++ i) := by
  rw [canonicalizeURL]
  cases gdocSub (unwrapLoop 3 raw) with
  | none => exact Or.inl rfl
  | some kid =>
    have hws : ¬(sheetWord = docWord) := by decide
    by_cases h1 : kid.1 = docWord
    · exact Or.inr (Or.inl ⟨kid.2, by simp [h1]⟩)
    · by_cases h2 : kid.1 = sheetWord
      · exact Or.inr (Or.inr ⟨kid.2, by simp [h1, h2, hws]⟩)
      · exact Or.inl (by simp [h1, h2])

/-- C8 counterexample: on an in-scope document URL, part_007 canonicalizeURL
returns the identity key "doc:abcdef", which is not the claimed
"document:"+id. -/
theorem canonicalizeURL_document_prefix_counterexample :
    (canonicalizeURL "https://docs.google.com/document/d/abcdef/edit".data).1 =
      "doc:abcdef".data ∧
    (canonicalizeURL "https://docs.google.com/document/d/abcdef/edit".data).1 ≠
      "document:".data ++ "abcdef".data := by
  decide

/-- C8 (amended): canonicalize(raw) unwraps the `.../url?q=` wrapper at most
3 times — the clean URL is an at-most-3-fold unwrap of the input, and fewer
than 3 unwraps happen only when the loop stopped (no redirector shape, q
missing/empty, or unescape failure) — and returns identity key "doc:"+id for
an in-scope document URL (wrapped or not), "sheet:"+id for an in-scope sheet
URL, and the empty key for anything else; canonicalisation is total, so
malformed input is never fatal, only unclassified. -/
theorem canonicalizeURL_amended_spec :
    (∀ w id sfx, goodIdB id = true → goodSfxB sfx = true →
      canonicalizeURL (docSurface w id sfx) = (docKeyPre ++ id, docURL id sfx)) ∧
    (∀ w id sfx, goodIdB id = true → goodSfxB sfx = true →
      canonicalizeURL (sheetSurface w id sfx) = (sheetKeyPre ++ id, sheetURL id sfx)) ∧
    (∀ raw, (canonicalizeURL raw).1 = [] ∨
      (∃ i, (canonicalizeURL raw).1 = docKeyPre ++ i) ∨
      (∃ i, (canonicalizeURL raw).1 = sheetKeyPre ++ i)) ∧
    (∀ raw, ∃ n, n ≤ 3 ∧ (canonicalizeURL raw).2 = applyUnwrap n raw ∧
      (n < 3 → unwrapStep (applyUnwrap n raw) = none)) ∧
    (∀ u, redirectMatch u = true → queryGet qName u = [] → (canonicalizeURL u).2 = u) ∧
    (∀ u, redirectMatch u = true → queryUnescape (queryGet qName u) = none →
      (canonicalizeURL u).2 = u) := by
  refine ⟨?_, ?_, ?_, ?_, ?_, ?_⟩
  · exact fun w id sfx hid hsfx => canonicalizeURL_docSurface w id sfx hid hsfx
  · exact fun w id sfx hid hsfx => canonicalizeURL_sheetSurface w id sfx hid hsfx
  · exact canonicalizeURL_key_shape
  · intro raw
    obtain ⟨n, hn, heq, hstop⟩ := unwrapLoop_bounded 3 raw
    exact ⟨n, hn, by rw [canonicalizeURL_snd, heq], hstop⟩
  · intro u hr hq
    rw [canonicalizeURL_snd]
    show unwrapLoop (2 + 1) u = u
    rw [unwrapLoop_succ, if_pos hr, if_pos hq]
  · intro u hr hq
    rw [canonicalizeURL_snd]
    show unwrapLoop (2 + 1) u = u
    rw [unwrapLoop_succ, if_pos hr]
    by_cases hqe : queryGet qName u = []
    · rw [if_pos hqe]
    · rw [if_neg hqe, hq]

/-- Witness for the amended C8: the concrete doc and sheet URLs (plain and
wrapped) classify to "doc:"/"sheet:" keys; a wrapper without a q parameter
stops the unwrap early. -/
theorem canonicalizeURL_amended_spec_witness :
    goodIdB "abc123".data = true ∧
    goodSfxB "/edit".data = true ∧
    canonicalizeURL (docSurface false "abc123".data "/edit".data) =
      ("doc:abc123".data, docURL "abc123".data "/edit".data) ∧
    canonicalizeURL (sheetSurface true "abc123".data "/edit".data) =
      ("sheet:abc123".data, sheetURL "abc123".data "/edit".data) ∧
    redirectMatch "https://www.google.com/url?x=1".data = true ∧
    (canonicalizeURL "https://www.google.com/url?x=1".data).2 =
      "https://www.google.com/url?x=1".data := by
  refine ⟨by decide, by decide, ?_, ?_, by decide, ?_⟩
  · exact canonicalizeURL_amended_spec.1 false "abc123".data "/edit".data
      (by decide) (by decide)
  · exact canonicalizeURL_amended_spec.2.1 true "abc123".data "/edit".data
      (by decide) (by decide)
  · exact canonicalizeURL_amended_spec.2.2.2.2.1 "https://www.google.com/url?x=1".data
      (by decide) (by decide)

/-! ## makeSlug lemmas -/

theorem collapseRuns_cons_neg (p : Char → Bool) (r d : Char) (rest : Str) (hpd : p d = false) :
    collapseRuns p r (d :: rest) = d :: collapseRuns p r rest := by
  cases rest <;> simp [collapseRuns, hpd]

theorem collapseRuns_mem (p : Char → Bool) (r : Char) :
    ∀ s : Str, ∀ c ∈ collapseRuns p r s, c = r ∨ (p c = false ∧ c ∈ s) := by
  intro s
  induction s with
  | nil => intro c hc; simp [collapseRuns] at hc
  | cons a tail ih =>
    intro c hc
    cases tail with
    | nil =>
      by_cases hp : p a = true
      · rw [show collapseRuns p r [a] = [r] from by simp [collapseRuns, hp]] at hc
        simp at hc
        exact Or.inl hc
      · rw [show collapseRuns p r [a] = [a] from by simp [collapseRuns, hp]] at hc
        simp at hc
        subst hc
        exact Or.inr ⟨by simpa using hp, by simp⟩
    | cons d rest =>
      by_cases hpa : p a = true
      · by_cases hpd : p d = true
        · rw [show collapseRuns p r (a :: d :: rest) = collapseRuns p r (d :: rest) from by
            simp [collapseRuns, hpa, hpd]] at hc
          rcases ih c hc with h | ⟨h1, h2⟩
          · exact Or.inl h
          · exact Or.inr ⟨h1, by simp [h2]⟩
        · rw [show collapseRuns p r (a :: d :: rest) = r :: collapseRuns p r (d :: rest) from by
            simp [collapseRuns, hpa, hpd]] at hc
          rcases List.mem_cons.mp hc with rfl | hc2
          · exact Or.inl rfl
          · rcases ih c hc2 with h | ⟨h1, h2⟩
            · exact Or.inl h
            · exact Or.inr ⟨h1, by simp [h2]⟩
      · rw [show collapseRuns p r (a :: d :: rest) = a :: collapseRuns p r (d :: rest) from by
          simp [collapseRuns, hpa]] at hc
        rcases List.mem_cons.mp hc with rfl | hc2
        · exact Or.inr ⟨by simpa using hpa, by simp⟩
        · rcases ih c hc2 with h | ⟨h1, h2⟩
          · exact Or.inl h
          · exact Or.inr ⟨h1, by simp [h2]⟩

theorem noAdjacentP_cons2 (p : Char → Bool) (a b : Char) (rest : Str) :
    noAdjacentP p (a :: b :: rest) = (!(p a && p b) && noAdjacentP p (b :: rest)) := rfl

theorem collapseRuns_noAdj (p : Char → Bool) (r : Char) :
    ∀ s : Str, noAdjacentP p (collapseRuns p r s) = true := by
  intro s
  induction s with
  | nil => rfl
  | cons a tail ih =>
    cases tail with
    | nil => by_cases hp : p a = true <;> simp [collapseRuns, hp, noAdjacentP]
    | cons d rest =>
      by_cases hpa : p a = true
      · by_cases hpd : p d = true
        · rw [show collapseRuns p r (a :: d :: rest) = collapseRuns p r (d :: rest) from by
            simp [collapseRuns, hpa, hpd]]
          exact ih
        · have hpd2 : p d = false := by simpa using hpd
          rw [show collapseRuns p r (a :: d :: rest) = r :: collapseRuns p r (d :: rest) from by
            simp [collapseRuns, hpa, hpd]]
          rw [collapseRuns_cons_neg p r d rest hpd2, noAdjacentP_cons2]
          have h2 : noAdjacentP p (d :: collapseRuns p r rest) = true := by
            rw [← collapseRuns_cons_neg p r d rest hpd2]
            exact ih
          simp [hpd2, h2]
      · have hpa2 : p a = false := by simpa using hpa
        rw [collapseRuns_cons_neg p r a (d :: rest) hpa2]
        cases hout : collapseRuns p r (d :: rest) with
        | nil => rfl
        | cons x xs =>
          rw [noAdjacentP]
          have h3 : noAdjacentP p (x :: xs) = true := hout ▸ ih
          simp [hpa2, h3]

theorem noAdjacentP_tail (p : Char → Bool) {a : Char} {rest : Str}
    (h : noAdjacentP p (a :: rest) = true) : noAdjacentP p rest = true := by
  cases rest with
  | nil => rfl
  | cons b r2 =>
    rw [noAdjacentP_cons2] at h
    exact ((Bool.and_eq_true _ _).mp h).2

theorem noAdjacentP_append_right (p : Char → Bool) :
    ∀ l1 l2 : Str, noAdjacentP p (l1 ++ l2) = true → noAdjacentP p l2 = true := by
  intro l1
  induction l1 with
  | nil => exact fun l2 h => h
  | cons a t ih => exact fun l2 h => ih l2 (noAdjacentP_tail p h)

theorem noAdjacentP_append_left (p : Char → Bool) :
    ∀ l1 l2 : Str, noAdjacentP p (l1 ++ l2) = true → noAdjacentP p l1 = true := by
  intro l1
  induction l1 with
  | nil => intro _ _; rfl
  | cons a t ih =>
    intro l2 h
    cases t with
    | nil => rfl
    | cons b t2 =>
      rw [show (a :: b :: t2) ++ l2 = a :: b :: (t2 ++ l2) from rfl, noAdjacentP_cons2] at h
      rw [noAdjacentP_cons2]
      obtain ⟨hab, htl⟩ := (Bool.and_eq_true _ _).mp h
      rw [hab]
      simpa using ih l2 htl

theorem noAdjacentP_of_none (p : Char → Bool) :
    ∀ l : Str, (∀ c ∈ l, p c = false) → noAdjacentP p l = true := by
  intro l
  induction l with
  | nil => intro _; rfl
  | cons a t ih =>
    intro h
    cases t with
    | nil => rfl
    | cons b t2 =>
      rw [noAdjacentP_cons2, h a (by simp)]
      simpa using ih (fun c hc => h c (by simp [hc]))

theorem trimHyphens_decomp (s : Str) :
    ∃ pre post, s = pre ++ (trimHyphens s ++ post) := by
  refine ⟨s.takeWhile (fun c => c == '-'),
    ((s.dropWhile (fun c => c == '-')).reverse.takeWhile (fun c => c == '-')).reverse, ?_⟩
  rw [trimHyphens]
  conv_lhs => rw [← List.takeWhile_append_dropWhile
    (p := fun c => c == '-') (l := s)]
  congr 1
  conv_lhs => rw [← List.reverse_reverse (s.dropWhile (fun c => c == '-')),
    ← List.takeWhile_append_dropWhile (p := fun c => c == '-')
      (l := (s.dropWhile (fun c => c == '-')).reverse)]
  rw [List.reverse_append]

theorem trimHyphens_noAdj {p : Char → Bool} {s : Str} (h : noAdjacentP p s = true) :
    noAdjacentP p (trimHyphens s) = true := by
  obtain ⟨pre, post, hdec⟩ := trimHyphens_decomp s
  rw [hdec] at h
  exact noAdjacentP_append_left p _ _ (noAdjacentP_append_right p pre _ h)

theorem trimHyphens_mem {s : Str} {c : Char} (h : c ∈ trimHyphens s) : c ∈ s := by
  obtain ⟨pre, post, hdec⟩ := trimHyphens_decomp s
  rw [hdec]
  simp [h]

theorem take_noAdj {p : Char → Bool} {s : Str} (n : Nat) (h : noAdjacentP p s = true) :
    noAdjacentP p (s.take n) = true := by
  have hdec : s = s.take n ++ s.drop n := (List.take_append_drop n s).symm
  rw [hdec] at h
  exact noAdjacentP_append_left p _ _ h

theorem hexLow_alnum (n : Nat) : isLowerAlnum (hexLow n) = true := by
  by_cases h : n < 16
  · interval_cases n <;> decide
  · rw [hexLow, List.getD_eq_default _ _ (by simp [hexDigitsLow]; omega)]
    decide

theorem hexStr_mem : ∀ bs : List Nat, ∀ c ∈ hexStr bs, isLowerAlnum c = true := by
  intro bs
  induction bs with
  | nil => intro c hc; simp [hexStr] at hc
  | cons b t ih =>
    intro c hc
    rw [show hexStr (b :: t) = hexLow (b / 16) :: hexLow (b % 16) :: hexStr t from rfl] at hc
    rcases List.mem_cons.mp hc with rfl | hc2
    · exact hexLow_alnum _
    · rcases List.mem_cons.mp hc2 with rfl | hc3
      · exact hexLow_alnum _
      · exact ih c hc3

theorem hexStr_length : ∀ bs : List Nat, (hexStr bs).length = 2 * bs.length := by
  intro bs
  induction bs with
  | nil => rfl
  | cons b t ih =>
    rw [show hexStr (b :: t) = hexLow (b / 16) :: hexLow (b % 16) :: hexStr t from rfl]
    simp [ih]
    omega

theorem sha1Bytes_ne_nil (msg : List Nat) : sha1Bytes msg ≠ [] := by
  simp [sha1Bytes, be4]

theorem sha1Hex6_ne_nil (id : Str) : sha1Hex6 id ≠ [] := by
  rw [sha1Hex6]
  obtain ⟨b, rest, hb⟩ := List.exists_cons_of_ne_nil (sha1Bytes_ne_nil (id.map Char.toNat))
  rw [hb]
  rw [show (b :: rest).take 6 = b :: rest.take 5 from rfl]
  rw [show hexStr (b :: rest.take 5) =
    hexLow (b / 16) :: hexLow (b % 16) :: hexStr (rest.take 5) from rfl]
  simp

theorem sha1Hex6_length (id : Str) : (sha1Hex6 id).length ≤ 12 := by
  rw [sha1Hex6, hexStr_length]
  have h := List.length_take_le 6 (sha1Bytes (id.map Char.toNat))
  omega

theorem sha1Hex6_chars (id : Str) : ∀ c ∈ sha1Hex6 id, isLowerAlnum c = true :=
  fun c hc => hexStr_mem _ c hc

theorem sha1Hex6_noAdj (id : Str) :
    noAdjacentP (fun c => c == '-') (sha1Hex6 id) = true := by
  apply noAdjacentP_of_none
  intro c hc
  have h := sha1Hex6_chars id c hc
  cases hcc : c == '-'
  · rfl
  · rw [beq_iff_eq.mp hcc] at h
    exact absurd h (by decide)

theorem makeSlug_none_iff (title id : Str) : makeSlug title id = none ↔ id.length < 6 := by
  by_cases h : 6 ≤ id.length
  · have hgs : goSliceTo id 6 = some (id.take 6) := by simp [goSliceTo, h]
    simp only [makeSlug, hgs]
    simp
    omega
  · have hgs : goSliceTo id 6 = none := by
      rw [goSliceTo, if_neg h]
    simp only [makeSlug, hgs]
    simp
    omega

/-- C9: makeSlug(title, id) is defined only when the id has at least 6 bytes
(the unchecked slice `id[:6]` panics otherwise); under that precondition it
returns `slug ++ "-" ++ id[:6]` where the slug is non-empty, at most 60
bytes, made of lowercase alphanumerics and single (non-doubled) hyphens, and
falls back to the hex of the id's SHA-1 prefix when the slugified title is
empty. -/
theorem makeSlug_spec (title id : Str) :
    (id.length < 6 → makeSlug title id = none) ∧
    (6 ≤ id.length → ∃ slug, makeSlug title id = some (slug ++ '-' :: id.take 6) ∧
      slug ≠ [] ∧ slug.length ≤ 60 ∧
      (∀ c ∈ slug, isLowerAlnum c = true ∨ c = '-') ∧
      noDoubleHyphen slug = true ∧
      (slugCore title = [] → slug = sha1Hex6 id)) := by
  constructor
  · intro hlen
    exact (makeSlug_none_iff title id).mpr hlen
  · intro hlen
    have hgs : goSliceTo id 6 = some (id.take 6) := by simp [goSliceTo, hlen]
    set s1 := collapseRuns (fun c => !(isLowerAlnum c)) '-' (title.map asciiLower) with hs1
    set s2 := collapseRuns (fun c => c == '-') '-' s1 with hs2
    set s3 := trimHyphens s2 with hs3
    set s4 := (if s3.length > 60 then s3.take 60 else s3) with hs4
    set s5 := (if s4 = [] then sha1Hex6 id else s4) with hs5
    have hms : makeSlug title id = some (s5 ++ '-' :: id.take 6) := by
      rw [makeSlug, hgs]
    have hcore : slugCore title = s3 := rfl
    have hchars2 : ∀ c ∈ s2, isLowerAlnum c = true ∨ c = '-' := by
      intro c hc
      rcases collapseRuns_mem _ '-' s1 c hc with rfl | ⟨_, hc2⟩
      · exact Or.inr rfl
      · rcases collapseRuns_mem _ '-' (title.map asciiLower) c hc2 with rfl | ⟨hna, _⟩
        · exact Or.inr rfl
        · exact Or.inl (by simpa using hna)
    have hnadj2 : noAdjacentP (fun c => c == '-') s2 = true := collapseRuns_noAdj _ '-' s1
    have hnadj3 : noAdjacentP (fun c => c == '-') s3 = true := trimHyphens_noAdj hnadj2
    by_cases h4 : s4 = []
    · refine ⟨sha1Hex6 id, ?_, sha1Hex6_ne_nil id, le_trans (sha1Hex6_length id) (by omega),
        fun c hc => Or.inl (sha1Hex6_chars id c hc), sha1Hex6_noAdj id, fun _ => rfl⟩
      rw [hms, hs5, if_pos h4]
    · refine ⟨s4, ?_, h4, ?_, ?_, ?_, ?_⟩
      · rw [hms, hs5, if_neg h4]
      · rw [hs4]
        by_cases hgt : s3.length > 60
        · rw [if_pos hgt]
          simp
        · rw [if_neg hgt]
          omega
      · intro c hc
        have hc3 : c ∈ s3 := by
          rw [hs4] at hc
          by_cases hgt : s3.length > 60
          · rw [if_pos hgt] at hc
            exact List.take_subset _ _ hc
          · rwa [if_neg hgt] at hc
        exact hchars2 c (trimHyphens_mem hc3)
      · rw [noDoubleHyphen, hs4]
        by_cases hgt : s3.length > 60
        · rw [if_pos hgt]
          exact take_noAdj 60 hnadj3
        · rw [if_neg hgt]
          exact hnadj3
      · intro hcz
        rw [hcore] at hcz
        rw [hs4, hcz] at h4
        simp at h4

/-- Witness for C9: a concrete title and id; the slug is the slugified title,
and a short id is rejected. -/
theorem makeSlug_spec_witness :
    6 ≤ ("abc123XYZ".data : Str).length ∧
    (∃ slug, makeSlug "Hello, World! Doc".data "abc123XYZ".data =
        some (slug ++ '-' :: ("abc123XYZ".data : Str).take 6) ∧
      slug ≠ [] ∧ slug.length ≤ 60 ∧
      (∀ c ∈ slug, isLowerAlnum c = true ∨ c = '-') ∧
      noDoubleHyphen slug = true ∧
      (slugCore "Hello, World! Doc".data = [] → slug = sha1Hex6 "abc123XYZ".data)) ∧
    makeSlug "title".data "abc".data = none := by
  refine ⟨by decide, (makeSlug_spec "Hello, World! Doc".data "abc123XYZ".data).2 (by decide),
    (makeSlug_spec "title".data "abc".data).1 (by decide)⟩

/-! ## Association-map lemmas -/

theorem lookupA_cons (p : Str × Str) (rest : List (Str × Str)) (k : Str) :
    lookupA (p :: rest) k = if p.1 = k then some p.2 else lookupA rest k := rfl

theorem lookupA_setmap_hit : ∀ (m : List (Str × Str)) (k v : Str),
    (lookupA m k).isSome = true →
    lookupA (m.map (fun p => if p.1 = k then (k, v) else p)) k = some v := by
  intro m k v
  induction m with
  | nil => intro h; simp [lookupA] at h
  | cons a t ih =>
    intro h
    by_cases hak : a.1 = k
    · simp [lookupA_cons, hak]
    · rw [lookupA_cons, if_neg hak] at h
      simp only [List.map_cons, if_neg hak]
      rw [lookupA_cons, if_neg hak]
      exact ih h

theorem lookupA_setmap_ne : ∀ (m : List (Str × Str)) (k v k2 : Str), k2 ≠ k →
    lookupA (m.map (fun p => if p.1 = k then (k, v) else p)) k2 = lookupA m k2 := by
  intro m k v k2 hne
  induction m with
  | nil => rfl
  | cons a t ih =>
    by_cases hak : a.1 = k
    · simp only [List.map_cons, if_pos hak]
      rw [lookupA_cons, lookupA_cons]
      rw [if_neg (show ¬(k, v).1 = k2 from fun h => hne h.symm),
        if_neg (show ¬a.1 = k2 from by rw [hak]; exact fun h => hne h.symm)]
      exact ih
    · simp only [List.map_cons, if_neg hak]
      rw [lookupA_cons, lookupA_cons]
      by_cases hk2 : a.1 = k2
      · rw [if_pos hk2, if_pos hk2]
      · rw [if_neg hk2, if_neg hk2]
        exact ih

theorem lookupA_append (m1 m2 : List (Str × Str)) (k : Str) :
    lookupA (m1 ++ m2) k =
      match lookupA m1 k with
      | some v => some v
      | none => lookupA m2 k := by
  induction m1 with
  | nil => rfl
  | cons a t ih =>
    rw [show (a :: t) ++ m2 = a :: (t ++ m2) from rfl, lookupA_cons, lookupA_cons]
    by_cases hak : a.1 = k
    · rw [if_pos hak, if_pos hak]
    · rw [if_neg hak, if_neg hak]
      exact ih

theorem lookupA_assocSet_eq (m : List (Str × Str)) (k v : Str) :
    lookupA (assocSet m k v) k = some v := by
  rw [assocSet]
  by_cases hp : (lookupA m k).isSome = true
  · rw [if_pos hp]
    exact lookupA_setmap_hit m k v hp
  · rw [if_neg hp, lookupA_append]
    have hn : lookupA m k = none := by
      cases h : lookupA m k
      · rfl
      · rw [h] at hp
        simp at hp
    rw [hn]
    simp [lookupA_cons]

theorem lookupA_assocSet_ne (m : List (Str × Str)) (k v k2 : Str) (h : k2 ≠ k) :
    lookupA (assocSet m k v) k2 = lookupA m k2 := by
  rw [assocSet]
  by_cases hp : (lookupA m k).isSome = true
  · rw [if_pos hp]
    exact lookupA_setmap_ne m k v k2 h
  · rw [if_neg hp, lookupA_append]
    cases h2 : lookupA m k2
    · rw [lookupA_cons, if_neg (show ¬(k, v).1 = k2 from fun hk => h hk.symm)]
      rfl
    · rfl

theorem lookupA_assocSet_isSome (m : List (Str × Str)) (k v k2 : Str) :
    (lookupA (assocSet m k v) k2).isSome = true ↔
      (k2 = k ∨ (lookupA m k2).isSome = true) := by
  by_cases h : k2 = k
  · subst h
    rw [lookupA_assocSet_eq]
    simp
  · rw [lookupA_assocSet_ne m k v k2 h]
    simp [h]

/-! ## Uploader lemmas -/

theorem uploadFold_lookup (publish : Str → Metadata → Option Str) :
    ∀ (records : List URecord) (m0 : List (Str × Str)) (st0 : UploadStats) (k : Str),
      (lookupA (records.foldl (uploadOne publish) (m0, st0)).1 k).isSome = true ↔
        ((lookupA m0 k).isSome = true ∨ ∃ r ∈ records, r.meta.isRedirect = false ∧
          contentFileName r.meta.type ≠ [] ∧
          (publish (joinPath r.dir (contentFileName r.meta.type)) r.meta).isSome = true ∧
          k = goTypeKey r.meta.type r.meta.id) := by
  intro records
  induction records with
  | nil =>
    intro m0 st0 k
    simp
  | cons r rs ih =>
    intro m0 st0 k
    rw [List.foldl_cons, List.exists_mem_cons_iff]
    by_cases hred : r.meta.isRedirect = true
    · rw [show uploadOne publish (m0, st0) r =
        (m0, { st0 with skipped := st0.skipped + 1 }) from by rw [uploadOne, if_pos hred]]
      rw [ih]
      simp [hred]
    · have hred2 : r.meta.isRedirect = false := by simpa using hred
      by_cases hcf : contentFileName r.meta.type = []
      · rw [show uploadOne publish (m0, st0) r =
          (m0, { st0 with failed := st0.failed + 1 }) from by
            rw [uploadOne, if_neg (by simp [hred2]), if_pos hcf]]
        rw [ih]
        simp [hcf]
      · cases hpub : publish (joinPath r.dir (contentFileName r.meta.type)) r.meta with
        | none =>
          rw [show uploadOne publish (m0, st0) r =
            (m0, { st0 with failed := st0.failed + 1 }) from by
              rw [uploadOne, if_neg (by simp [hred2]), if_neg hcf, hpub]]
          rw [ih]
          simp [hpub]
        | some newID =>
          rw [show uploadOne publish (m0, st0) r =
            (assocSet m0 (goTypeKey r.meta.type r.meta.id) newID,
              { st0 with totalUploaded := st0.totalUploaded + 1 }) from by
              rw [uploadOne, if_neg (by simp [hred2]), if_neg hcf, hpub]]
          rw [ih, lookupA_assocSet_isSome]
          constructor
          · rintro (⟨h1 | h1⟩ | h2)
            · exact Or.inr (Or.inl ⟨hred2, hcf, rfl, h1⟩)
            · exact Or.inl h1
            · exact Or.inr (Or.inr h2)
          · rintro (h1 | ⟨_, _, _, h2⟩ | h3)
            · exact Or.inl (Or.inr h1)
            · exact Or.inl (Or.inl h2)
            · exact Or.inr h3

theorem uploadFold_lookup_some (publish : Str → Metadata → Option Str) :
    ∀ (records : List URecord) (m0 : List (Str × Str)) (st0 : UploadStats) (k v : Str),
      lookupA (records.foldl (uploadOne publish) (m0, st0)).1 k = some v →
      ((∃ r ∈ records, r.meta.isRedirect = false ∧
          publish (joinPath r.dir (contentFileName r.meta.type)) r.meta = some v ∧
          k = goTypeKey r.meta.type r.meta.id) ∨ lookupA m0 k = some v) := by
  intro records
  induction records with
  | nil =>
    intro m0 st0 k v h
    exact Or.inr h
  | cons r rs ih =>
    intro m0 st0 k v h
    rw [List.foldl_cons] at h
    rw [List.exists_mem_cons_iff]
    by_cases hred : r.meta.isRedirect = true
    · rw [show uploadOne publish (m0, st0) r =
        (m0, { st0 with skipped := st0.skipped + 1 }) from by rw [uploadOne, if_pos hred]] at h
      rcases ih _ _ _ _ h with h1 | h2
      · exact Or.inl (Or.inr h1)
      · exact Or.inr h2
    · have hred2 : r.meta.isRedirect = false := by simpa using hred
      by_cases hcf : contentFileName r.meta.type = []
      · rw [show uploadOne publish (m0, st0) r =
          (m0, { st0 with failed := st0.failed + 1 }) from by
            rw [uploadOne, if_neg (by simp [hred2]), if_pos hcf]] at h
        rcases ih _ _ _ _ h with h1 | h2
        · exact Or.inl (Or.inr h1)
        · exact Or.inr h2
      · cases hpub : publish (joinPath r.dir (contentFileName r.meta.type)) r.meta with
        | none =>
          rw [show uploadOne publish (m0, st0) r =
            (m0, { st0 with failed := st0.failed + 1 }) from by
              rw [uploadOne, if_neg (by simp [hred2]), if_neg hcf, hpub]] at h
          rcases ih _ _ _ _ h with h1 | h2
          · exact Or.inl (Or.inr h1)
          · exact Or.inr h2
        | some newID =>
          rw [show uploadOne publish (m0, st0) r =
            (assocSet m0 (goTypeKey r.meta.type r.meta.id) newID,
              { st0 with totalUploaded := st0.totalUploaded + 1 }) from by
              rw [uploadOne, if_neg (by simp [hred2]), if_neg hcf, hpub]] at h
          rcases ih _ _ _ _ h with h1 | h2
          · exact Or.inl (Or.inr h1)
          · by_cases hk : k = goTypeKey r.meta.type r.meta.id
            · subst hk
              rw [lookupA_assocSet_eq] at h2
              exact Or.inl (Or.inl ⟨hred2, h2, rfl⟩)
            · rw [lookupA_assocSet_ne _ _ _ _ hk] at h2
              exact Or.inr h2

/-- C4: after the uploader run, the identity map contains exactly the keys of
the successfully published, non-redirect records: a key is present iff some
non-redirect record with that key (and a supported content type) published
successfully, and every stored value is the destination id returned by such a
publish. -/
theorem uploader_idmap_exact (publish : Str → Metadata → Option Str)
    (records : List URecord) :
    (∀ k, (lookupA (uploaderRun publish records).idMap k).isSome = true ↔
      ∃ r ∈ records, r.meta.isRedirect = false ∧
        contentFileName r.meta.type ≠ [] ∧
        (publish (joinPath r.dir (contentFileName r.meta.type)) r.meta).isSome = true ∧
        k = goTypeKey r.meta.type r.meta.id) ∧
    (∀ k v, lookupA (uploaderRun publish records).idMap k = some v →
      ∃ r ∈ records, r.meta.isRedirect = false ∧
        publish (joinPath r.dir (contentFileName r.meta.type)) r.meta = some v ∧
        k = goTypeKey r.meta.type r.meta.id) := by
  constructor
  · intro k
    have h := uploadFold_lookup publish records [] ⟨0, 0, 0⟩ k
    rw [show (uploaderRun publish records).idMap =
      (records.foldl (uploadOne publish) ([], ⟨0, 0, 0⟩)).1 from rfl, h]
    simp [lookupA]
  · intro k v h
    have h2 := uploadFold_lookup_some publish records [] ⟨0, 0, 0⟩ k v
      (by rw [show (uploaderRun publish records).idMap =
        (records.foldl (uploadOne publish) ([], ⟨0, 0, 0⟩)).1 from rfl] at h; exact h)
    rcases h2 with h3 | h4
    · exact h3
    · simp [lookupA] at h4

/-- Witness for C4 at a concrete record set: one successfully published doc,
one failing doc, one redirect. -/
theorem uploader_idmap_exact_witness :
    (lookupA (uploaderRun
      (fun _ m => if m.id = "aaa111".data then some "NEW1".data else none)
      [{ dir := "out/a".data, meta := ⟨"A".data, "aaa111".data, "doc".data, false⟩ },
       { dir := "out/b".data, meta := ⟨"B".data, "bbb222".data, "doc".data, false⟩ },
       { dir := "out/c".data, meta := ⟨"C".data, "ccc333".data, "doc".data, true⟩ }]).idMap
      "doc:aaa111".data).isSome = true ∧
    (lookupA (uploaderRun
      (fun _ m => if m.id = "aaa111".data then some "NEW1".data else none)
      [{ dir := "out/a".data, meta := ⟨"A".data, "aaa111".data, "doc".data, false⟩ },
       { dir := "out/b".data, meta := ⟨"B".data, "bbb222".data, "doc".data, false⟩ },
       { dir := "out/c".data, meta := ⟨"C".data, "ccc333".data, "doc".data, true⟩ }]).idMap
      "doc:bbb222".data).isSome = false := by
  constructor
  · exact (uploader_idmap_exact _ _).1 "doc:aaa111".data |>.mpr
      ⟨{ dir := "out/a".data, meta := ⟨"A".data, "aaa111".data, "doc".data, false⟩ },
        by simp, rfl, by decide, by decide, by decide⟩
  · decide

/-- C10: when no record publishes successfully the uploader writes no
id_map.json at all (but still succeeds), and a subsequent patcher run with
the file missing succeeds as a no-op with all-zero statistics. -/
theorem uploader_empty_noop (publish : Str → Metadata → Option Str)
    (records : List URecord)
    (h : ∀ r ∈ records, publish (joinPath r.dir (contentFileName r.meta.type)) r.meta = none) :
    (uploaderRun publish records).written = none ∧
    (uploaderRun publish records).idMap = [] ∧
    (∀ entries maxA, patcherRun maxA none entries = { ok := true, stats := ⟨0, 0, 0, 0⟩ }) := by
  have hmap : ∀ (m0 : List (Str × Str)) (st0 : UploadStats),
      (∀ r ∈ records, publish (joinPath r.dir (contentFileName r.meta.type)) r.meta = none) →
      (records.foldl (uploadOne publish) (m0, st0)).1 = m0 := by
    clear h
    induction records with
    | nil => intro m0 st0 _; rfl
    | cons r rs ih =>
      intro m0 st0 h
      rw [List.foldl_cons]
      have hr := h r (by simp)
      by_cases hred : r.meta.isRedirect = true
      · rw [show uploadOne publish (m0, st0) r =
          (m0, { st0 with skipped := st0.skipped + 1 }) from by rw [uploadOne, if_pos hred]]
        exact ih m0 _ (fun r2 hr2 => h r2 (by simp [hr2]))
      · have hred2 : r.meta.isRedirect = false := by simpa using hred
        by_cases hcf : contentFileName r.meta.type = []
        · rw [show uploadOne publish (m0, st0) r =
            (m0, { st0 with failed := st0.failed + 1 }) from by
              rw [uploadOne, if_neg (by simp [hred2]), if_pos hcf]]
          exact ih m0 _ (fun r2 hr2 => h r2 (by simp [hr2]))
        · rw [show uploadOne publish (m0, st0) r =
            (m0, { st0 with failed := st0.failed + 1 }) from by
              rw [uploadOne, if_neg (by simp [hred2]), if_neg hcf, hr]]
          exact ih m0 _ (fun r2 hr2 => h r2 (by simp [hr2]))
  have hempty : (uploaderRun publish records).idMap = [] := by
    rw [show (uploaderRun publish records).idMap =
      (records.foldl (uploadOne publish) ([], ⟨0, 0, 0⟩)).1 from rfl]
    exact hmap [] ⟨0, 0, 0⟩ h
  refine ⟨?_, hempty, fun entries maxA => rfl⟩
  rw [show (uploaderRun publish records).written =
    (if (records.foldl (uploadOne publish) ([], ⟨0, 0, 0⟩)).1 = []
      then none else some (records.foldl (uploadOne publish) ([], ⟨0, 0, 0⟩)).1) from rfl]
  rw [hmap [] ⟨0, 0, 0⟩ h]
  simp

/-- Witness for C10: one doc record whose publish fails. -/
theorem uploader_empty_noop_witness :
    (uploaderRun (fun _ _ => none)
      [{ dir := "out/a".data, meta := ⟨"A".data, "aaa111".data, "doc".data, false⟩ }]).written =
      none ∧
    patcherRun 6 none [] = { ok := true, stats := ⟨0, 0, 0, 0⟩ } := by
  have h := uploader_empty_noop (fun _ _ => none)
    [{ dir := "out/a".data, meta := ⟨"A".data, "aaa111".data, "doc".data, false⟩ }]
    (fun r _ => rfl)
  exact ⟨h.1, h.2.2 [] 6⟩

/-! ## Patcher request-building lemmas -/

theorem buildFoldP_inner (urlMap : List (Str × Str)) :
    ∀ (els : List GParagraphElement) (acc : List GRequest),
      els.foldl (fun reqs2 el =>
          match linkURLOf el with
          | none => reqs2
          | some u =>
            match lookupA urlMap (canonicalLink u) with
            | none => reqs2
            | some nu =>
              reqs2 ++ [{ startIndex := el.startIndex, endIndex := el.endIndex, url := nu }])
        acc = acc ++ els.filterMap (reqOfElemP urlMap) := by
  intro els
  induction els with
  | nil => intro acc; simp
  | cons e rest ih =>
    intro acc
    rw [List.foldl_cons, List.filterMap_cons]
    cases hl : linkURLOf e with
    | none =>
      rw [show reqOfElemP urlMap e = none from by rw [reqOfElemP, hl]]
      simp only [hl]
      exact ih acc
    | some u =>
      cases hk : lookupA urlMap (canonicalLink u) with
      | none =>
        rw [show reqOfElemP urlMap e = none from by simp only [reqOfElemP, hl, hk]]
        simp only [hl, hk]
        exact ih acc
      | some nu =>
        rw [show reqOfElemP urlMap e =
          some { startIndex := e.startIndex, endIndex := e.endIndex, url := nu } from by
          simp only [reqOfElemP, hl, hk]]
        simp only [hl, hk]
        rw [ih, List.append_assoc]
        rfl

theorem buildFoldT_inner (urlMap : List (Str × Str)) :
    ∀ (els : List GParagraphElement) (acc : List GRequest),
      els.foldl (fun reqs2 el =>
          match linkURLOf el with
          | none => reqs2
          | some u =>
            match lookupA urlMap (canonicalLinkTidy u) with
            | none => reqs2
            | some nu =>
              reqs2 ++ [{ startIndex := el.startIndex, endIndex := el.endIndex, url := nu }])
        acc = acc ++ els.filterMap (reqOfElem urlMap) := by
  intro els
  induction els with
  | nil => intro acc; simp
  | cons e rest ih =>
    intro acc
    rw [List.foldl_cons, List.filterMap_cons]
    cases hl : linkURLOf e with
    | none =>
      rw [show reqOfElem urlMap e = none from by rw [reqOfElem, hl]]
      simp only [hl]
      exact ih acc
    | some u =>
      cases hk : lookupA urlMap (canonicalLinkTidy u) with
      | none =>
        rw [show reqOfElem urlMap e = none from by simp only [reqOfElem, hl, hk]]
        simp only [hl, hk]
        exact ih acc
      | some nu =>
        rw [show reqOfElem urlMap e =
          some { startIndex := e.startIndex, endIndex := e.endIndex, url := nu } from by
          simp only [reqOfElem, hl, hk]]
        simp only [hl, hk]
        rw [ih, List.append_assoc]
        rfl

theorem buildPatchRequests_spec (doc : GDocument) (urlMap : List (Str × Str)) :
    buildPatchRequests doc urlMap = (flatElems doc).filterMap (reqOfElemP urlMap) := by
  rw [buildPatchRequests, flatElems]
  suffices h : ∀ (ses : List GStructuralElement) (acc : List GRequest),
      ses.foldl (fun reqs se =>
          match se.paragraph with
          | none => reqs
          | some para =>
            para.elements.foldl (fun reqs2 el =>
              match linkURLOf el with
              | none => reqs2
              | some u =>
                match lookupA urlMap (canonicalLink u) with
                | none => reqs2
                | some nu =>
                  reqs2 ++ [{ startIndex := el.startIndex, endIndex := el.endIndex, url := nu }])
              reqs) acc =
        acc ++ ((ses.filterMap (fun se => se.paragraph)).flatMap
          (fun p => p.elements)).filterMap (reqOfElemP urlMap) by
    have h2 := h doc.content []
    simpa using h2
  intro ses
  induction ses with
  | nil => intro acc; simp
  | cons se rest ih =>
    intro acc
    rw [List.foldl_cons]
    cases hp : se.paragraph with
    | none =>
      simp only [hp, List.filterMap_cons]
      exact ih acc
    | some para =>
      simp only [hp, List.filterMap_cons]
      rw [buildFoldP_inner urlMap para.elements acc, ih, List.flatMap_cons,
        List.filterMap_append, List.append_assoc]

theorem buildPatchRequestsT_spec (doc : GDocument) (urlMap : List (Str × Str)) :
    buildPatchRequestsT doc urlMap = (flatElems doc).filterMap (reqOfElem urlMap) := by
  rw [buildPatchRequestsT, flatElems]
  suffices h : ∀ (ses : List GStructuralElement) (acc : List GRequest),
      ses.foldl (fun reqs se =>
          match se.paragraph with
          | none => reqs
          | some para =>
            para.elements.foldl (fun reqs2 el =>
              match linkURLOf el with
              | none => reqs2
              | some u =>
                match lookupA urlMap (canonicalLinkTidy u) with
                | none => reqs2
                | some nu =>
                  reqs2 ++ [{ startIndex := el.startIndex, endIndex := el.endIndex, url := nu }])
              reqs) acc =
        acc ++ ((ses.filterMap (fun se => se.paragraph)).flatMap
          (fun p => p.elements)).filterMap (reqOfElem urlMap) by
    have h2 := h doc.content []
    simpa using h2
  intro ses
  induction ses with
  | nil => intro acc; simp
  | cons se rest ih =>
    intro acc
    rw [List.foldl_cons]
    cases hp : se.paragraph with
    | none =>
      simp only [hp, List.filterMap_cons]
      exact ih acc
    | some para =>
      simp only [hp, List.filterMap_cons]
      rw [buildFoldT_inner urlMap para.elements acc, ih, List.flatMap_cons,
        List.filterMap_append, List.append_assoc]

theorem buildURLMap_lookup (html : Str) (idMap : IdMap) :
    ∀ k v, lookupA (buildURLMap html idMap) k = some v →
      ∃ kind id newID, lookupA idMap (goKey kind id) = some newID ∧
        k = stripQuery (gURL kind id) ∧ v = editURL kind newID := by
  rw [buildURLMap]
  suffices h : ∀ (kids : List (Str × Str)) (m0 : List (Str × Str)) (k v : Str),
      lookupA (kids.foldl (fun urlMap kid =>
        match lookupA idMap (goKey kid.1 kid.2) with
        | none => urlMap
        | some newID =>
          assocSet urlMap (stripQuery (gURL kid.1 kid.2)) (editURL kid.1 newID)) m0) k =
          some v →
      ((∃ kind id newID, lookupA idMap (goKey kind id) = some newID ∧
        k = stripQuery (gURL kind id) ∧ v = editURL kind newID) ∨ lookupA m0 k = some v) by
    intro k v hkv
    rcases h (linkMatches html) [] k v hkv with h1 | h2
    · exact h1
    · simp [lookupA] at h2
  intro kids
  induction kids with
  | nil => intro m0 k v h; exact Or.inr h
  | cons kid rest ih =>
    intro m0 k v h
    rw [List.foldl_cons] at h
    cases hl : lookupA idMap (goKey kid.1 kid.2) with
    | none =>
      rw [hl] at h
      exact ih m0 k v h
    | some newID =>
      rw [hl] at h
      rcases ih _ k v h with h1 | h2
      · exact Or.inl h1
      · by_cases hk : k = stripQuery (gURL kid.1 kid.2)
        · subst hk
          rw [lookupA_assocSet_eq] at h2
          exact Or.inl ⟨kid.1, kid.2, newID, hl, rfl, (Option.some.inj h2).symm⟩
        · rw [lookupA_assocSet_ne _ _ _ _ hk] at h2
          exact Or.inr h2

/-! ## Retry-loop lemmas -/

theorem retryLoop_unfold (calls : Nat → Option ApiErr) (jitter : Nat → Nat) (maxA i : Nat)
    (sleeps : List Nat) :
    retryLoop calls jitter maxA i sleeps =
      if i < maxA then
        match calls i with
        | none => { outcome := .ok (), attempts := i + 1, sleeps := sleeps }
        | some e =>
          if retryable e then
            retryLoop calls jitter maxA (i + 1) (sleeps ++ [backoffDelay i + jitter i])
          else { outcome := .error (.nonRetryable e), attempts := i + 1, sleeps := sleeps }
      else { outcome := .error (.exhausted maxA), attempts := maxA, sleeps := sleeps } := by
  rw [retryLoop]

theorem retryable_503 : retryable (ApiErr.google 503) = true := rfl

theorem retryable_iff (e : ApiErr) : retryable e = true ↔ e = ApiErr.google 503 := by
  constructor
  · intro h
    cases e with
    | other => exact absurd h (by decide)
    | google c =>
      by_cases hc : c = 503
      · rw [hc]
      · exfalso
        have hf : retryable (ApiErr.google c) = false := by
          unfold retryable
          split
          · next heq => exact absurd (by injection heq) hc
          · rfl
        rw [hf] at h
        exact absurd h (by decide)
  · rintro rfl
    rfl

theorem retryLoop_shift (calls : Nat → Option ApiErr) (jitter : Nat → Nat) (maxA : Nat) :
    ∀ (k i : Nat) (sleeps : List Nat),
      (∀ n, i ≤ n → n < i + k → calls n = some (ApiErr.google 503)) →
      i + k ≤ maxA →
      retryLoop calls jitter maxA i sleeps =
        retryLoop calls jitter maxA (i + k)
          (sleeps ++ (List.range' i k).map (fun n => backoffDelay n + jitter n)) := by
  intro k
  induction k with
  | zero =>
    intro i sleeps _ _
    simp
  | succ k ih =>
    intro i sleeps hcalls hle
    have hi : i < maxA := by omega
    have hci : calls i = some (ApiErr.google 503) := hcalls i (le_refl i) (by omega)
    rw [retryLoop_unfold, if_pos hi, hci]
    simp only [retryable_503, if_true]
    rw [ih (i + 1) (sleeps ++ [backoffDelay i + jitter i])
      (fun n hn1 hn2 => hcalls n (by omega) (by omega)) (by omega)]
    rw [List.range'_succ, show i + 1 + k = i + (k + 1) from by omega]
    simp

theorem executeWithRetry_success (calls : Nat → Option ApiErr) (jitter : Nat → Nat)
    (maxA k : Nat) (hk : k < maxA)
    (hfail : ∀ i, i < k → calls i = some (ApiErr.google 503)) (hok : calls k = none) :
    executeWithRetry maxA calls jitter =
      { outcome := .ok (), attempts := k + 1,
        sleeps := (List.range k).map (fun i => backoffDelay i + jitter i) } := by
  rw [executeWithRetry,
    retryLoop_shift calls jitter maxA k 0 [] (fun n hn1 hn2 => hfail n (by omega)) (by omega)]
  rw [retryLoop_unfold, if_pos (by omega : 0 + k < maxA)]
  rw [show calls (0 + k) = none from by rw [Nat.zero_add]; exact hok]
  rw [List.range_eq_range']
  simp

theorem executeWithRetry_exhausted (calls : Nat → Option ApiErr) (jitter : Nat → Nat)
    (maxA : Nat) (hfail : ∀ i, i < maxA → calls i = some (ApiErr.google 503)) :
    executeWithRetry maxA calls jitter =
      { outcome := .error (.exhausted maxA), attempts := maxA,
        sleeps := (List.range maxA).map (fun i => backoffDelay i + jitter i) } := by
  rw [executeWithRetry,
    retryLoop_shift calls jitter maxA maxA 0 [] (fun n hn1 hn2 => hfail n (by omega))
      (by omega)]
  rw [retryLoop_unfold, if_neg (by omega : ¬(0 + maxA < maxA))]
  rw [List.range_eq_range']
  simp

theorem executeWithRetry_immediate (calls : Nat → Option ApiErr) (jitter : Nat → Nat)
    (maxA : Nat) (hpos : 0 < maxA) (e : ApiErr) (h0 : calls 0 = some e)
    (hnr : retryable e = false) :
    executeWithRetry maxA calls jitter =
      { outcome := .error (.nonRetryable e), attempts := 1, sleeps := [] } := by
  rw [executeWithRetry, retryLoop_unfold, if_pos hpos, h0]
  simp [hnr]

theorem executeWithRetry_first_ok (calls : Nat → Option ApiErr) (jitter : Nat → Nat)
    (maxA : Nat) (hpos : 0 < maxA) (h0 : calls 0 = none) :
    executeWithRetry maxA calls jitter =
      { outcome := .ok (), attempts := 1, sleeps := [] } := by
  rw [executeWithRetry, retryLoop_unfold, if_pos hpos, h0]

theorem processAllDocs_failures (idMap : IdMap) (maxA : Nat) :
    ∀ (entries : List PEntry) (st0 : PatchStats),
      (processAllDocs idMap maxA entries st0).failures =
        st0.failures + entries.countP (entryFailed idMap maxA) := by
  intro entries
  induction entries with
  | nil => intro st0; rfl
  | cons e rest ih =>
    intro st0
    have hstep : processAllDocs idMap maxA (e :: rest) st0 =
        processAllDocs idMap maxA rest
          (match (processDocument idMap e.meta e.html e.fetchDoc e.batchCalls
              e.jitter maxA).outcome with
           | .skippedNotDoc => { st0 with docsSkipped := st0.docsSkipped + 1 }
           | .skippedUnmapped => { st0 with docsSkipped := st0.docsSkipped + 1 }
           | .processedNoLinks => { st0 with docsProcessed := st0.docsProcessed + 1 }
           | .patched n =>
             { st0 with
               docsProcessed := st0.docsProcessed + 1
               linksPatched := st0.linksPatched + n }
           | .errorFetch => { st0 with failures := st0.failures + 1 }
           | .errorBatch _ => { st0 with failures := st0.failures + 1 }) := rfl
    have hef : entryFailed idMap maxA e =
        (match (processDocument idMap e.meta e.html e.fetchDoc e.batchCalls
            e.jitter maxA).outcome with
         | POutcome.errorFetch => true
         | POutcome.errorBatch _ => true
         | _ => false) := rfl
    rw [hstep, ih, List.countP_cons, hef]
    cases ho : (processDocument idMap e.meta e.html e.fetchDoc e.batchCalls
        e.jitter maxA).outcome
    all_goals simp only [ho]
    all_goals simp
    all_goals omega

/-- C5: the patcher never builds or submits a rewrite for a reference whose
target identity key is unmapped, and never updates a sheet. A record whose
metadata type is "sheet" (indeed anything other than "doc"), or whose own
doc: key is absent from the id map, is skipped with no service calls. Every
urlMap entry comes from a link whose goKey is present in the id map; every
built request rewrites an element whose canonicalised reference is a urlMap
key, to that key's mapped value; and every submitted BatchUpdate targets
the mapped destination of the record itself, with exactly the requests
built from a fetched document against that urlMap. -/
theorem patcher_unmapped_and_sheets
    (idMap : IdMap) (meta : Metadata) (html : Str)
    (fetchDoc : Str → Option GDocument) (batchCalls : Nat → Option ApiErr)
    (jitter : Nat → Nat) (maxA : Nat) :
    (meta.type = sheetTypeS →
      processDocument idMap meta html fetchDoc batchCalls jitter maxA =
        { outcome := .skippedNotDoc, calls := [] }) ∧
    (lookupGo idMap (docKeyPre ++ meta.id) = [] → meta.type = docTypeS →
      processDocument idMap meta html fetchDoc batchCalls jitter maxA =
        { outcome := .skippedUnmapped, calls := [] }) ∧
    (∀ k v, lookupA (buildURLMap html idMap) k = some v →
      ∃ kind id newID, lookupA idMap (goKey kind id) = some newID ∧
        k = stripQuery (gURL kind id) ∧ v = editURL kind newID) ∧
    (∀ doc urlMap q, q ∈ buildPatchRequests doc urlMap →
      ∃ el u, el ∈ flatElems doc ∧ linkURLOf el = some u ∧
        lookupA urlMap (canonicalLink u) = some q.url ∧
        q.startIndex = el.startIndex ∧ q.endIndex = el.endIndex) ∧
    (∀ docID reqs, PCall.batchUpdate docID reqs ∈
        (processDocument idMap meta html fetchDoc batchCalls jitter maxA).calls →
      docID = lookupGo idMap (docKeyPre ++ meta.id) ∧
      ∃ doc, fetchDoc docID = some doc ∧
        reqs = buildPatchRequests doc (buildURLMap html idMap)) := by
  refine ⟨?_, ?_, ?_, ?_, ?_⟩
  · intro h
    have hne : meta.type ≠ docTypeS := by rw [h]; decide
    rw [processDocument, if_pos hne]
  · intro h1 h2
    have hcond : ¬(meta.type ≠ docTypeS) := by rw [h2]; simp
    rw [processDocument, if_neg hcond]
    simp [h1]
  · exact buildURLMap_lookup html idMap
  · intro doc urlMap q hq
    rw [buildPatchRequests_spec] at hq
    rcases List.mem_filterMap.mp hq with ⟨el, hel, hsome⟩
    cases hl : linkURLOf el with
    | none =>
      simp only [reqOfElemP, hl] at hsome
      exact Option.noConfusion hsome
    | some u =>
      cases hk : lookupA urlMap (canonicalLink u) with
      | none =>
        simp only [reqOfElemP, hl, hk] at hsome
        exact Option.noConfusion hsome
      | some nu =>
        simp only [reqOfElemP, hl, hk] at hsome
        injection hsome with h
        subst h
        exact ⟨el, u, hel, hl, hk, rfl, rfl⟩
  · intro docID reqs hmem
    simp only [processDocument] at hmem
    split at hmem
    · simp at hmem
    · split at hmem
      · simp at hmem
      · split at hmem
        · simp at hmem
        · split at hmem
          · simp at hmem
          · next doc hfd =>
            split at hmem
            · simp at hmem
            · split at hmem
              all_goals
                rcases List.mem_cons.mp hmem with h | h
                · exact absurd h (by simp)
                · have h2 := List.eq_of_mem_replicate h
                  rw [PCall.batchUpdate.injEq] at h2
                  obtain ⟨h3, h4⟩ := h2
                  subst h3
                  exact ⟨rfl, doc, hfd, h4⟩

/-- C5 witness: a sheet record is skipped with no service calls. -/
theorem patcher_unmapped_and_sheets_witness :
    processDocument [] ⟨"T".data, "i12345".data, sheetTypeS, false⟩ [] (fun _ => none)
        (fun _ => none) (fun _ => 0) 6 =
      { outcome := POutcome.skippedNotDoc, calls := [] } :=
  (patcher_unmapped_and_sheets [] ⟨"T".data, "i12345".data, sheetTypeS, false⟩ []
    (fun _ => none) (fun _ => none) (fun _ => 0) 6).1 rfl

/-- C6: the retry policy of the patcher's batch submission. The attempt
ceiling is 6; only a googleapi 503 is retryable; any other error returns
after exactly one attempt with no sleeps; k < 6 transient 503s followed by
a success give success on attempt k+1 with one backoff sleep per retry;
six straight 503s exhaust the ceiling after exactly 6 attempts; the backoff
base delay doubles each attempt and each sleep is delay + jitter with
jitter below half the delay; and a patcher run always succeeds as a whole,
counting exactly the per-document errors as failures. -/
theorem patcher_retry_policy (calls : Nat → Option ApiErr) (jitter : Nat → Nat)
    (hj : ∀ i, jitter i < backoffDelay i / 2) :
    defaultPatcherConfig.maxRetryAttempts = 6 ∧
    (∀ e, retryable e = true ↔ e = ApiErr.google 503) ∧
    (∀ e, calls 0 = some e → retryable e = false →
      executeWithRetry defaultPatcherConfig.maxRetryAttempts calls jitter =
        { outcome := .error (.nonRetryable e), attempts := 1, sleeps := [] }) ∧
    (∀ k, k < defaultPatcherConfig.maxRetryAttempts →
      (∀ i, i < k → calls i = some (ApiErr.google 503)) → calls k = none →
      executeWithRetry defaultPatcherConfig.maxRetryAttempts calls jitter =
        { outcome := .ok (), attempts := k + 1,
          sleeps := (List.range k).map (fun i => backoffDelay i + jitter i) }) ∧
    ((∀ i, i < defaultPatcherConfig.maxRetryAttempts → calls i = some (ApiErr.google 503)) →
      executeWithRetry defaultPatcherConfig.maxRetryAttempts calls jitter =
        { outcome := .error (.exhausted defaultPatcherConfig.maxRetryAttempts),
          attempts := defaultPatcherConfig.maxRetryAttempts,
          sleeps := (List.range defaultPatcherConfig.maxRetryAttempts).map
            (fun i => backoffDelay i + jitter i) }) ∧
    (∀ i, backoffDelay (i + 1) = 2 * backoffDelay i) ∧
    (∀ i, backoffDelay i + jitter i < backoffDelay i + backoffDelay i / 2) ∧
    (∀ idMapFile entries maxA2, (patcherRun maxA2 idMapFile entries).ok = true) ∧
    (∀ idMap entries maxA2,
      (patcherRun maxA2 (some idMap) entries).stats.failures =
        entries.countP (entryFailed idMap maxA2)) := by
  refine ⟨rfl, retryable_iff, ?_, ?_, ?_, ?_, ?_, ?_, ?_⟩
  · intro e h0 hnr
    exact executeWithRetry_immediate calls jitter _ (by decide) e h0 hnr
  · intro k hk hfail hok
    exact executeWithRetry_success calls jitter _ k hk hfail hok
  · intro hfail
    exact executeWithRetry_exhausted calls jitter _ hfail
  · intro i
    simp [backoffDelay, pow_succ]
    ring
  · intro i
    have := hj i
    omega
  · intro idMapFile entries maxA2
    cases idMapFile <;> rfl
  · intro idMap entries maxA2
    have h : (patcherRun maxA2 (some idMap) entries).stats =
        processAllDocs idMap maxA2 entries ⟨0, 0, 0, 0⟩ := rfl
    rw [h, processAllDocs_failures]
    simp

/-- C6 witness: with zero jitter, two transient 503s then a success give
success on attempt 3 with two doubling backoff sleeps, and a non-503 error
returns after exactly one attempt without retrying. -/
theorem patcher_retry_policy_witness :
    executeWithRetry defaultPatcherConfig.maxRetryAttempts
        (fun i => if i < 2 then some (ApiErr.google 503) else none) (fun _ => 0) =
      { outcome := Except.ok (), attempts := 3,
        sleeps := [1000000000, 2000000000] } ∧
    executeWithRetry defaultPatcherConfig.maxRetryAttempts
        (fun _ => some ApiErr.other) (fun _ => 0) =
      { outcome := Except.error (RetryErr.nonRetryable ApiErr.other), attempts := 1,
        sleeps := [] } := by
  have hj : ∀ i, (fun _ : Nat => 0) i < backoffDelay i / 2 := by
    intro i
    show 0 < backoffDelay i / 2
    have h1 : 0 < 2 ^ i := pow_pos (by norm_num) i
    have h2 : 1000000000 ≤ 1000000000 * 2 ^ i := Nat.le_mul_of_pos_right 1000000000 h1
    unfold backoffDelay
    omega
  constructor
  · have h := (patcher_retry_policy
        (fun i => if i < 2 then some (ApiErr.google 503) else none) (fun _ => 0)
        hj).2.2.2.1 2 (by decide)
      (fun i hi => by
        have h01 : i = 0 ∨ i = 1 := by omega
        rcases h01 with rfl | rfl <;> rfl)
      rfl
    rw [h]
    rfl
  · exact (patcher_retry_policy (fun _ => some ApiErr.other) (fun _ => 0) hj).2.2.1
      ApiErr.other rfl rfl

/-- C7: walking a fetched document's paragraph elements, part_004 builds
exactly one UpdateTextStyle edit per text run whose reference target, after
unwrapping the redirector, stripping query/fragment and truncating to the
kind/d/id root (canonicalLinkTidy), is a key of the urlMap — the edit keyed
by that run's start/end range and carrying the mapped new URL — and all
edits for one document go out as a single BatchUpdate call. -/
theorem patcher_single_batch_exact (urlMap : List (Str × Str)) :
    (∀ doc, buildPatchRequestsT doc urlMap = (flatElems doc).filterMap (reqOfElem urlMap)) ∧
    (∀ e, (reqOfElem urlMap e).isSome = true ↔
      ∃ u, linkURLOf e = some u ∧ (lookupA urlMap (canonicalLinkTidy u)).isSome = true) ∧
    (∀ e q, reqOfElem urlMap e = some q →
      ∃ u nu, linkURLOf e = some u ∧ lookupA urlMap (canonicalLinkTidy u) = some nu ∧
        q = { startIndex := e.startIndex, endIndex := e.endIndex, url := nu }) ∧
    (∀ docID fetchDoc batchCalls jitter maxA doc,
      fetchDoc docID = some doc → buildPatchRequestsT doc urlMap = [] →
      (patchDocumentLinksT docID urlMap fetchDoc batchCalls jitter maxA).calls =
        [PCall.docGet docID]) ∧
    (∀ docID fetchDoc (batchCalls : Nat → Option ApiErr) jitter maxA doc,
      fetchDoc docID = some doc → buildPatchRequestsT doc urlMap ≠ [] →
      0 < maxA → batchCalls 0 = none →
      (patchDocumentLinksT docID urlMap fetchDoc batchCalls jitter maxA).calls =
        [PCall.docGet docID,
         PCall.batchUpdate docID (buildPatchRequestsT doc urlMap)]) := by
  refine ⟨fun doc => buildPatchRequestsT_spec doc urlMap, ?_, ?_, ?_, ?_⟩
  · intro e
    cases hl : linkURLOf e with
    | none => simp [reqOfElem, hl]
    | some u =>
      cases hk : lookupA urlMap (canonicalLinkTidy u) with
      | none => simp [reqOfElem, hl, hk]
      | some nu => simp [reqOfElem, hl, hk]
  · intro e q hq
    cases hl : linkURLOf e with
    | none =>
      simp only [reqOfElem, hl] at hq
      exact Option.noConfusion hq
    | some u =>
      cases hk : lookupA urlMap (canonicalLinkTidy u) with
      | none =>
        simp only [reqOfElem, hl, hk] at hq
        exact Option.noConfusion hq
      | some nu =>
        simp only [reqOfElem, hl, hk] at hq
        injection hq with h
        exact ⟨u, nu, rfl, hk, h.symm⟩
  · intro docID fetchDoc batchCalls jitter maxA doc hfd hreq
    simp [patchDocumentLinksT, hfd, hreq]
  · intro docID fetchDoc batchCalls jitter maxA doc hfd hreq hpos h0
    have hr := executeWithRetry_first_ok batchCalls jitter maxA hpos h0
    simp [patchDocumentLinksT, hfd, hreq, hr, List.replicate]

/-- C7 witness: on the fixture document, whose single text run carries
the mapped reference behind a view-mode suffix and tracking parameter, the
patch walk issues exactly one Documents.Get and one BatchUpdate with the
single built edit. -/
theorem patcher_single_batch_exact_witness :
    (patchDocumentLinksT "NEWDOC".data patchFixtureMap (fun _ => some patchFixtureDoc)
        (fun _ => none) (fun _ => 0) 6).calls =
      [PCall.docGet "NEWDOC".data,
       PCall.batchUpdate "NEWDOC".data
         (buildPatchRequestsT patchFixtureDoc patchFixtureMap)] :=
  (patcher_single_batch_exact patchFixtureMap).2.2.2.2 "NEWDOC".data
    (fun _ => some patchFixtureDoc) (fun _ => none) (fun _ => 0) 6 patchFixtureDoc
    rfl (by decide) (by decide) rfl

/-! ## Crawl-event depth discipline -/

theorem extractLinksM_depth (rs : Str → Str → Str) (t : Task) :
    ∀ (hrefs : List Str) (ts : List Task), extractLinksM rs t hrefs = some ts →
      ∀ n ∈ ts, n.depth = t.depth + 1 := by
  intro hrefs
  induction hrefs with
  | nil =>
    intro ts h n hn
    rw [extractLinksM] at h
    injection h with h2
    subst h2
    exact absurd hn (List.not_mem_nil n)
  | cons hh rest ih =>
    intro ts h n hn
    rw [extractLinksM] at h
    split at h
    · exact ih ts h n hn
    · split at h
      · exact Option.noConfusion h
      · split at h
        · exact Option.noConfusion h
        · next ts2 hts2 =>
          injection h with h2
          subst h2
          rcases List.mem_cons.mp hn with rfl | h3
          · rfl
          · exact ih ts2 hts2 n h3

theorem crawlStep_events_ok (cfg : Config) (env : Str → Option Page)
    (rs : Str → Str → Str) (sheetTitle : Str → Str) (st st' : CrawlState)
    (hstep : crawlStep cfg env rs sheetTitle st = some st')
    (hOK : ∀ e ∈ st.events, eventDepthOK cfg e = true) :
    ∀ e ∈ st'.events, eventDepthOK cfg e = true := by
  rw [crawlStep] at hstep
  split at hstep
  · exact Option.noConfusion hstep
  · split at hstep
    · exact Option.noConfusion hstep
    · next t rest =>
      injection hstep with h
      subst h
      split
      · intro e he
        rcases List.mem_append.mp he with h1 | h1
        · exact hOK e h1
        · rw [List.mem_singleton] at h1
          subst h1
          rfl
      · next hd =>
        split
        · intro e he
          rcases List.mem_append.mp he with h1 | h1
          · exact hOK e h1
          · rw [List.mem_singleton] at h1
            subst h1
            simp only [eventDepthOK, decide_eq_true_eq]
            omega
        · split
          · intro e he
            rcases List.mem_append.mp he with h1 | h1
            · exact hOK e h1
            · rw [List.mem_singleton] at h1
              subst h1
              simp only [eventDepthOK, decide_eq_true_eq]
              omega
          · split
            · split
              · intro e he
                exact hOK e he
              · split
                · intro e he
                  rcases List.mem_append.mp he with h1 | h1
                  · exact hOK e h1
                  · rw [List.mem_singleton] at h1
                    subst h1
                    simp only [eventDepthOK, decide_eq_true_eq]
                    omega
                · split
                  · intro e he
                    exact hOK e he
                  · split
                    · intro e he
                      rcases List.mem_append.mp he with h1 | h1
                      · exact hOK e h1
                      · rw [List.mem_singleton] at h1
                        subst h1
                        simp only [eventDepthOK, decide_eq_true_eq]
                        omega
                    · next nested hext =>
                      intro e he
                      rcases List.mem_append.mp he with h1 | h1
                      · exact hOK e h1
                      · rcases List.mem_cons.mp h1 with rfl | h2
                        · simp only [eventDepthOK, decide_eq_true_eq]
                          omega
                        · rcases List.mem_map.mp h2 with ⟨n, hn, rfl⟩
                          have hdep := extractLinksM_depth rs _ _ _ hext n hn
                          simp only [eventDepthOK, decide_eq_true_eq]
                          omega
            · split
              · intro e he
                exact hOK e he
              · split
                · intro e he
                  exact hOK e he
                · split
                  · intro e he
                    rcases List.mem_append.mp he with h1 | h1
                    · exact hOK e h1
                    · rw [List.mem_singleton] at h1
                      subst h1
                      simp only [eventDepthOK, decide_eq_true_eq]
                      omega
                  · intro e he
                    rcases List.mem_append.mp he with h1 | h1
                    · exact hOK e h1
                    · rw [List.mem_singleton] at h1
                      subst h1
                      simp only [eventDepthOK, decide_eq_true_eq]
                      omega

theorem crawlRun_events_ok (cfg : Config) (env : Str → Option Page)
    (rs : Str → Str → Str) (sheetTitle : Str → Str) :
    ∀ (fuel : Nat) (st : CrawlState),
      (∀ e ∈ st.events, eventDepthOK cfg e = true) →
      ∀ e ∈ (crawlRun cfg env rs sheetTitle fuel st).events, eventDepthOK cfg e = true := by
  intro fuel
  induction fuel with
  | zero => intro st h; exact h
  | succ n ih =>
    intro st h
    rw [crawlRun]
    cases hs : crawlStep cfg env rs sheetTitle st with
    | none => exact h
    | some st2 => exact ih st2 (crawlStep_events_ok cfg env rs sheetTitle st st2 hs h)

/-- C3 counterexample: crawling A with maxDepth 0, the reference to B is
discovered at depth 1 = maxDepth + 1 and IS recorded as a queued task (an
enq event in the trace), contrary to the claim; it is only discarded at its
own later dequeue (the dropDepth event). -/
theorem crawler_depth_counterexample :
    Event.enq crawlDocB ((⟨0⟩ : Config).maxDepth + 1) ∈
      (crawlRun ⟨0⟩ crawlFixtureEnv (fun _ h => h) (fun _ => []) 4
        (initState crawlDocA "out".data)).events ∧
    Event.dropDepth crawlDocB ((⟨0⟩ : Config).maxDepth + 1) ∈
      (crawlRun ⟨0⟩ crawlFixtureEnv (fun _ h => h) (fun _ => []) 4
        (initState crawlDocA "out".data)).events := by
  decide

/-- C3 (amended): the crawler never expands a task beyond maxDepth — every
fetch, duplicate-alias, scope-drop and fetch-failure event in any run's
trace concerns a depth ≤ maxDepth, and a task beyond maxDepth is dequeued
and discarded with only a dropDepth event, without fetch, persist, alias or
child extraction. However, a reference discovered at depth maxDepth + 1 MAY
be recorded as a queued task (an enq event): it is discarded only at its own
dequeue, not at discovery. -/
theorem crawler_depth_amended (cfg : Config) (env : Str → Option Page)
    (rs : Str → Str → Str) (sheetTitle : Str → Str) :
    (∀ (fuel : Nat) (st : CrawlState),
      (∀ e ∈ st.events, eventDepthOK cfg e = true) →
      ∀ e ∈ (crawlRun cfg env rs sheetTitle fuel st).events, eventDepthOK cfg e = true) ∧
    (∀ (st : CrawlState) (t : Task) (rest : List Task),
      st.panicked = false → st.queue = t :: rest → cfg.maxDepth < t.depth →
      crawlStep cfg env rs sheetTitle st =
        some { st with queue := rest,
                       events := st.events ++ [.dropDepth t.link t.depth] }) := by
  constructor
  · exact crawlRun_events_ok cfg env rs sheetTitle
  · intro st t rest hp hq hd
    rw [crawlStep, hp, hq]
    simp only [Bool.false_eq_true, if_false]
    rw [if_pos hd]

/-! ## Crawl termination and unique-fetch lemmas -/

theorem pot_pos (env : Str → Option Page) (rs : Str → Str → Str) (b : Nat) (link : Str) :
    0 < pot env rs b link := by
  cases b with
  | zero => exact Nat.one_pos
  | succ n =>
    rw [pot]
    omega

theorem crawlMeasure_zero_queue (cfg : Config) (env : Str → Option Page)
    (rs : Str → Str → Str) (st : CrawlState) (h : crawlMeasure cfg env rs st = 0) :
    st.queue = [] := by
  cases hq : st.queue with
  | nil => rfl
  | cons t ts =>
    rw [crawlMeasure, hq, List.map_cons, List.sum_cons] at h
    have := pot_pos env rs (taskBudget cfg t) t.link
    omega

theorem crawlStep_none_of_nil (cfg : Config) (env : Str → Option Page)
    (rs : Str → Str → Str) (sheetTitle : Str → Str) (st : CrawlState)
    (h : st.queue = []) : crawlStep cfg env rs sheetTitle st = none := by
  rw [crawlStep]
  split
  · rfl
  · rw [h]

theorem lookupA_mem_keys : ∀ (m : List (Str × Str)) (k v : Str),
    lookupA m k = some v → k ∈ m.map Prod.fst := by
  intro m
  induction m with
  | nil => intro k v h; exact Option.noConfusion h
  | cons p rest ih =>
    intro k v h
    rw [lookupA] at h
    by_cases hp : p.1 = k
    · subst hp
      simp
    · rw [if_neg hp] at h
      exact List.mem_cons_of_mem _ (ih k v h)

theorem lookupA_none_keys : ∀ (m : List (Str × Str)) (k : Str),
    lookupA m k = none → k ∉ m.map Prod.fst := by
  intro m
  induction m with
  | nil => intro k _; simp
  | cons p rest ih =>
    intro k h
    rw [lookupA] at h
    by_cases hp : p.1 = k
    · rw [if_pos hp] at h
      exact Option.noConfusion h
    · rw [if_neg hp] at h
      simp only [List.map_cons, List.mem_cons]
      rintro (h1 | h1)
      · exact hp h1.symm
      · exact ih k h h1

theorem fetchedKeys_append (a b : List Event) :
    fetchedKeys (a ++ b) = fetchedKeys a ++ fetchedKeys b :=
  List.filterMap_append a b _

theorem fetchedKeys_enq_map (l : List Task) :
    fetchedKeys (l.map (fun n => Event.enq n.link n.depth)) = [] := by
  induction l with
  | nil => rfl
  | cons n rest ih =>
    rw [List.map_cons]
    rw [show fetchedKeys
        (Event.enq n.link n.depth :: rest.map (fun n => Event.enq n.link n.depth)) =
        fetchedKeys (rest.map (fun n => Event.enq n.link n.depth)) from by
      rw [fetchedKeys, fetchedKeys, List.filterMap_cons]]
    exact ih

theorem dupKeys_mem_split (events : List Event) (k : Str) (h : k ∈ dupKeys events) :
    ∃ pre d post, events = pre ++ Event.dup k d :: post := by
  rcases List.mem_filterMap.mp h with ⟨e, he, hke⟩
  cases e with
  | fetchedDoc a b => exact Option.noConfusion hke
  | fetchedSheet a b => exact Option.noConfusion hke
  | dropDepth a b => exact Option.noConfusion hke
  | dropScope a b => exact Option.noConfusion hke
  | fetchFail a b => exact Option.noConfusion hke
  | enq a b => exact Option.noConfusion hke
  | dup k2 d =>
    have hk2 : k2 = k := by
      have h2 : some k2 = some k := hke
      exact Option.some.inj h2
    subst hk2
    obtain ⟨s, t2, hst⟩ := List.append_of_mem he
    exact ⟨s, d, t2, hst⟩

theorem dupOK_nil : DupOK [] := by
  intro pre k d post h
  cases pre with
  | nil => exact List.noConfusion h
  | cons a l => exact List.noConfusion h

theorem dupOK_append_one (es : List Event) (e : Event) (hOK : DupOK es)
    (hnew : ∀ k d, e = Event.dup k d → k ∈ fetchedKeys es) :
    DupOK (es ++ [e]) := by
  intro pre k d post heq
  rcases List.eq_nil_or_concat post with rfl | ⟨post2, q, rfl⟩
  · have hlen : es.length = pre.length := by
      have h2 := congrArg List.length heq
      simp at h2
      omega
    obtain ⟨h1, h2⟩ := List.append_inj heq hlen
    have he : e = Event.dup k d := by injection h2
    subst h1
    exact hnew k d he
  · have heq2 : es ++ [e] = (pre ++ Event.dup k d :: post2) ++ [q] := by
      rw [heq, List.concat_eq_append]
      simp [List.append_assoc]
    have hlen : es.length = (pre ++ Event.dup k d :: post2).length := by
      have h2 := congrArg List.length heq2
      simp at h2
      simp
      omega
    obtain ⟨h1, h2⟩ := List.append_inj heq2 hlen
    exact hOK pre k d post2 h1

theorem dupOK_append_list (es : List Event) :
    ∀ (l : List Event), DupOK es → (∀ k d, Event.dup k d ∈ l → k ∈ fetchedKeys es) →
      DupOK (es ++ l) := by
  intro l
  induction l generalizing es with
  | nil =>
    intro h _
    simpa using h
  | cons x l2 ih =>
    intro hOK hl
    have h1 : DupOK (es ++ [x]) :=
      dupOK_append_one es x hOK (fun k d he => hl k d (he ▸ List.mem_cons_self x l2))
    have h2 : ∀ k d, Event.dup k d ∈ l2 → k ∈ fetchedKeys (es ++ [x]) := by
      intro k d hm
      rw [fetchedKeys_append]
      exact List.mem_append_left _ (hl k d (List.mem_cons_of_mem x hm))
    have h3 := ih (es ++ [x]) h1 h2
    rw [List.append_assoc] at h3
    exact h3

theorem canonicalKey_shape (u : Str) :
    canonicalKey u = [] ∨ isPref docKeyPre (canonicalKey u) = true ∨
      isPref sheetKeyPre (canonicalKey u) = true := by
  rw [canonicalKey]
  cases docSub (canonicalLink u) with
  | some id => exact Or.inr (Or.inl (isPref_append_self _ _))
  | none =>
    cases sheetSub (canonicalLink u) with
    | some id => exact Or.inr (Or.inr (isPref_append_self _ _))
    | none => exact Or.inl rfl

theorem filteredHref_some (rs : Str → Str → Str) (base h u : Str)
    (hf : filteredHref rs base h = some u) :
    u ≠ [] ∧ ((docSub u).isSome = true ∨ (sheetSub u).isSome = true) := by
  rw [filteredHref] at hf
  split at hf
  · next hcond =>
    injection hf with h2
    subst h2
    exact hcond
  · exact Option.noConfusion hf

theorem extractLinksM_links (rs : Str → Str → Str) (t : Task) :
    ∀ (hrefs : List Str) (ts : List Task), extractLinksM rs t hrefs = some ts →
      ts.map (fun n => n.link) = nestedLinks rs t.link hrefs := by
  intro hrefs
  induction hrefs with
  | nil =>
    intro ts h
    injection h with h2
    subst h2
    rfl
  | cons hh rest ih =>
    intro ts h
    rw [extractLinksM] at h
    split at h
    · next hf =>
      rw [nestedLinks, List.filterMap_cons, hf]
      exact ih ts h
    · next href hf =>
      split at h
      · exact Option.noConfusion h
      · split at h
        · exact Option.noConfusion h
        · next ts2 hts2 =>
          injection h with h2
          subst h2
          rw [List.map_cons, nestedLinks, List.filterMap_cons, hf]
          rw [ih ts2 hts2]
          rfl

theorem goodLink_makeSlug (u : Str) (hu : goodLink u = true)
    (hsub : (docSub u).isSome = true ∨ (sheetSub u).isSome = true) :
    (makeSlug [] (extractIDFromURL u)).isSome = true := by
  rw [goodLink] at hu
  obtain ⟨h1, h2⟩ := (Bool.and_eq_true _ _).mp hu
  have hlen : 6 ≤ (extractIDFromURL u).length := by
    cases hdoc : docSub u with
    | some id =>
      rw [extractIDFromURL, hdoc]
      simpa [hdoc, decide_eq_true_eq] using h1
    | none =>
      cases hsheet : sheetSub u with
      | some id =>
        rw [extractIDFromURL, hdoc, hsheet]
        simpa [hsheet, decide_eq_true_eq] using h2
      | none =>
        rcases hsub with h3 | h3
        · rw [hdoc] at h3
          exact Bool.noConfusion h3
        · rw [hsheet] at h3
          exact Bool.noConfusion h3
  cases hms : makeSlug [] (extractIDFromURL u) with
  | some slug => rfl
  | none =>
    have := (makeSlug_none_iff [] (extractIDFromURL u)).mp hms
    omega

theorem extractLinksM_isSome (rs : Str → Str → Str) (t : Task) :
    ∀ (hrefs : List Str),
      (∀ h ∈ hrefs, ∀ u, filteredHref rs t.link h = some u → goodLink u = true) →
      (extractLinksM rs t hrefs).isSome = true := by
  intro hrefs
  induction hrefs with
  | nil => intro _; rfl
  | cons hh rest ih =>
    intro hgood
    rw [extractLinksM]
    cases hf : filteredHref rs t.link hh with
    | none => exact ih (fun h hm u hu => hgood h (List.mem_cons_of_mem hh hm) u hu)
    | some href =>
      have hgu := hgood hh (List.mem_cons_self hh rest) href hf
      have hprops := filteredHref_some rs t.link hh href hf
      have hslug := goodLink_makeSlug href hgu hprops.2
      have hrest := ih (fun h hm u hu => hgood h (List.mem_cons_of_mem hh hm) u hu)
      show (match makeSlug [] (extractIDFromURL href) with
            | none => none
            | some slug =>
              match extractLinksM rs t rest with
              | none => none
              | some ts =>
                some (({ link := href, depth := t.depth + 1,
                         parent := joinPath t.parent slug } : Task) :: ts)).isSome = true
      cases hms : makeSlug [] (extractIDFromURL href) with
      | none =>
        rw [hms] at hslug
        exact Bool.noConfusion hslug
      | some slug =>
        cases hr : extractLinksM rs t rest with
        | none =>
          rw [hr] at hrest
          exact Bool.noConfusion hrest
        | some ts => rfl

/-! ### One-step characterisations of the work-queue loop -/

theorem crawlStep_none_of_panic (cfg : Config) (env : Str → Option Page)
    (rs : Str → Str → Str) (sheetTitle : Str → Str) (st : CrawlState)
    (h : st.panicked = true) : crawlStep cfg env rs sheetTitle st = none := by
  rw [crawlStep, if_pos h]

theorem crawlStep_eq_dropDepth (cfg : Config) (env : Str → Option Page)
    (rs : Str → Str → Str) (sheetTitle : Str → Str) (st : CrawlState) (t : Task)
    (rest : List Task) (hp : st.panicked = false) (hq : st.queue = t :: rest)
    (hd : t.depth > cfg.maxDepth) :
    crawlStep cfg env rs sheetTitle st =
      some { st with queue := rest, events := st.events ++ [.dropDepth t.link t.depth] } := by
  rw [crawlStep, hp, hq]
  simp only [Bool.false_eq_true, if_false]
  rw [if_pos hd]

theorem crawlStep_eq_dropScope (cfg : Config) (env : Str → Option Page)
    (rs : Str → Str → Str) (sheetTitle : Str → Str) (st : CrawlState) (t : Task)
    (rest : List Task) (hp : st.panicked = false) (hq : st.queue = t :: rest)
    (hd : ¬(t.depth > cfg.maxDepth)) (hk : canonicalKey t.link = []) :
    crawlStep cfg env rs sheetTitle st =
      some { st with queue := rest, events := st.events ++ [.dropScope t.link t.depth] } := by
  rw [crawlStep, hp, hq]
  simp only [Bool.false_eq_true, if_false]
  rw [if_neg hd, if_pos hk]

theorem crawlStep_eq_dup (cfg : Config) (env : Str → Option Page)
    (rs : Str → Str → Str) (sheetTitle : Str → Str) (st : CrawlState) (t : Task)
    (rest : List Task) (dir : Str) (hp : st.panicked = false) (hq : st.queue = t :: rest)
    (hd : ¬(t.depth > cfg.maxDepth)) (hk : ¬(canonicalKey t.link = []))
    (hseen : lookupA st.seen (canonicalKey t.link) = some dir) :
    crawlStep cfg env rs sheetTitle st =
      some { st with queue := rest,
                     events := st.events ++ [.dup (canonicalKey t.link) t.depth] } := by
  rw [crawlStep, hp, hq]
  simp only [Bool.false_eq_true, if_false]
  rw [if_neg hd, if_neg hk, hseen]

theorem crawlStep_eq_docNoSub (cfg : Config) (env : Str → Option Page)
    (rs : Str → Str → Str) (sheetTitle : Str → Str) (st : CrawlState) (t : Task)
    (rest : List Task) (hp : st.panicked = false) (hq : st.queue = t :: rest)
    (hd : ¬(t.depth > cfg.maxDepth)) (hk : ¬(canonicalKey t.link = []))
    (hseen : lookupA st.seen (canonicalKey t.link) = none)
    (hpre : isPref docKeyPre (canonicalKey t.link) = true)
    (hdoc : docSub t.link = none) :
    crawlStep cfg env rs sheetTitle st =
      some { st with queue := rest, panicked := true } := by
  rw [crawlStep, hp, hq]
  simp only [Bool.false_eq_true, if_false]
  rw [if_neg hd, if_neg hk, hseen, if_pos hpre, hdoc]

theorem crawlStep_eq_docFetchFail (cfg : Config) (env : Str → Option Page)
    (rs : Str → Str → Str) (sheetTitle : Str → Str) (st : CrawlState) (t : Task)
    (rest : List Task) (id : Str) (hp : st.panicked = false) (hq : st.queue = t :: rest)
    (hd : ¬(t.depth > cfg.maxDepth)) (hk : ¬(canonicalKey t.link = []))
    (hseen : lookupA st.seen (canonicalKey t.link) = none)
    (hpre : isPref docKeyPre (canonicalKey t.link) = true)
    (hdoc : docSub t.link = some id) (henv : env t.link = none) :
    crawlStep cfg env rs sheetTitle st =
      some { st with queue := rest, events := st.events ++ [.fetchFail t.link t.depth] } := by
  rw [crawlStep, hp, hq]
  simp only [Bool.false_eq_true, if_false]
  simp only [if_neg hd, if_neg hk, hseen, if_pos hpre, hdoc, henv]

theorem crawlStep_eq_docSlugPanic (cfg : Config) (env : Str → Option Page)
    (rs : Str → Str → Str) (sheetTitle : Str → Str) (st : CrawlState) (t : Task)
    (rest : List Task) (id : Str) (page : Page) (hp : st.panicked = false)
    (hq : st.queue = t :: rest) (hd : ¬(t.depth > cfg.maxDepth))
    (hk : ¬(canonicalKey t.link = []))
    (hseen : lookupA st.seen (canonicalKey t.link) = none)
    (hpre : isPref docKeyPre (canonicalKey t.link) = true)
    (hdoc : docSub t.link = some id) (henv : env t.link = some page)
    (hslug : makeSlug page.title id = none) :
    crawlStep cfg env rs sheetTitle st =
      some { st with queue := rest, panicked := true } := by
  rw [crawlStep, hp, hq]
  simp only [Bool.false_eq_true, if_false]
  simp only [if_neg hd, if_neg hk, hseen, if_pos hpre, hdoc, henv, hslug]

theorem crawlStep_eq_docExtractPanic (cfg : Config) (env : Str → Option Page)
    (rs : Str → Str → Str) (sheetTitle : Str → Str) (st : CrawlState) (t : Task)
    (rest : List Task) (id slug : Str) (page : Page) (hp : st.panicked = false)
    (hq : st.queue = t :: rest) (hd : ¬(t.depth > cfg.maxDepth))
    (hk : ¬(canonicalKey t.link = []))
    (hseen : lookupA st.seen (canonicalKey t.link) = none)
    (hpre : isPref docKeyPre (canonicalKey t.link) = true)
    (hdoc : docSub t.link = some id) (henv : env t.link = some page)
    (hslug : makeSlug page.title id = some slug)
    (hext : extractLinksM rs t page.hrefs = none) :
    crawlStep cfg env rs sheetTitle st =
      some { st with
             queue := rest
             panicked := true
             events := st.events ++ [.fetchedDoc (canonicalKey t.link) t.depth] } := by
  rw [crawlStep, hp, hq]
  simp only [Bool.false_eq_true, if_false]
  simp only [if_neg hd, if_neg hk, hseen, if_pos hpre, hdoc, henv, hslug, hext]

theorem crawlStep_eq_docSuccess (cfg : Config) (env : Str → Option Page)
    (rs : Str → Str → Str) (sheetTitle : Str → Str) (st : CrawlState) (t : Task)
    (rest : List Task) (id slug : Str) (page : Page) (nested : List Task)
    (hp : st.panicked = false) (hq : st.queue = t :: rest)
    (hd : ¬(t.depth > cfg.maxDepth)) (hk : ¬(canonicalKey t.link = []))
    (hseen : lookupA st.seen (canonicalKey t.link) = none)
    (hpre : isPref docKeyPre (canonicalKey t.link) = true)
    (hdoc : docSub t.link = some id) (henv : env t.link = some page)
    (hslug : makeSlug page.title id = some slug)
    (hext : extractLinksM rs t page.hrefs = some nested) :
    crawlStep cfg env rs sheetTitle st =
      some { st with
             queue := rest ++ nested
             seen := st.seen ++ [(canonicalKey t.link, joinPath t.parent slug)]
             events := st.events ++ .fetchedDoc (canonicalKey t.link) t.depth ::
               nested.map (fun n => .enq n.link n.depth) } := by
  rw [crawlStep, hp, hq]
  simp only [Bool.false_eq_true, if_false]
  simp only [if_neg hd, if_neg hk, hseen, if_pos hpre, hdoc, henv, hslug, hext]

theorem crawlStep_eq_sheetNoSub (cfg : Config) (env : Str → Option Page)
    (rs : Str → Str → Str) (sheetTitle : Str → Str) (st : CrawlState) (t : Task)
    (rest : List Task) (hp : st.panicked = false) (hq : st.queue = t :: rest)
    (hd : ¬(t.depth > cfg.maxDepth)) (hk : ¬(canonicalKey t.link = []))
    (hseen : lookupA st.seen (canonicalKey t.link) = none)
    (hpre : ¬(isPref docKeyPre (canonicalKey t.link) = true))
    (hsheet : sheetSub t.link = none) :
    crawlStep cfg env rs sheetTitle st =
      some { st with queue := rest, panicked := true } := by
  rw [crawlStep, hp, hq]
  simp only [Bool.false_eq_true, if_false]
  rw [if_neg hd, if_neg hk, hseen, if_neg hpre, hsheet]

theorem crawlStep_eq_sheetSlugPanic (cfg : Config) (env : Str → Option Page)
    (rs : Str → Str → Str) (sheetTitle : Str → Str) (st : CrawlState) (t : Task)
    (rest : List Task) (id : Str) (hp : st.panicked = false) (hq : st.queue = t :: rest)
    (hd : ¬(t.depth > cfg.maxDepth)) (hk : ¬(canonicalKey t.link = []))
    (hseen : lookupA st.seen (canonicalKey t.link) = none)
    (hpre : ¬(isPref docKeyPre (canonicalKey t.link) = true))
    (hsheet : sheetSub t.link = some id)
    (hslug : makeSlug (sheetTitle id) id = none) :
    crawlStep cfg env rs sheetTitle st =
      some { st with queue := rest, panicked := true } := by
  rw [crawlStep, hp, hq]
  simp only [Bool.false_eq_true, if_false]
  simp only [if_neg hd, if_neg hk, hseen, if_neg hpre, hsheet, hslug]

theorem crawlStep_eq_sheetFetchFail (cfg : Config) (env : Str → Option Page)
    (rs : Str → Str → Str) (sheetTitle : Str → Str) (st : CrawlState) (t : Task)
    (rest : List Task) (id slug : Str) (hp : st.panicked = false)
    (hq : st.queue = t :: rest) (hd : ¬(t.depth > cfg.maxDepth))
    (hk : ¬(canonicalKey t.link = []))
    (hseen : lookupA st.seen (canonicalKey t.link) = none)
    (hpre : ¬(isPref docKeyPre (canonicalKey t.link) = true))
    (hsheet : sheetSub t.link = some id)
    (hslug : makeSlug (sheetTitle id) id = some slug) (henv : env t.link = none) :
    crawlStep cfg env rs sheetTitle st =
      some { st with queue := rest, events := st.events ++ [.fetchFail t.link t.depth] } := by
  rw [crawlStep, hp, hq]
  simp only [Bool.false_eq_true, if_false]
  simp only [if_neg hd, if_neg hk, hseen, if_neg hpre, hsheet, hslug, henv]

theorem crawlStep_eq_sheetSuccess (cfg : Config) (env : Str → Option Page)
    (rs : Str → Str → Str) (sheetTitle : Str → Str) (st : CrawlState) (t : Task)
    (rest : List Task) (id slug : Str) (page : Page) (hp : st.panicked = false)
    (hq : st.queue = t :: rest) (hd : ¬(t.depth > cfg.maxDepth))
    (hk : ¬(canonicalKey t.link = []))
    (hseen : lookupA st.seen (canonicalKey t.link) = none)
    (hpre : ¬(isPref docKeyPre (canonicalKey t.link) = true))
    (hsheet : sheetSub t.link = some id)
    (hslug : makeSlug (sheetTitle id) id = some slug) (henv : env t.link = some page) :
    crawlStep cfg env rs sheetTitle st =
      some { st with
             queue := rest
             seen := st.seen ++ [(canonicalKey t.link, joinPath t.parent slug)]
             events := st.events ++ [.fetchedSheet (canonicalKey t.link) t.depth] } := by
  rw [crawlStep, hp, hq]
  simp only [Bool.false_eq_true, if_false]
  simp only [if_neg hd, if_neg hk, hseen, if_neg hpre, hsheet, hslug, henv]

theorem crawlMeasure_mk (cfg : Config) (env : Str → Option Page) (rs : Str → Str → Str)
    (q : List Task) (seen : List (Str × Str)) (events : List Event) (panicked : Bool) :
    crawlMeasure cfg env rs ⟨q, seen, events, panicked⟩ =
      (q.map (fun x => pot env rs (taskBudget cfg x) x.link)).sum := rfl

theorem crawlMeasure_decreases (cfg : Config) (env : Str → Option Page)
    (rs : Str → Str → Str) (sheetTitle : Str → Str) (st st' : CrawlState)
    (hstep : crawlStep cfg env rs sheetTitle st = some st') :
    crawlMeasure cfg env rs st' < crawlMeasure cfg env rs st := by
  by_cases hp : st.panicked = true
  · rw [crawlStep_none_of_panic cfg env rs sheetTitle st hp] at hstep
    exact Option.noConfusion hstep
  · have hp2 : st.panicked = false := by
      revert hp
      cases st.panicked <;> simp
    cases hq : st.queue with
    | nil =>
      rw [crawlStep_none_of_nil cfg env rs sheetTitle st hq] at hstep
      exact Option.noConfusion hstep
    | cons t rest =>
      have hpt := pot_pos env rs (taskBudget cfg t) t.link
      have hrhs : crawlMeasure cfg env rs st =
          pot env rs (taskBudget cfg t) t.link +
            (rest.map (fun x => pot env rs (taskBudget cfg x) x.link)).sum := by
        rw [crawlMeasure, hq, List.map_cons, List.sum_cons]
      by_cases hd : t.depth > cfg.maxDepth
      · rw [crawlStep_eq_dropDepth cfg env rs sheetTitle st t rest hp2 hq hd] at hstep
        injection hstep with h
        subst h
        rw [crawlMeasure_mk, hrhs]
        omega
      · by_cases hkey : canonicalKey t.link = []
        · rw [crawlStep_eq_dropScope cfg env rs sheetTitle st t rest hp2 hq hd hkey] at hstep
          injection hstep with h
          subst h
          rw [crawlMeasure_mk, hrhs]
          omega
        · cases hseen : lookupA st.seen (canonicalKey t.link) with
          | some dir =>
            rw [crawlStep_eq_dup cfg env rs sheetTitle st t rest dir hp2 hq hd hkey
              hseen] at hstep
            injection hstep with h
            subst h
            rw [crawlMeasure_mk, hrhs]
            omega
          | none =>
            by_cases hpre : isPref docKeyPre (canonicalKey t.link) = true
            · cases hdoc : docSub t.link with
              | none =>
                rw [crawlStep_eq_docNoSub cfg env rs sheetTitle st t rest hp2 hq hd hkey
                  hseen hpre hdoc] at hstep
                injection hstep with h
                subst h
                rw [crawlMeasure_mk, hrhs]
                omega
              | some id =>
                cases henv : env t.link with
                | none =>
                  rw [crawlStep_eq_docFetchFail cfg env rs sheetTitle st t rest id hp2 hq
                    hd hkey hseen hpre hdoc henv] at hstep
                  injection hstep with h
                  subst h
                  rw [crawlMeasure_mk, hrhs]
                  omega
                | some page =>
                  cases hslug : makeSlug page.title id with
                  | none =>
                    rw [crawlStep_eq_docSlugPanic cfg env rs sheetTitle st t rest id page
                      hp2 hq hd hkey hseen hpre hdoc henv hslug] at hstep
                    injection hstep with h
                    subst h
                    rw [crawlMeasure_mk, hrhs]
                    omega
                  | some slug =>
                    cases hext : extractLinksM rs t page.hrefs with
                    | none =>
                      rw [crawlStep_eq_docExtractPanic cfg env rs sheetTitle st t rest id
                        slug page hp2 hq hd hkey hseen hpre hdoc henv hslug hext] at hstep
                      injection hstep with h
                      subst h
                      rw [crawlMeasure_mk, hrhs]
                      omega
                    | some nested =>
                      rw [crawlStep_eq_docSuccess cfg env rs sheetTitle st t rest id slug
                        page nested hp2 hq hd hkey hseen hpre hdoc henv hslug hext] at hstep
                      injection hstep with h
                      subst h
                      rw [crawlMeasure_mk, hrhs, List.map_append, List.sum_append]
                      have hdepth := extractLinksM_depth rs t page.hrefs nested hext
                      have hmap : nested.map (fun x => pot env rs (taskBudget cfg x) x.link) =
                          nested.map (fun x => pot env rs (cfg.maxDepth - t.depth) x.link) := by
                        apply List.map_congr_left
                        intro n hn
                        have hb : taskBudget cfg n = cfg.maxDepth - t.depth := by
                          rw [taskBudget, hdepth n hn]
                          omega
                        rw [hb]
                      have hlinks :
                          nested.map (fun x => pot env rs (cfg.maxDepth - t.depth) x.link) =
                          (nestedLinks rs t.link page.hrefs).map
                            (pot env rs (cfg.maxDepth - t.depth)) := by
                        rw [← extractLinksM_links rs t page.hrefs nested hext, List.map_map]
                        rfl
                      have hbt : taskBudget cfg t = (cfg.maxDepth - t.depth) + 1 := by
                        rw [taskBudget]
                        omega
                      have hnlo : nestedLinksOf env rs t.link =
                          nestedLinks rs t.link page.hrefs := by
                        rw [nestedLinksOf, if_pos hpre, henv]
                      rw [hmap, hlinks, hbt, pot, hnlo]
                      omega
            · cases hsheet : sheetSub t.link with
              | none =>
                rw [crawlStep_eq_sheetNoSub cfg env rs sheetTitle st t rest hp2 hq hd hkey
                  hseen hpre hsheet] at hstep
                injection hstep with h
                subst h
                rw [crawlMeasure_mk, hrhs]
                omega
              | some id =>
                cases hslug : makeSlug (sheetTitle id) id with
                | none =>
                  rw [crawlStep_eq_sheetSlugPanic cfg env rs sheetTitle st t rest id hp2 hq
                    hd hkey hseen hpre hsheet hslug] at hstep
                  injection hstep with h
                  subst h
                  rw [crawlMeasure_mk, hrhs]
                  omega
                | some slug =>
                  cases henv : env t.link with
                  | none =>
                    rw [crawlStep_eq_sheetFetchFail cfg env rs sheetTitle st t rest id slug
                      hp2 hq hd hkey hseen hpre hsheet hslug henv] at hstep
                    injection hstep with h
                    subst h
                    rw [crawlMeasure_mk, hrhs]
                    omega
                  | some page =>
                    rw [crawlStep_eq_sheetSuccess cfg env rs sheetTitle st t rest id slug
                      page hp2 hq hd hkey hseen hpre hsheet hslug henv] at hstep
                    injection hstep with h
                    subst h
                    rw [crawlMeasure_mk, hrhs]
                    omega

theorem crawlRun_halts (cfg : Config) (env : Str → Option Page) (rs : Str → Str → Str)
    (sheetTitle : Str → Str) :
    ∀ (fuel : Nat) (st : CrawlState), crawlMeasure cfg env rs st ≤ fuel →
      crawlStep cfg env rs sheetTitle (crawlRun cfg env rs sheetTitle fuel st) = none := by
  intro fuel
  induction fuel with
  | zero =>
    intro st h
    exact crawlStep_none_of_nil cfg env rs sheetTitle st
      (crawlMeasure_zero_queue cfg env rs st (Nat.le_zero.mp h))
  | succ n ih =>
    intro st h
    cases hs : crawlStep cfg env rs sheetTitle st with
    | none =>
      rw [crawlRun, hs]
      exact hs
    | some st2 =>
      rw [crawlRun, hs]
      have hlt := crawlMeasure_decreases cfg env rs sheetTitle st st2 hs
      exact ih st2 (by omega)

theorem fetchedKeys_nil : fetchedKeys [] = [] := rfl

theorem fetchedKeys_cons_doc (k : Str) (d : Nat) (l : List Event) :
    fetchedKeys (Event.fetchedDoc k d :: l) = k :: fetchedKeys l := rfl

theorem fetchedKeys_cons_sheet (k : Str) (d : Nat) (l : List Event) :
    fetchedKeys (Event.fetchedSheet k d :: l) = k :: fetchedKeys l := rfl

theorem crawlInv_pop (st : CrawlState) (t : Task) (rest : List Task) (e : Event)
    (hinv : CrawlInv st) (hq : st.queue = t :: rest)
    (hfk : fetchedKeys [e] = [])
    (hnew : ∀ k d, e = Event.dup k d → k ∈ fetchedKeys st.events) :
    CrawlInv { st with queue := rest, events := st.events ++ [e] } := by
  obtain ⟨hp, hg, hsk, hnd, hdupok⟩ := hinv
  refine ⟨hp, ?_, ?_, ?_, ?_⟩
  · intro t2 ht2
    exact hg t2 (by rw [hq]; exact List.mem_cons_of_mem t ht2)
  · show fetchedKeys (st.events ++ [e]) = st.seen.map Prod.fst
    rw [fetchedKeys_append, hfk, List.append_nil]
    exact hsk
  · show (fetchedKeys (st.events ++ [e])).Nodup
    rw [fetchedKeys_append, hfk, List.append_nil]
    exact hnd
  · show DupOK (st.events ++ [e])
    exact dupOK_append_one st.events e hdupok hnew

theorem crawlStep_inv (cfg : Config) (env : Str → Option Page) (rs : Str → Str → Str)
    (sheetTitle : Str → Str)
    (hG : ∀ l page, env l = some page → ∀ h ∈ page.hrefs, ∀ u,
      filteredHref rs l h = some u → goodLink u = true)
    (hsucc : ∀ l, goodLink l = true → (env l).isSome = true)
    (st st' : CrawlState) (hstep : crawlStep cfg env rs sheetTitle st = some st')
    (hinv : CrawlInv st) : CrawlInv st' := by
  by_cases hp : st.panicked = true
  · rw [crawlStep_none_of_panic cfg env rs sheetTitle st hp] at hstep
    exact Option.noConfusion hstep
  · have hp2 : st.panicked = false := by
      revert hp
      cases st.panicked <;> simp
    cases hq : st.queue with
    | nil =>
      rw [crawlStep_none_of_nil cfg env rs sheetTitle st hq] at hstep
      exact Option.noConfusion hstep
    | cons t rest =>
      have htq : t ∈ st.queue := by
        rw [hq]
        exact List.mem_cons_self t rest
      have hgt : goodLink t.link = true := hinv.2.1 t htq
      by_cases hd : t.depth > cfg.maxDepth
      · rw [crawlStep_eq_dropDepth cfg env rs sheetTitle st t rest hp2 hq hd] at hstep
        injection hstep with h
        subst h
        exact crawlInv_pop st t rest _ hinv hq rfl (fun k d he => Event.noConfusion he)
      · by_cases hkey : canonicalKey t.link = []
        · rw [crawlStep_eq_dropScope cfg env rs sheetTitle st t rest hp2 hq hd hkey] at hstep
          injection hstep with h
          subst h
          exact crawlInv_pop st t rest _ hinv hq rfl (fun k d he => Event.noConfusion he)
        · cases hseen : lookupA st.seen (canonicalKey t.link) with
          | some dir =>
            rw [crawlStep_eq_dup cfg env rs sheetTitle st t rest dir hp2 hq hd hkey
              hseen] at hstep
            injection hstep with h
            subst h
            refine crawlInv_pop st t rest _ hinv hq rfl ?_
            intro k d he
            have hk2 : canonicalKey t.link = k := by injection he
            rw [hinv.2.2.1]
            rw [← hk2]
            exact lookupA_mem_keys st.seen (canonicalKey t.link) dir hseen
          | none =>
            by_cases hpre : isPref docKeyPre (canonicalKey t.link) = true
            · cases hdoc : docSub t.link with
              | none =>
                exfalso
                rw [goodLink] at hgt
                obtain ⟨h1, h2⟩ := (Bool.and_eq_true _ _).mp hgt
                rw [hdoc] at h1
                have h1b : (!(isPref docKeyPre (canonicalKey t.link))) = true := h1
                rw [hpre] at h1b
                exact Bool.noConfusion h1b
              | some id =>
                cases henv : env t.link with
                | none =>
                  exfalso
                  have hi := hsucc t.link hgt
                  rw [henv] at hi
                  exact Bool.noConfusion hi
                | some page =>
                  cases hslug : makeSlug page.title id with
                  | none =>
                    exfalso
                    rw [goodLink] at hgt
                    obtain ⟨h1, h2⟩ := (Bool.and_eq_true _ _).mp hgt
                    rw [hdoc] at h1
                    have h1b : decide (6 ≤ id.length) = true := h1
                    have hlen := of_decide_eq_true h1b
                    have hlt := (makeSlug_none_iff page.title id).mp hslug
                    omega
                  | some slug =>
                    cases hext : extractLinksM rs t page.hrefs with
                    | none =>
                      exfalso
                      have hiss := extractLinksM_isSome rs t page.hrefs
                        (fun h hh u hf => hG t.link page henv h hh u hf)
                      rw [hext] at hiss
                      exact Bool.noConfusion hiss
                    | some nested =>
                      rw [crawlStep_eq_docSuccess cfg env rs sheetTitle st t rest id slug
                        page nested hp2 hq hd hkey hseen hpre hdoc henv hslug hext] at hstep
                      injection hstep with h
                      subst h
                      obtain ⟨hp0, hg, hsk, hnd, hdupok⟩ := hinv
                      refine ⟨hp0, ?_, ?_, ?_, ?_⟩
                      · intro t2 ht2
                        rcases List.mem_append.mp ht2 with h1 | h1
                        · exact hg t2 (by rw [hq]; exact List.mem_cons_of_mem t h1)
                        · have hlink : t2.link ∈ nested.map (fun n => n.link) :=
                            List.mem_map_of_mem _ h1
                          rw [extractLinksM_links rs t page.hrefs nested hext] at hlink
                          rcases List.mem_filterMap.mp hlink with ⟨h3, hh3, hf3⟩
                          exact hG t.link page henv h3 hh3 t2.link hf3
                      · show fetchedKeys (st.events ++
                            Event.fetchedDoc (canonicalKey t.link) t.depth ::
                              nested.map (fun n => Event.enq n.link n.depth)) =
                          (st.seen ++
                            [(canonicalKey t.link, joinPath t.parent slug)]).map Prod.fst
                        rw [fetchedKeys_append, fetchedKeys_cons_doc, fetchedKeys_enq_map,
                          hsk, List.map_append]
                        rfl
                      · show (fetchedKeys (st.events ++
                            Event.fetchedDoc (canonicalKey t.link) t.depth ::
                              nested.map (fun n => Event.enq n.link n.depth))).Nodup
                        rw [fetchedKeys_append, fetchedKeys_cons_doc, fetchedKeys_enq_map]
                        have hnot : canonicalKey t.link ∉ fetchedKeys st.events := by
                          rw [hsk]
                          exact lookupA_none_keys st.seen _ hseen
                        simp [List.nodup_append, hnd, hnot]
                      · show DupOK (st.events ++
                            Event.fetchedDoc (canonicalKey t.link) t.depth ::
                              nested.map (fun n => Event.enq n.link n.depth))
                        apply dupOK_append_list
                        · exact hdupok
                        · intro k2 d2 hm
                          rcases List.mem_cons.mp hm with h1 | h1
                          · exact Event.noConfusion h1
                          · rcases List.mem_map.mp h1 with ⟨n, hn, h2⟩
                            exact Event.noConfusion h2
            · cases hsheet : sheetSub t.link with
              | none =>
                exfalso
                rw [goodLink] at hgt
                obtain ⟨h1, h2⟩ := (Bool.and_eq_true _ _).mp hgt
                rw [hsheet] at h2
                have h2b : (!(isPref sheetKeyPre (canonicalKey t.link))) = true := h2
                rcases canonicalKey_shape t.link with h3 | h3 | h3
                · exact hkey h3
                · exact hpre h3
                · rw [h3] at h2b
                  exact Bool.noConfusion h2b
              | some id =>
                cases hslug : makeSlug (sheetTitle id) id with
                | none =>
                  exfalso
                  rw [goodLink] at hgt
                  obtain ⟨h1, h2⟩ := (Bool.and_eq_true _ _).mp hgt
                  rw [hsheet] at h2
                  have h2b : decide (6 ≤ id.length) = true := h2
                  have hlen := of_decide_eq_true h2b
                  have hlt := (makeSlug_none_iff (sheetTitle id) id).mp hslug
                  omega
                | some slug =>
                  cases henv : env t.link with
                  | none =>
                    exfalso
                    have hi := hsucc t.link hgt
                    rw [henv] at hi
                    exact Bool.noConfusion hi
                  | some page =>
                    rw [crawlStep_eq_sheetSuccess cfg env rs sheetTitle st t rest id slug
                      page hp2 hq hd hkey hseen hpre hsheet hslug henv] at hstep
                    injection hstep with h
                    subst h
                    obtain ⟨hp0, hg, hsk, hnd, hdupok⟩ := hinv
                    refine ⟨hp0, ?_, ?_, ?_, ?_⟩
                    · intro t2 ht2
                      exact hg t2 (by rw [hq]; exact List.mem_cons_of_mem t ht2)
                    · show fetchedKeys (st.events ++
                          [Event.fetchedSheet (canonicalKey t.link) t.depth]) =
                        (st.seen ++
                          [(canonicalKey t.link, joinPath t.parent slug)]).map Prod.fst
                      rw [fetchedKeys_append, fetchedKeys_cons_sheet, hsk, List.map_append]
                      rfl
                    · show (fetchedKeys (st.events ++
                          [Event.fetchedSheet (canonicalKey t.link) t.depth])).Nodup
                      rw [fetchedKeys_append, fetchedKeys_cons_sheet, fetchedKeys_nil]
                      have hnot : canonicalKey t.link ∉ fetchedKeys st.events := by
                        rw [hsk]
                        exact lookupA_none_keys st.seen _ hseen
                      simp [List.nodup_append, hnd, hnot]
                    · show DupOK (st.events ++
                          [Event.fetchedSheet (canonicalKey t.link) t.depth])
                      exact dupOK_append_one st.events _ hdupok
                        (fun k d he => Event.noConfusion he)

theorem crawlRun_inv (cfg : Config) (env : Str → Option Page) (rs : Str → Str → Str)
    (sheetTitle : Str → Str)
    (hG : ∀ l page, env l = some page → ∀ h ∈ page.hrefs, ∀ u,
      filteredHref rs l h = some u → goodLink u = true)
    (hsucc : ∀ l, goodLink l = true → (env l).isSome = true) :
    ∀ (fuel : Nat) (st : CrawlState), CrawlInv st →
      CrawlInv (crawlRun cfg env rs sheetTitle fuel st) := by
  intro fuel
  induction fuel with
  | zero => intro st h; exact h
  | succ n ih =>
    intro st h
    rw [crawlRun]
    cases hs : crawlStep cfg env rs sheetTitle st with
    | none => exact h
    | some st2 => exact ih st2 (crawlStep_inv cfg env rs sheetTitle hG hsucc st st2 hs h)

theorem count_eq_one_nodup (k : Str) : ∀ (l : List Str), l.Nodup → k ∈ l →
    l.count k = 1 := by
  intro l
  induction l with
  | nil =>
    intro _ h
    exact absurd h (List.not_mem_nil k)
  | cons x rest ih =>
    intro hnd hm
    rw [List.count_cons]
    by_cases hx : k = x
    · subst hx
      have hnx : k ∉ rest := (List.nodup_cons.mp hnd).1
      have h0 : rest.count k = 0 := by
        rw [List.count_eq_zero]
        exact hnx
      rw [h0]
      simp
    · have h1 : k ∈ rest := by
        rcases List.mem_cons.mp hm with h2 | h2
        · exact absurd h2 hx
        · exact h2
      rw [ih (List.nodup_cons.mp hnd).2 h1]
      have hx2 : ¬x = k := fun h2 => hx h2.symm
      simp [hx, hx2]

/-- C1: the work-queue loop terminates — within crawlMeasure iterations the
loop halts — on every reference graph, including cyclic ones; and on a good
graph (no slug/regex panics, all in-scope fetches succeed) every run from
the start task fetches and persists each identity key exactly once: the
fetch trace mirrors the seen map, no key is fetched twice, every
encountered key has exactly one fetch, and a dequeued already-seen key only
records its alias (dup event), with no fetch, no enqueue and no change to
the seen map. -/
theorem crawler_terminates_unique (cfg : Config) (env : Str → Option Page)
    (rs : Str → Str → Str) (sheetTitle : Str → Str) (startURL outDir : Str) :
    (∀ (fuel : Nat) (st : CrawlState), crawlMeasure cfg env rs st ≤ fuel →
      crawlStep cfg env rs sheetTitle (crawlRun cfg env rs sheetTitle fuel st) = none) ∧
    (GoodCrawl env rs startURL →
     (∀ l, goodLink l = true → (env l).isSome = true) →
     ∀ fuel : Nat,
       (crawlRun cfg env rs sheetTitle fuel (initState startURL outDir)).panicked = false ∧
       fetchedKeys (crawlRun cfg env rs sheetTitle fuel
           (initState startURL outDir)).events =
         (crawlRun cfg env rs sheetTitle fuel (initState startURL outDir)).seen.map
           Prod.fst ∧
       (fetchedKeys (crawlRun cfg env rs sheetTitle fuel
           (initState startURL outDir)).events).Nodup ∧
       (∀ k, k ∈ encounteredKeys (crawlRun cfg env rs sheetTitle fuel
           (initState startURL outDir)).events →
         (fetchedKeys (crawlRun cfg env rs sheetTitle fuel
             (initState startURL outDir)).events).count k = 1)) ∧
    (∀ (st : CrawlState) (t : Task) (rest : List Task) (dir : Str),
      st.panicked = false → st.queue = t :: rest → t.depth ≤ cfg.maxDepth →
      canonicalKey t.link ≠ [] → lookupA st.seen (canonicalKey t.link) = some dir →
      crawlStep cfg env rs sheetTitle st =
        some { st with queue := rest,
                       events := st.events ++ [.dup (canonicalKey t.link) t.depth] }) := by
  refine ⟨crawlRun_halts cfg env rs sheetTitle, ?_, ?_⟩
  · intro hgood hsucc fuel
    have hinv0 : CrawlInv (initState startURL outDir) := by
      refine ⟨rfl, ?_, rfl, List.nodup_nil, dupOK_nil⟩
      intro t ht
      have ht2 : t = { link := startURL, depth := 0, parent := outDir } := by
        simpa [initState] using ht
      rw [ht2]
      exact hgood.1
    have hr := crawlRun_inv cfg env rs sheetTitle hgood.2 hsucc fuel
      (initState startURL outDir) hinv0
    obtain ⟨hpn, hqg, hsk, hnd, hdup⟩ := hr
    refine ⟨hpn, hsk, hnd, ?_⟩
    intro k hk
    rw [encounteredKeys] at hk
    rcases List.mem_append.mp hk with h1 | h1
    · exact count_eq_one_nodup k _ hnd h1
    · obtain ⟨pre, d, post, hsplit⟩ := dupKeys_mem_split _ k h1
      have hkf := hdup pre k d post hsplit
      have hmem : k ∈ fetchedKeys (crawlRun cfg env rs sheetTitle fuel
          (initState startURL outDir)).events := by
        rw [hsplit, fetchedKeys_append]
        exact List.mem_append_left _ hkf
      exact count_eq_one_nodup k _ hnd hmem
  · intro st t rest dir hp hq hd hk hseen
    exact crawlStep_eq_dup cfg env rs sheetTitle st t rest dir hp hq (by omega) hk hseen

/-- C1 witness: on the cyclic two-document fixture (A links to B, B links
back to A) with maxDepth 2, the loop has halted within measure-many
iterations and key doc:aaaaaa — encountered twice, the second time as a
seen-map duplicate — was fetched exactly once. -/
theorem crawler_terminates_unique_witness :
    crawlStep ⟨2⟩ crawlFixtureEnv (fun _ h => h) (fun _ => [])
        (crawlRun ⟨2⟩ crawlFixtureEnv (fun _ h => h) (fun _ => []) 5
          (initState crawlDocA "out".data)) = none ∧
    (fetchedKeys (crawlRun ⟨2⟩ crawlFixtureEnv (fun _ h => h) (fun _ => []) 5
        (initState crawlDocA "out".data)).events).count "doc:aaaaaa".data = 1 := by
  have hgood : GoodCrawl crawlFixtureEnv (fun _ h => h) crawlDocA := by
    constructor
    · decide
    · intro l page henv h hh u hf
      simp only [crawlFixtureEnv] at henv
      split at henv
      · next hl =>
        subst hl
        injection henv with hpage
        subst hpage
        rw [List.mem_singleton] at hh
        subst hh
        rw [show filteredHref (fun _ h => h) crawlDocA crawlDocB = some crawlDocB from by
          decide] at hf
        injection hf with h2
        subst h2
        decide
      · split at henv
        · next hl2 =>
          subst hl2
          injection henv with hpage
          subst hpage
          rw [List.mem_singleton] at hh
          subst hh
          rw [show filteredHref (fun _ h => h) crawlDocB crawlDocA = some crawlDocA from by
            decide] at hf
          injection hf with h2
          subst h2
          decide
        · injection henv with hpage
          subst hpage
          exact absurd hh (List.not_mem_nil h)
  have hsucc : ∀ l, goodLink l = true → (crawlFixtureEnv l).isSome = true := by
    intro l hl
    rw [crawlFixtureEnv]
    split
    · rfl
    · split
      · rfl
      · rfl
  constructor
  · exact (crawler_terminates_unique ⟨2⟩ crawlFixtureEnv (fun _ h => h) (fun _ => [])
      crawlDocA "out".data).1 5 (initState crawlDocA "out".data) (by decide)
  · exact ((crawler_terminates_unique ⟨2⟩ crawlFixtureEnv (fun _ h => h) (fun _ => [])
      crawlDocA "out".data).2.1 hgood hsucc 5).2.2.2 "doc:aaaaaa".data (by decide)

/-- C3 witness: in the maxDepth-0 fixture run the enq event for B sits at
depth maxDepth + 1 (the amended bound is tight), and a pending depth-1 task
is dequeued into exactly a dropDepth event. -/
theorem crawler_depth_amended_witness :
    eventDepthOK ⟨0⟩ (Event.enq crawlDocB 1) = true ∧
    crawlStep ⟨0⟩ crawlFixtureEnv (fun _ h => h) (fun _ => [])
        ⟨[⟨crawlDocB, 1, "out".data⟩], [], [], false⟩ =
      some ⟨[], [], [Event.dropDepth crawlDocB 1], false⟩ := by
  constructor
  · exact (crawler_depth_amended ⟨0⟩ crawlFixtureEnv (fun _ h => h) (fun _ => [])).1
      4 (initState crawlDocA "out".data) (by simp [initState]) _ (by decide)
  · exact (crawler_depth_amended ⟨0⟩ crawlFixtureEnv (fun _ h => h) (fun _ => [])).2
      ⟨[⟨crawlDocB, 1, "out".data⟩], [], [], false⟩ ⟨crawlDocB, 1, "out".data⟩
      [] rfl rfl (by decide)

end GdocPipeline
